import Mathlib

/-!
# vecpaper: frame cache, codec glue, output selection, start-up and teardown

A shallow embedding of `src/main.c` of vecpaper (a shader wallpaper for
wlroots compositors) and proofs about it.

Conventions of the embedding

* A C `int` is an `Int`; arithmetic that the source performs in `int` is
  followed by `wrapInt` (two's-complement wrap-around to 32 bits, what the
  usual compilers produce for the overflow the C standard leaves undefined).
* A buffer is a `List Byte`, a C string a `List Char` or a `String`; every
  access is bounds checked, an access outside the buffer is reported as
  `Outcome.fault`.
* `malloc` returns a buffer for every size up to `PTRDIFF_MAX`.
* A `float` that the source obtains from an `int` is kept as its value, an
  integer (`int_to_float`).
* libjpeg, the compositor connection and the GL context are not part of the
  repository: the library is a parameter (`JpegLib`), the values returned by
  the connection and by GL are the per-tick inputs of the scheduler
  (`TickInput`), the file system is a parameter of start-up (`StartEnv`).
  What a theorem needs of libwayland is a hypothesis on the inputs
  (`DispatchFailurePersists`).
* A loop whose end is not evident from its form (`replace_all`) takes fuel;
  its theorems state how much fuel is enough.
-/

namespace Vecpaper

/-! ## Machine integers and memory -/

/-- An `unsigned char`. Bytes are only copied by the code, never computed with. -/
abbrev Byte := Nat

/-- Largest value of a C `int`. -/
def INT_MAX : Int := 2147483647

/-- Value of an `int` expression after wrap-around to 32 bits, two's complement. -/
def wrapInt (x : Int) : Int := (x + 2147483648) % 4294967296 - 2147483648

/-- The conversion `(unsigned int)x`, also the implicit one of `cinfo.image_width = w`. -/
def toUnsigned (x : Int) : Nat := (x % 4294967296).toNat

/-- The conversion `(size_t)x` of an `int` on a 64-bit target. -/
def toSize (x : Int) : Nat := (x % 18446744073709551616).toNat

/-- Number of low bits that a magnitude loses when it is stored in the 24 bits
of the significand of a `float`; `fuel` bounds the halvings, 8 are enough for
the magnitude of an `int`. -/
def float_shift : Nat → Nat → Nat
  | 0, _ => 0
  | fuel + 1, a => if a < 16777216 then 0 else float_shift fuel (a / 2) + 1

/-- The conversion `(float)v` of an `int` (IEEE binary32, round to nearest,
ties to even). The value of the result is an integer, which is what is kept. -/
def int_to_float (v : Int) : Int :=
  let a := v.natAbs
  let e := float_shift 8 a
  let q := a / 2 ^ e
  let r := a % 2 ^ e
  let q1 := if 2 * r > 2 ^ e ∨ (2 * r = 2 ^ e ∧ q % 2 = 1) then q + 1 else q
  v.sign * ((q1 * 2 ^ e : Nat) : Int)

/-- Requests above `PTRDIFF_MAX` bytes are refused by `malloc`; exhaustion of
memory by smaller requests is not modelled. -/
def mallocOk (n : Nat) : Bool := decide (n ≤ 9223372036854775807)

/-- What a call of a function of the source can do. -/
inductive Outcome (α : Type) where
  /-- the function returned this (non-`NULL`) value -/
  | ok (a : α)
  /-- the function returned `NULL` -/
  | null
  /-- the function accessed memory outside a buffer (undefined behaviour) -/
  | fault
  deriving Repr, DecidableEq

/-- The read `buf[i]`. -/
def readAt (buf : List Byte) (i : Int) : Option Byte :=
  if 0 ≤ i then buf[i.toNat]? else none

/-- The write `buf[i] = v`. -/
def writeAt (buf : List Byte) (i : Int) (v : Byte) : Option (List Byte) :=
  if 0 ≤ i ∧ i.toNat < buf.length then some (buf.set i.toNat v) else none

/-! ## libjpeg as a parameter -/

/-- The calls the source makes into libjpeg. `none` stands for the library
calling `error_exit`, which the source turns into a `longjmp` back to its
`setjmp` and a `NULL` result. The compressor is described by the parameters
and the scanlines it was handed so far, the decompressor by the data and the
number of scanlines already produced. -/
structure JpegLib where
  /-- `jpeg_create_compress` .. `jpeg_start_compress` for `image_width`,
  `image_height` and quality: `false` when `error_exit` is raised -/
  start_compress : Nat → Nat → Int → Bool
  /-- `jpeg_write_scanlines(&cinfo, row_pointer, 1)`: the number of lines
  taken, after the scanlines of the list were taken by earlier calls -/
  write_scanlines : Nat → Nat → Int → List (List Byte) → List Byte → Option Nat
  /-- `jpeg_finish_compress`: the contents of the output buffer -/
  finish_compress : Nat → Nat → Int → List (List Byte) → Option (List Byte)
  /-- `jpeg_create_decompress`, `jpeg_mem_src`, `jpeg_read_header`,
  `jpeg_start_decompress` on a pointer (absent when `NULL`) and a size:
  `output_width` and `output_height` -/
  start_decompress : Option (List Byte) → Nat → Option (Nat × Nat)
  /-- `jpeg_read_scanlines(&cinfo, row_pointer, 1)` when `output_scanline`
  has the given value: the returned count and the bytes put into the row -/
  read_scanlines : Option (List Byte) → Nat → Nat → Option (Nat × List Byte)

/-! ## compress_jpeg -/

/-- One pass of the body of `for (int x = 0; x < w; x++)` in `compress_jpeg`:
copies R, G, B of pixel `(y, x)` into the row, `none` on an access outside
`rgba` or `rgb_row`. -/
def compress_pixel (rgba : List Byte) (w y : Int) (rgb_row : List Byte) (x : Int) :
    Option (List Byte) :=
  let rgba_idx := wrapInt (wrapInt (wrapInt (y * w) + x) * 4)
  let rgb_idx := wrapInt (x * 3)
  match readAt rgba (wrapInt (rgba_idx + 0)) with
  | none => none
  | some r =>
    match writeAt rgb_row (wrapInt (rgb_idx + 0)) r with
    | none => none
    | some row0 =>
      match readAt rgba (wrapInt (rgba_idx + 1)) with
      | none => none
      | some g =>
        match writeAt row0 (wrapInt (rgb_idx + 1)) g with
        | none => none
        | some row1 =>
          match readAt rgba (wrapInt (rgba_idx + 2)) with
          | none => none
          | some b => writeAt row1 (wrapInt (rgb_idx + 2)) b

/-- The loop `for (int x = 0; x < w; x++)` of `compress_jpeg` from `x` on, with
`n` passes left (`n = w - x`; `x < w` keeps `x++` inside `int`). -/
def compress_row : List Byte → Int → Int → Nat → Int → List Byte → Option (List Byte)
  | _, _, _, 0, _, rgb_row => some rgb_row
  | rgba, w, y, n + 1, x, rgb_row =>
    match compress_pixel rgba w y rgb_row x with
    | none => none
    | some row => compress_row rgba w y n (x + 1) row

/-- The loop `while (cinfo.next_scanline < cinfo.image_height)` of
`compress_jpeg` with `n` scanlines left; `done` are the scanlines the library
has taken, so `cinfo.next_scanline = done.length`. -/
def compress_scanlines (lib : JpegLib) (rgba : List Byte) (w : Int) (iw ih : Nat) (q : Int) :
    Nat → List (List Byte) → List Byte → Outcome (List Byte)
  | 0, done, _ =>
    match lib.finish_compress iw ih q done with
    | none => Outcome.null
    | some out => Outcome.ok out
  | n + 1, done, rgb_row =>
    let y := wrapInt (done.length : Int)
    match compress_row rgba w y w.toNat 0 rgb_row with
    | none => Outcome.fault
    | some row =>
      match lib.write_scanlines iw ih q done row with
      | none => Outcome.null
      | some count =>
        if count = 1 then compress_scanlines lib rgba w iw ih q n (done ++ [row]) row
        else Outcome.null

/-- The function `compress_jpeg(rgba, w, h, quality, &out_size)`: the
compressed bytes (`out_size` is their number). -/
def compress_jpeg (lib : JpegLib) (rgba : List Byte) (w h quality : Int) :
    Outcome (List Byte) :=
  let iw := toUnsigned w
  let ih := toUnsigned h
  if lib.start_compress iw ih quality = false then Outcome.null
  else
    let row_stride := wrapInt (w * 3)
    if mallocOk (toSize row_stride) = false then Outcome.null
    else
      compress_scanlines lib rgba w iw ih quality ih [] (List.replicate (toSize row_stride) 0)

/-! ## decompress_jpeg -/

/-- One pass of the body of `for (int x = 0; x < w; x++)` in
`decompress_jpeg`: copies sample `x` of the row into pixel `(row_idx, x)` and
sets its alpha to 255. -/
def decompress_pixel (rgb_row : List Byte) (w row_idx : Int) (rgba : List Byte) (x : Int) :
    Option (List Byte) :=
  let rgb_offset := wrapInt (x * 3)
  let rgba_offset := wrapInt (wrapInt (wrapInt (row_idx * w) + x) * 4)
  match readAt rgb_row (wrapInt (rgb_offset + 0)) with
  | none => none
  | some r =>
    match writeAt rgba (wrapInt (rgba_offset + 0)) r with
    | none => none
    | some out0 =>
      match readAt rgb_row (wrapInt (rgb_offset + 1)) with
      | none => none
      | some g =>
        match writeAt out0 (wrapInt (rgba_offset + 1)) g with
        | none => none
        | some out1 =>
          match readAt rgb_row (wrapInt (rgb_offset + 2)) with
          | none => none
          | some b =>
            match writeAt out1 (wrapInt (rgba_offset + 2)) b with
            | none => none
            | some out2 => writeAt out2 (wrapInt (rgba_offset + 3)) 255

/-- The loop `for (int x = 0; x < w; x++)` of `decompress_jpeg` from `x` on,
with `n` passes left. -/
def decompress_row : List Byte → Int → Int → Nat → Int → List Byte → Option (List Byte)
  | _, _, _, 0, _, rgba => some rgba
  | rgb_row, w, row_idx, n + 1, x, rgba =>
    match decompress_pixel rgb_row w row_idx rgba x with
    | none => none
    | some out => decompress_row rgb_row w row_idx n (x + 1) out

/-- The library depositing a scanline in the row buffer: writing more bytes
than the buffer holds is an access outside it. -/
def deposit (rgb_row line : List Byte) : Option (List Byte) :=
  if line.length ≤ rgb_row.length then some (line ++ rgb_row.drop line.length) else none

/-- The loop `while (cinfo.output_scanline < cinfo.output_height)` of
`decompress_jpeg` with `n` scanlines left and `output_scanline = k`. -/
def decompress_scanlines (lib : JpegLib) (data : Option (List Byte)) (size : Nat) (w : Int) :
    Nat → Nat → List Byte → List Byte → Outcome (List Byte)
  | 0, _, _, rgba => Outcome.ok rgba
  | n + 1, k, rgb_row, rgba =>
    match lib.read_scanlines data size k with
    | none => Outcome.null
    | some (count, line) =>
      if count = 1 then
        match deposit rgb_row line with
        | none => Outcome.fault
        | some row =>
          let row_idx := wrapInt (((k + 1 : Nat) : Int) - 1)
          match decompress_row row w row_idx w.toNat 0 rgba with
          | none => Outcome.fault
          | some out => decompress_scanlines lib data size w n (k + 1) row out
      else Outcome.null

/-- The function `decompress_jpeg(jpeg_data, jpeg_size, w, h)`. The buffers
come from `malloc`; their indeterminate first contents are zeros here. -/
def decompress_jpeg (lib : JpegLib) (jpeg_data : Option (List Byte)) (jpeg_size : Nat)
    (w h : Int) : Outcome (List Byte) :=
  match lib.start_decompress jpeg_data jpeg_size with
  | none => Outcome.null
  | some (output_width, output_height) =>
    if output_width ≠ toUnsigned w ∨ output_height ≠ toUnsigned h then Outcome.null
    else
      let rgba_size := (toSize w * toSize h * 4) % 18446744073709551616
      if mallocOk rgba_size = false then Outcome.null
      else
        let row_size := (toSize w * 3) % 18446744073709551616
        if mallocOk row_size = false then Outcome.null
        else
          decompress_scanlines lib jpeg_data jpeg_size w output_height 0
            (List.replicate row_size 0) (List.replicate rgba_size 0)

/-- A library for experiments that keeps the samples as they are: the data are
the width, the height and then the scanlines. It refuses empty images and
images beyond 65500 pixels a side, as libjpeg does. -/
def rawLib : JpegLib where
  start_compress := fun iw ih _ => decide (1 ≤ iw ∧ iw ≤ 65500 ∧ 1 ≤ ih ∧ ih ≤ 65500)
  write_scanlines := fun iw ih _ done row =>
    if done.length < ih ∧ row.length = 3 * iw then some 1 else none
  finish_compress := fun iw ih _ done =>
    if done.length = ih then some (iw :: ih :: done.flatten) else none
  start_decompress := fun data _ =>
    match data with
    | some (iw :: ih :: _) => some (iw, ih)
    | _ => none
  read_scanlines := fun data _ k =>
    match data with
    | some (iw :: _ :: rest) => some (1, (rest.drop (3 * iw * k)).take (3 * iw))
    | _ => none

/-! ## What is assumed of libjpeg -/

/-- The constant `JPEG_MAX_DIMENSION` of libjpeg (`jmorecfg.h`). -/
def JPEG_MAX_DIMENSION : Nat := 65500

/-- The behaviour of libjpeg that the round trip relies on, for an RGB image
of at least one pixel, of at most `JPEG_MAX_DIMENSION` pixels a side and a
quality from 1 to 100: set-up raises no error; each call of
`jpeg_write_scanlines` takes the scanline it is given; `jpeg_finish_compress`
leaves data from which the decompressor reports the width and height of the
compression and delivers that many scanlines of three samples per pixel. -/
structure JpegLib.Faithful (lib : JpegLib) : Prop where
  start_ok : ∀ (iw ih : Nat) (q : Int), 1 ≤ iw → iw ≤ JPEG_MAX_DIMENSION → 1 ≤ ih →
    ih ≤ JPEG_MAX_DIMENSION → 1 ≤ q → q ≤ 100 → lib.start_compress iw ih q = true
  write_ok : ∀ (iw ih : Nat) (q : Int) (done : List (List Byte)) (row : List Byte),
    lib.start_compress iw ih q = true → done.length < ih → row.length = 3 * iw →
    lib.write_scanlines iw ih q done row = some 1
  finish_ok : ∀ (iw ih : Nat) (q : Int) (rows : List (List Byte)),
    lib.start_compress iw ih q = true → rows.length = ih →
    (∀ row ∈ rows, row.length = 3 * iw) →
    ∃ data, lib.finish_compress iw ih q rows = some data ∧
      lib.start_decompress (some data) data.length = some (iw, ih) ∧
      ∀ k, k < ih → ∃ line, lib.read_scanlines (some data) data.length k = some (1, line) ∧
        line.length = 3 * iw

/-! ## Start-up of `main` -/

/-- Lines 911-921 of `main`: a frame rate of at most 1 ends the process
(`none`), otherwise the value of the global `cache_length`, which stays 0
unless `cache_seconds > 0`. The product is an `int` product. -/
def main_cache_length (fps cache_seconds : Int) : Option Int :=
  if fps ≤ 1 then none
  else if cache_seconds > 0 then some (wrapInt (fps * cache_seconds))
  else some 0

/-! ## The render loop and the cache loop of `main` -/

/-- One `struct cached_frame`; `jpeg_data` is absent while the pointer is `NULL`. -/
structure cached_frame where
  jpeg_data : Option (List Byte)
  jpeg_size : Nat
  deriving Repr, DecidableEq

/-- What is fixed when the loops of `main` start. -/
structure Config where
  lib : JpegLib
  cache_length : Int
  w : Int
  h : Int
  cache_quality : Int
  running_hyprland : Bool
  /-- the field `hyprland_monitor_geom` of the target display -/
  geom_x : Int
  geom_y : Int

/-- What one pass of a loop receives from outside the program. -/
structure TickInput where
  /-- value of `wl_display_dispatch_pending(display)` -/
  dispatch : Int
  /-- position reported by `hyprctl_get_cursor_pos` -/
  cursor_x : Int
  cursor_y : Int
  /-- bytes that `glReadPixels` puts into `raw` -/
  pixels : List Byte
  /-- value of `glGetError()`, 0 being `GL_NO_ERROR` -/
  gl_error : Nat
  /-- whether the passthrough program compiles and links in `compile_gl_program` -/
  passthrough_ok : Bool

/-- Where the control of `main` is. -/
inductive Phase where
  /-- in the main render loop (lines 1007-1064) -/
  | render
  /-- in the cache render loop (lines 1094-1128) -/
  | playback
  /-- the process has ended with this status -/
  | exited (status : Int)
  /-- the process accessed memory outside a buffer -/
  | crashed
  deriving Repr, DecidableEq

/-- The observable actions of the loops, in the order they happen. -/
inductive Event where
  /-- the user's shader is drawn in the pass with this `current_frame` -/
  | live_draw (tick : Int)
  /-- `glUniform2f(mouse_loc, mouse_x, mouse_y)` inside the render loop, with the
  values of the two `float`s, which are integers -/
  | pointer (x y : Int)
  /-- `compress_jpeg` is called in the pass with this `current_frame` -/
  | encode (tick : Int)
  /-- `frame_cache[slot]` is assigned, after this many completed passes -/
  | store (slot : Int) (tick : Nat)
  /-- the block `if(cache_length > 0)` after the render loop is entered -/
  | enter_playback
  /-- `decompress_jpeg` is called on `frame_cache[slot]` -/
  | decode (slot : Int)
  /-- `glTexSubImage2D` is given the result of decoding `frame_cache[slot]`,
  absent when that result is `NULL` -/
  | upload (slot : Int) (pixels : Option (List Byte))
  /-- `eglSwapBuffers` -/
  | present
  /-- `cleanup()` is called -/
  | cleanup
  /-- `wl_display_disconnect(display)` at the end of `main` -/
  | disconnect
  deriving Repr, DecidableEq

/-- The variables of `main` that the loops change. -/
structure Sched where
  phase : Phase
  current_frame : Int
  frame_idx : Int
  /-- the array `frame_cache`, empty while the pointer is `NULL` -/
  frame_cache : List cached_frame
  /-- completed passes of the render loop; `global_time` is this many `FRAME_TIME` -/
  ticks : Nat
  trace : List Event
  deriving Repr, DecidableEq

/-- State when the render loop is reached: `current_frame = 0`, and
`frame_cache` is `calloc(cache_length, ..)` when `cache_length > 0`. -/
def Sched.init (cfg : Config) : Sched :=
  { phase := Phase.render
    current_frame := 0
    frame_idx := 0
    frame_cache :=
      if cfg.cache_length > 0 then
        List.replicate cfg.cache_length.toNat { jpeg_data := none, jpeg_size := 0 }
      else []
    ticks := 0
    trace := [] }

/-- Lines 1033-1038: `raw = malloc(w * h * 4)`, `glReadPixels` into it,
`compress_jpeg(raw, w, h, cache_quality, &jpeg_size)`. -/
def tick_encode (cfg : Config) (inp : TickInput) : Outcome (List Byte) :=
  let raw_size := toSize (wrapInt (wrapInt (cfg.w * cfg.h) * 4))
  if mallocOk raw_size = false then Outcome.fault
  else
    match deposit (List.replicate raw_size 0) inp.pixels with
    | none => Outcome.fault
    | some raw => compress_jpeg cfg.lib raw cfg.w cfg.h cfg.cache_quality

/-- The assignment to `frame_cache[i]`. -/
def store_frame (cache : List cached_frame) (i : Int) (jpeg : List Byte) :
    Option (List cached_frame) :=
  if 0 ≤ i ∧ i.toNat < cache.length then
    some (cache.set i.toNat { jpeg_data := some jpeg, jpeg_size := jpeg.length })
  else none

/-- The read of `frame_cache[i]`. -/
def load_frame (cache : List cached_frame) (i : Int) : Option cached_frame :=
  if 0 ≤ i then cache[i.toNat]? else none

/-- Control leaves the render loop (its condition failed or `break`): lines
1066-1092 and 1130-1131. -/
def leave_render (cfg : Config) (s : Sched) (inp : TickInput) : Sched :=
  if cfg.cache_length > 0 then
    if inp.passthrough_ok then
      { s with phase := Phase.playback, frame_idx := 0,
               trace := s.trace ++ [Event.enter_playback] }
    else
      { s with phase := Phase.exited 1, trace := s.trace ++ [Event.enter_playback] }
  else
    { s with phase := Phase.exited 0, trace := s.trace ++ [Event.disconnect] }

/-- Lines 1051-1063, the end of a pass of the render loop. -/
def finish_render (s : Sched) (inp : TickInput) (tr : List Event) : Sched :=
  if inp.gl_error ≠ 0 then
    { s with phase := Phase.exited 1, trace := tr ++ [Event.cleanup] }
  else
    { s with current_frame := wrapInt (s.current_frame + 1), ticks := s.ticks + 1,
             trace := tr ++ [Event.present] }

/-- One evaluation of the condition of the render loop and, when it holds,
one pass of its body (lines 1007-1064). -/
def render_step (cfg : Config) (s : Sched) (inp : TickInput) : Sched :=
  if inp.dispatch = -1 then leave_render cfg s inp
  else if cfg.cache_length > 0 ∧ s.current_frame = cfg.cache_length then
    leave_render cfg s inp
  else
    let tr0 :=
      if cfg.running_hyprland = true ∧ cfg.cache_length ≤ 0 then
        s.trace ++ [Event.pointer (int_to_float (wrapInt (inp.cursor_x - cfg.geom_x)))
          (int_to_float (wrapInt (inp.cursor_y - cfg.geom_y)))]
      else s.trace
    let tr1 := tr0 ++ [Event.live_draw s.current_frame]
    if cfg.cache_length > 0 then
      match tick_encode cfg inp with
      | Outcome.fault =>
        { s with phase := Phase.crashed, trace := tr1 ++ [Event.encode s.current_frame] }
      | Outcome.null =>
        { s with phase := Phase.exited 1,
                 trace := tr1 ++ [Event.encode s.current_frame, Event.cleanup] }
      | Outcome.ok jpeg =>
        match store_frame s.frame_cache s.current_frame jpeg with
        | none =>
          { s with phase := Phase.crashed, trace := tr1 ++ [Event.encode s.current_frame] }
        | some cache =>
          finish_render { s with frame_cache := cache } inp
            (tr1 ++ [Event.encode s.current_frame, Event.store s.current_frame s.ticks])
    else finish_render s inp tr1

/-- One evaluation of the condition of the cache render loop and, when it
holds, one pass of its body (lines 1094-1128). -/
def playback_step (cfg : Config) (s : Sched) (inp : TickInput) : Sched :=
  if inp.dispatch = -1 then
    { s with phase := Phase.exited 0, trace := s.trace ++ [Event.disconnect] }
  else
    match load_frame s.frame_cache s.frame_idx with
    | none => { s with phase := Phase.crashed }
    | some fr =>
      match decompress_jpeg cfg.lib fr.jpeg_data fr.jpeg_size cfg.w cfg.h with
      | Outcome.fault =>
        { s with phase := Phase.crashed, trace := s.trace ++ [Event.decode s.frame_idx] }
      | Outcome.null =>
        let tr := s.trace ++ [Event.decode s.frame_idx, Event.upload s.frame_idx none]
        if inp.gl_error ≠ 0 then
          { s with phase := Phase.exited 1, trace := tr ++ [Event.cleanup] }
        else
          { s with frame_idx := Int.tmod (wrapInt (s.frame_idx + 1)) cfg.cache_length,
                   trace := tr ++ [Event.present] }
      | Outcome.ok rgba =>
        let tr := s.trace ++ [Event.decode s.frame_idx, Event.upload s.frame_idx (some rgba)]
        if inp.gl_error ≠ 0 then
          { s with phase := Phase.exited 1, trace := tr ++ [Event.cleanup] }
        else
          { s with frame_idx := Int.tmod (wrapInt (s.frame_idx + 1)) cfg.cache_length,
                   trace := tr ++ [Event.present] }

/-- One call of `wl_display_dispatch_pending` and what `main` does until the
next one. -/
def step (cfg : Config) (s : Sched) (inp : TickInput) : Sched :=
  match s.phase with
  | Phase.render => render_step cfg s inp
  | Phase.playback => playback_step cfg s inp
  | Phase.exited _ => s
  | Phase.crashed => s

/-- The loops of `main` on the inputs of successive calls of
`wl_display_dispatch_pending`. -/
def run (cfg : Config) (inputs : List TickInput) : Sched :=
  inputs.foldl (step cfg) (Sched.init cfg)

/-- The `store` events of a trace, in order: the slot and the number of
passes completed before. -/
@[simp] def stored : List Event → List (Int × Nat)
  | [] => []
  | Event.store slot tick :: rest => (slot, tick) :: stored rest
  | _ :: rest => stored rest

/-- What follows the first `decode` event of a trace (nothing when there is none). -/
@[simp] def after_first_decode : List Event → List Event
  | [] => []
  | Event.decode _ :: rest => rest
  | _ :: rest => after_first_decode rest

/-- Slots of the `decode` events of a trace, in order. -/
@[simp] def decoded_slots : List Event → List Int
  | [] => []
  | Event.decode slot :: rest => slot :: decoded_slots rest
  | _ :: rest => decoded_slots rest

/-- Slots of the `upload` events of a trace, in order. -/
@[simp] def uploaded_slots : List Event → List Int
  | [] => []
  | Event.upload slot _ :: rest => slot :: uploaded_slots rest
  | _ :: rest => uploaded_slots rest

/-- Pixel buffers of the `upload` events of a trace, in order. -/
@[simp] def uploaded_pixels : List Event → List (Option (List Byte))
  | [] => []
  | Event.upload _ px :: rest => px :: uploaded_pixels rest
  | _ :: rest => uploaded_pixels rest

/-- Number of `encode` events of a trace. -/
@[simp] def encode_count : List Event → Nat
  | [] => 0
  | Event.encode _ :: rest => encode_count rest + 1
  | _ :: rest => encode_count rest

/-- Ticks of the `live_draw` events of a trace, in order. -/
@[simp] def live_ticks : List Event → List Int
  | [] => []
  | Event.live_draw tick :: rest => tick :: live_ticks rest
  | _ :: rest => live_ticks rest

/-- What decoding `frame_cache[slot]` hands to `glTexSubImage2D`: the pixels,
absent when the slot cannot be read or `decompress_jpeg` does not return a
buffer. -/
def decoded_pixels (cfg : Config) (cache : List cached_frame) (slot : Int) :
    Option (List Byte) :=
  match load_frame cache slot with
  | none => none
  | some fr =>
    match decompress_jpeg cfg.lib fr.jpeg_data fr.jpeg_size cfg.w cfg.h with
    | Outcome.ok rgba => some rgba
    | _ => none

/-- Number of slots of the cache that hold a frame (`written`). -/
def written (cache : List cached_frame) : Nat :=
  (cache.filter (fun fr => fr.jpeg_data.isSome)).length

/-- Whether a call returned a value. -/
def Outcome.isOk {α : Type} : Outcome α → Bool
  | Outcome.ok _ => true
  | _ => false

/-- A pass in which dispatch, encoding, the GL calls and the set-up of the
passthrough program all succeed. -/
def TickOk (cfg : Config) (inp : TickInput) : Prop :=
  inp.dispatch ≠ -1 ∧ inp.gl_error = 0 ∧ inp.passthrough_ok = true ∧
    (tick_encode cfg inp).isOk = true

instance (cfg : Config) (inp : TickInput) : Decidable (TickOk cfg inp) := by
  unfold TickOk
  infer_instance

/-- What libwayland guarantees of `wl_display_dispatch_pending` on one
connection: it returns -1 only once the error of the display is set, and that
error is never cleared, so every later call returns -1 as well. -/
def DispatchFailurePersists (inputs : List TickInput) : Prop :=
  inputs.Pairwise (fun a b => a.dispatch = -1 → b.dispatch = -1)

instance (inputs : List TickInput) : Decidable (DispatchFailurePersists inputs) := by
  unfold DispatchFailurePersists
  infer_instance

/-! ## A recording of three frames -/

/-- A 2×2 RGBA buffer of one colour. -/
def solid (r g b : Byte) : List Byte :=
  [r, g, b, 255, r, g, b, 255, r, g, b, 255, r, g, b, 255]

/-- A session of 2×2 pixels whose cache holds 3 frames (3 frames per second
for 1 second), with `rawLib` as the codec. -/
def scenario_cfg : Config :=
  { lib := rawLib, cache_length := 3, w := 2, h := 2, cache_quality := 75,
    running_hyprland := false, geom_x := 0, geom_y := 0 }

/-- A pass in which nothing fails and the framebuffer holds the given pixels. -/
def scenario_tick (pixels : List Byte) : TickInput :=
  { dispatch := 0, cursor_x := 0, cursor_y := 0, pixels := pixels, gl_error := 0,
    passthrough_ok := true }

/-- A pass whose dispatch reports a failure. -/
def failed_dispatch : TickInput :=
  { dispatch := -1, cursor_x := 0, cursor_y := 0, pixels := [], gl_error := 0,
    passthrough_ok := true }

/-- The framebuffer is red, then green, then blue; the fourth input is the
pass that finds the cache full. -/
def scenario_recording : List TickInput :=
  [scenario_tick (solid 255 0 0), scenario_tick (solid 0 255 0), scenario_tick (solid 0 0 255),
   scenario_tick (solid 0 0 0)]

/-- The colours of the scenario, by slot. -/
def scenario_colour (k : Nat) : List Byte :=
  if k % 3 = 0 then solid 255 0 0 else if k % 3 = 1 then solid 0 255 0 else solid 0 0 255

/-! ## Outputs: the listeners of `wl_registry` and `wl_output` -/

/-- The fields of `struct display_output` that the listeners write. `name` and
`identifier` are absent while the pointers are `NULL`, as `calloc` leaves them. -/
structure display_output where
  wl_name : Nat
  name : Option String
  identifier : Option String
  width : Nat
  height : Nat
  scale : Nat
  deriving Repr, DecidableEq

/-- The globals the listeners read and write. A pointer to a
`struct display_output` is the index of the struct in `heap`. -/
structure Registry where
  /-- the option `--monitor`, absent when `screenset == NULL` -/
  screenset : Option String
  /-- the structs allocated by `registry_global`, in the order of allocation -/
  heap : List display_output
  /-- the list `outputs`, newest first -/
  outputs : List Nat
  /-- the pointer `target_display`, absent when `NULL` -/
  target_display : Option Nat
  deriving Repr, DecidableEq

/-- State of the globals before the first round trip. -/
def Registry.init (screenset : Option String) : Registry :=
  { screenset := screenset, heap := [], outputs := [], target_display := none }

/-- The part of `registry_global` run for the interface `wl_output`. -/
def registry_global (r : Registry) (wl_name : Nat) : Registry :=
  { r with
    heap := r.heap ++
      [{ wl_name := wl_name, name := none, identifier := none, width := 0, height := 0,
         scale := 1 }]
    outputs := r.heap.length :: r.outputs }

/-- A listener writing fields of the struct its `data` pointer refers to. -/
def update_output (r : Registry) (p : Nat) (f : display_output → display_output) :
    Outcome Registry :=
  match r.heap[p]? with
  | none => Outcome.fault
  | some o => Outcome.ok { r with heap := r.heap.set p (f o) }

/-- The listener `output_name`: `output->name = strdup(name)`. -/
def output_name (r : Registry) (p : Nat) (name : String) : Outcome Registry :=
  update_output r p (fun o => { o with name := some name })

/-- The listener `output_scale`. -/
def output_scale (r : Registry) (p : Nat) (scale : Int) : Outcome Registry :=
  update_output r p (fun o => { o with scale := toUnsigned scale })

/-- The listener `output_mode`; `WL_OUTPUT_MODE_CURRENT` is bit 0 of the flags. -/
def output_mode (r : Registry) (p : Nat) (flags : Nat) (width height : Int) :
    Outcome Registry :=
  if flags.testBit 0 then
    update_output r p (fun o => { o with width := toUnsigned width, height := toUnsigned height })
  else Outcome.ok r

/-- Index of the last occurrence of a character, as `strrchr` finds it. -/
def strrchr (c : Char) : List Char → Option Nat
  | [] => none
  | x :: rest =>
    match strrchr c rest with
    | some i => some (i + 1)
    | none => if x = c then some 0 else none

/-- The listener `output_description`. With a parenthesis at `length`, the
identifier is `calloc(length, 1)`, filled by `strncpy(.., length)` and then
cut by `identifier[length - 1] = 0`, a write before the buffer when
`length = 0`. -/
def output_description (r : Registry) (p : Nat) (description : String) : Outcome Registry :=
  match strrchr '(' description.toList with
  | some length =>
    if length = 0 then Outcome.fault
    else
      update_output r p (fun o =>
        { o with identifier := some (String.mk (description.toList.take (length - 1))) })
  | none => update_output r p (fun o => { o with identifier := some description })

/-- The listener `output_done`. `strcmp` reads `output->name`, which must not
be `NULL`. -/
def output_done (r : Registry) (p : Nat) : Outcome Registry :=
  match r.screenset with
  | none => Outcome.ok { r with target_display := some p }
  | some target =>
    match r.heap[p]? with
    | none => Outcome.fault
    | some o =>
      match o.name with
      | none => Outcome.fault
      | some n =>
        if n = target then Outcome.ok { r with target_display := some p }
        else Outcome.ok r

/-- The events delivered to the listeners; `output` is the `data` pointer. -/
inductive OutputEvent where
  | global (wl_name : Nat)
  | name (output : Nat) (name : String)
  | description (output : Nat) (description : String)
  | mode (output : Nat) (flags : Nat) (width height : Int)
  | scale (output : Nat) (scale : Int)
  | done (output : Nat)
  deriving Repr, DecidableEq

/-- The listener called for one event. -/
def dispatch_event (r : Registry) : OutputEvent → Outcome Registry
  | OutputEvent.global wl_name => Outcome.ok (registry_global r wl_name)
  | OutputEvent.name p name => output_name r p name
  | OutputEvent.description p d => output_description r p d
  | OutputEvent.mode p flags width height => output_mode r p flags width height
  | OutputEvent.scale p scale => output_scale r p scale
  | OutputEvent.done p => output_done r p

/-- The listeners called for a sequence of events, in order. -/
def dispatch_events : Registry → List OutputEvent → Outcome Registry
  | r, [] => Outcome.ok r
  | r, e :: rest =>
    match dispatch_event r e with
    | Outcome.ok r1 => dispatch_events r1 rest
    | Outcome.null => Outcome.null
    | Outcome.fault => Outcome.fault

/-- The name of the output a pointer refers to. -/
def output_name_of (r : Registry) (p : Nat) : Option String :=
  match r.heap[p]? with
  | none => none
  | some o => o.name

/-- Three outputs A, B, C discovered and named, with the given `--monitor`. -/
def three_outputs (screenset : Option String) : Registry :=
  { screenset := screenset
    heap :=
      [{ wl_name := 40, name := some "DP-1", identifier := none, width := 0, height := 0,
         scale := 1 },
       { wl_name := 41, name := some "HDMI-A-1", identifier := none, width := 0, height := 0,
         scale := 1 },
       { wl_name := 42, name := some "DP-2", identifier := none, width := 0, height := 0,
         scale := 1 }]
    outputs := [2, 1, 0]
    target_display := none }

/-- Two outputs that report the same name. -/
def twin_outputs : Registry :=
  { screenset := some "DP-1"
    heap :=
      [{ wl_name := 40, name := some "DP-1", identifier := none, width := 0, height := 0,
         scale := 1 },
       { wl_name := 41, name := some "DP-1", identifier := none, width := 0, height := 0,
         scale := 1 }]
    outputs := [1, 0]
    target_display := none }

/-- The pointer selected after a sequence of events, absent when none is
selected or the listeners did not all return. -/
def selected_after (r : Registry) (events : List OutputEvent) : Option Nat :=
  match dispatch_events r events with
  | Outcome.ok r1 => r1.target_display
  | _ => none

/-! ## Start-up of `main`, from its first line to `wl_display_connect` -/

/-- The variables of `main` that `argparse_parse` fills from the command line,
with the values they have after it returned. -/
structure Args where
  /-- option `--convert`, absent while `NULL` -/
  convertfile : Option String
  /-- option `--rt-convert` -/
  runtimeconvertfile : Bool
  /-- option `--shader`, absent while `NULL` -/
  fragment_shader_file : Option String
  /-- option `--monitor`, absent while `NULL` -/
  screenset : Option String
  /-- option `--fps`, 60 when not given -/
  fps : Int
  /-- option `--cache`, 0 when not given -/
  cache_seconds : Int
  /-- option `--cache-quality`, 75 when not given -/
  cache_quality : Int

/-- What start-up receives from outside `main`. -/
structure StartEnv where
  /-- `read_file(path)`: the contents of the file, absent when it returns `NULL` -/
  read_file : String → Option String
  /-- `convert_shadertoy(src)`: the converted source, absent when it returns `NULL` -/
  convert_shadertoy : String → Option String
  /-- whether `fopen(path, "w")` returns a stream -/
  fopen_w : String → Bool

/-- The observable actions of start-up, in the order they happen. -/
inductive StartEvent where
  /-- `signal(SIGINT, handle_sigint)` -/
  | signal_handler
  /-- `read_file(path)` -/
  | read_file (path : String)
  /-- `fputs(contents, f)` on the file opened for writing -/
  | write_file (path : String) (contents : String)
  /-- `wl_list_init(&outputs)` -/
  | list_init
  /-- `wl_display_connect(NULL)` -/
  | display_connect
  deriving Repr, DecidableEq

/-- Where start-up stands when it ends the process or has opened the connection. -/
structure Startup where
  trace : List StartEvent
  /-- status of the process when start-up ended it (`exit(n)` or `return n`) -/
  exit_status : Option Int
  /-- the global `cache_length` -/
  cache_length : Int
  deriving Repr, DecidableEq

/-- Lines 811-926 of `main` after `argparse_parse`. The runtime conversion of
line 901 only changes the source that is compiled after the connection is
open; it has no effect here. -/
def main_startup (env : StartEnv) (a : Args) : Startup :=
  let t0 := [StartEvent.signal_handler]
  if a.convertfile.isSome = true ∧ a.runtimeconvertfile = true then
    { trace := t0, exit_status := some 1, cache_length := 0 }
  else
    match a.convertfile with
    | some path =>
      let t1 := t0 ++ [StartEvent.read_file path]
      match env.read_file path with
      | none => { trace := t1, exit_status := some 1, cache_length := 0 }
      | some shader_src =>
        match env.convert_shadertoy shader_src with
        | none => { trace := t1, exit_status := some 1, cache_length := 0 }
        | some converted_shader =>
          if env.fopen_w path = true then
            { trace := t1 ++ [StartEvent.write_file path converted_shader],
              exit_status := some 0, cache_length := 0 }
          else { trace := t1, exit_status := some 1, cache_length := 0 }
    | none =>
      match a.fragment_shader_file with
      | none => { trace := t0, exit_status := some 1, cache_length := 0 }
      | some path =>
        let t1 := t0 ++ [StartEvent.read_file path]
        match env.read_file path with
        | none => { trace := t1, exit_status := some 1, cache_length := 0 }
        | some _ =>
          match main_cache_length a.fps a.cache_seconds with
          | none => { trace := t1, exit_status := some 1, cache_length := 0 }
          | some n =>
            { trace := t1 ++ [StartEvent.list_init, StartEvent.display_connect],
              exit_status := none, cache_length := n }

/-- A file system in which every file can be read and written and holds a
small shader. -/
def plain_env : StartEnv :=
  { read_file := fun _ => some "void main() {}"
    convert_shadertoy := fun src => some src
    fopen_w := fun _ => true }

/-- The command line `vecpaper --shader wave.frag --fps <fps>`. -/
def shader_args (fps : Int) : Args :=
  { convertfile := none, runtimeconvertfile := false, fragment_shader_file := some "wave.frag",
    screenset := none, fps := fps, cache_seconds := 0, cache_quality := 75 }

/-! ## Observations on single outputs -/

/-- The identifier of the output a pointer refers to. -/
def output_identifier_of (r : Registry) (p : Nat) : Option String :=
  match r.heap[p]? with
  | none => none
  | some o => o.identifier

/-- The identifier stored for an output that is discovered and then described:
absent when `output_description` does not return. -/
def identifier_after (description : String) : Option String :=
  match output_description (registry_global (Registry.init none) 40) 0 description with
  | Outcome.ok r => output_identifier_of r 0
  | _ => none

/-- The identifier as the specification words it: the description truncated at
its first `(`, the characters strictly before it, or the full description when
it has none. -/
def truncated_at_first_paren (description : String) : String :=
  String.mk (description.toList.takeWhile (fun c => c ≠ '('))

/-! ## A decoder that fails -/

/-- The library `rawLib` with a decompressor that raises `error_exit` while it
is set up, as libjpeg does when it runs out of memory or is given no data. -/
def decode_error_lib : JpegLib :=
  { rawLib with start_decompress := fun _ _ => none }

/-- The session of `scenario_cfg` with `decode_error_lib` as the codec. -/
def decode_error_cfg : Config :=
  { scenario_cfg with lib := decode_error_lib }

/-! ## Teardown: `cleanup`, `handle_sigint`, `layer_surface_closed` -/

/-- A pointer or handle held in a global, as `cleanup` meets it. -/
inductive Ptr where
  /-- `NULL`, `EGL_NO_DISPLAY`, `EGL_NO_SURFACE`, `EGL_NO_CONTEXT` or the GL name 0 -/
  | null
  /-- the value of an object that exists -/
  | live
  /-- the value of an object that has been released; the global still holds it -/
  | released
  deriving Repr, DecidableEq

/-- The objects that teardown releases. -/
inductive Resource where
  | egl_surface
  | egl_context
  | egl_display
  /-- the head of the list `outputs` -/
  | outputs
  /-- a `struct display_output` of the list, with what it owns -/
  | output (k : Nat)
  | vbo
  | layer_surface
  | surface
  | layer_shell
  | registry
  | egl_win
  /-- the buffer `frame_cache[i].jpeg_data` -/
  | jpeg_data (i : Nat)
  /-- the array `frame_cache` -/
  | frame_cache
  | cache_tex
  | passthrough_program
  /-- the connection `display` -/
  | display
  deriving Repr, DecidableEq

/-- The globals that `cleanup` reads. -/
structure Globals where
  egl_display : Ptr
  egl_surface : Ptr
  egl_context : Ptr
  /-- the list `outputs`: absent while its head is all zero, as it is before
  `wl_list_init`, then the structs linked into it -/
  outputs : Option (List Ptr)
  vbo : Ptr
  layer_surface : Ptr
  surface : Ptr
  layer_shell : Ptr
  registry : Ptr
  egl_win : Ptr
  cache_length : Int
  /-- the pointer `frame_cache` -/
  frame_cache : Ptr
  /-- the `jpeg_data` pointers in the array that `frame_cache` refers to -/
  slots : List Ptr
  cache_tex : Ptr
  passthrough_program : Ptr
  display : Ptr
  deriving Repr, DecidableEq

/-- A release call: the object and the state it was in when the call was made. -/
abbrev Call := Resource × Ptr

/-- How a teardown ends. -/
inductive Teardown where
  /-- it returned, with the globals it leaves and the release calls it made -/
  | done (g : Globals) (calls : List Call)
  /-- it dereferenced a pointer that is `NULL`, after these release calls -/
  | null_deref (r : Resource) (calls : List Call)
  /-- it indexed the array `frame_cache` beyond its end -/
  | out_of_bounds (calls : List Call)
  deriving Repr, DecidableEq

/-- A release that does nothing for `NULL` (a guarded destroy, `free`,
`glDeleteTextures`): the state of the object afterwards and the calls made.
No global is assigned, so the value of a released object stays. -/
def release (r : Resource) (p : Ptr) (calls : List Call) : Ptr × List Call :=
  match p with
  | Ptr.null => (Ptr.null, calls)
  | _ => (Ptr.released, calls ++ [(r, p)])

/-- The loop `wl_list_for_each_safe` of `cleanup` over the elements of the
list, the `k`-th first: each is destroyed, unlinked and freed. -/
def release_outputs : List Ptr → Nat → List Call → List Call
  | [], _, calls => calls
  | p :: rest, k, calls => release_outputs rest (k + 1) (calls ++ [(Resource.output k, p)])

/-- The loop `for (int i = 0; i < cache_length; i++) free(frame_cache[i].jpeg_data)`
from `i` on with `n` passes left; `none` when `i` is beyond the array. -/
def free_slots : List Ptr → Nat → Nat → List Call → Option (List Ptr × List Call)
  | slots, 0, _, calls => some (slots, calls)
  | slots, n + 1, i, calls =>
    match slots[i]? with
    | none => none
    | some p =>
      let (p1, calls1) := release (Resource.jpeg_data i) p calls
      free_slots (slots.set i p1) n (i + 1) calls1

/-- The function `cleanup()`. -/
def cleanup (g : Globals) : Teardown :=
  let (egl_surface, c1) :=
    if g.egl_display ≠ Ptr.null then release Resource.egl_surface g.egl_surface []
    else (g.egl_surface, [])
  let (egl_context, c2) :=
    if g.egl_display ≠ Ptr.null then release Resource.egl_context g.egl_context c1
    else (g.egl_context, c1)
  let (egl_display, c3) := release Resource.egl_display g.egl_display c2
  match g.outputs with
  | none => Teardown.null_deref Resource.outputs c3
  | some outputs =>
    let c4 := release_outputs outputs 0 c3
    let (vbo, c5) := release Resource.vbo g.vbo c4
    let (layer_surface, c6) := release Resource.layer_surface g.layer_surface c5
    let (surface, c7) := release Resource.surface g.surface c6
    let (layer_shell, c8) := release Resource.layer_shell g.layer_shell c7
    let (registry, c9) := release Resource.registry g.registry c8
    let (egl_win, c10) := release Resource.egl_win g.egl_win c9
    let g1 : Globals :=
      { g with egl_surface := egl_surface, egl_context := egl_context,
               egl_display := egl_display, outputs := some [], vbo := vbo,
               layer_surface := layer_surface, surface := surface,
               layer_shell := layer_shell, registry := registry, egl_win := egl_win }
    if g.cache_length > 0 then
      if g.frame_cache = Ptr.null then Teardown.null_deref Resource.frame_cache c10
      else
        match free_slots g.slots g.cache_length.toNat 0 c10 with
        | none => Teardown.out_of_bounds c10
        | some (slots, c11) =>
          let (frame_cache, c12) := release Resource.frame_cache g.frame_cache c11
          let (cache_tex, c13) := release Resource.cache_tex g.cache_tex c12
          let (passthrough_program, c14) :=
            release Resource.passthrough_program g.passthrough_program c13
          let (display, c15) := release Resource.display g.display c14
          Teardown.done
            { g1 with slots := slots, frame_cache := frame_cache, cache_tex := cache_tex,
                      passthrough_program := passthrough_program, display := display } c15
    else
      let (display, c11) := release Resource.display g.display c10
      Teardown.done { g1 with display := display } c11

/-- The function `handle_sigint`: `cleanup()`, then `exit(0)`. -/
def handle_sigint (g : Globals) : Teardown :=
  cleanup g

/-- A teardown that goes on after release calls were made already. -/
def Teardown.after (calls : List Call) : Teardown → Teardown
  | Teardown.done g rest => Teardown.done g (calls ++ rest)
  | Teardown.null_deref r rest => Teardown.null_deref r (calls ++ rest)
  | Teardown.out_of_bounds rest => Teardown.out_of_bounds (calls ++ rest)

/-- The listener `layer_surface_closed`: `wl_display_disconnect(display)`,
`cleanup()`, then `exit(0)`. -/
def layer_surface_closed (g : Globals) : Teardown :=
  match g.display with
  | Ptr.null => Teardown.null_deref Resource.display []
  | p => (cleanup { g with display := Ptr.released }).after [(Resource.display, p)]

/-- The function `cleanup()` called again on the globals that a first call
leaves. -/
def cleanup_again (g : Globals) : Teardown :=
  match cleanup g with
  | Teardown.done g1 _ => cleanup g1
  | t => t

/-- The release calls of a teardown. -/
def Teardown.calls : Teardown → List Call
  | Teardown.done _ calls => calls
  | Teardown.null_deref _ calls => calls
  | Teardown.out_of_bounds calls => calls

/-- The globals when `main` is entered: objects with static storage are zero,
the list head `outputs` included. -/
def Globals.at_entry : Globals :=
  { egl_display := Ptr.null, egl_surface := Ptr.null, egl_context := Ptr.null, outputs := none,
    vbo := Ptr.null, layer_surface := Ptr.null, surface := Ptr.null, layer_shell := Ptr.null,
    registry := Ptr.null, egl_win := Ptr.null, cache_length := 0, frame_cache := Ptr.null,
    slots := [], cache_tex := Ptr.null, passthrough_program := Ptr.null, display := Ptr.null }

/-- The globals where `main_startup` stands: `cache_length` is assigned at line
919, the list is initialised at line 922, the connection is opened at line 926;
`frame_cache` is allocated later, at line 947. -/
def startup_globals (s : Startup) : Globals :=
  { Globals.at_entry with
    cache_length := s.cache_length
    outputs := if StartEvent.list_init ∈ s.trace then some [] else none
    display := if StartEvent.display_connect ∈ s.trace then Ptr.live else Ptr.null }

/-- The command line `vecpaper --shader wave.frag --fps <fps> --cache <seconds>`. -/
def cache_args (fps cache_seconds : Int) : Args :=
  { shader_args fps with cache_seconds := cache_seconds }

/-- The globals while the cache loop runs with a cache of 2 frames on one output. -/
def playing_globals : Globals :=
  { egl_display := Ptr.live, egl_surface := Ptr.live, egl_context := Ptr.live,
    outputs := some [Ptr.live], vbo := Ptr.live, layer_surface := Ptr.live, surface := Ptr.live,
    layer_shell := Ptr.live, registry := Ptr.live, egl_win := Ptr.live, cache_length := 2,
    frame_cache := Ptr.live, slots := [Ptr.live, Ptr.live], cache_tex := Ptr.live,
    passthrough_program := Ptr.live, display := Ptr.live }

/-! ## Observations on the pointer uniform -/

/-- Arguments of the `pointer` events of a trace, in order. -/
@[simp] def pointer_updates : List Event → List (Int × Int)
  | [] => []
  | Event.pointer x y :: rest => (x, y) :: pointer_updates rest
  | _ :: rest => pointer_updates rest

/-- The position that lines 1019-1021 compute from the cursor source in a pass:
`mouse_x = cursor_x - target_display->hyprland_monitor_geom.x`, an `int`
difference stored in a `float`, and the same for `mouse_y`. -/
def cursor_of (cfg : Config) (inp : TickInput) : Int × Int :=
  (int_to_float (wrapInt (inp.cursor_x - cfg.geom_x)),
   int_to_float (wrapInt (inp.cursor_y - cfg.geom_y)))

/-- The session of `scenario_cfg` under Hyprland, where the cursor source is
available. -/
def hyprland_cfg : Config :=
  { scenario_cfg with running_hyprland := true }

/-- The session of `hyprland_cfg` without a cache. -/
def hyprland_live_cfg : Config :=
  { hyprland_cfg with cache_length := 0 }

/-- A pass in which nothing fails, with the cursor at the given position. -/
def cursor_tick (x y : Int) : TickInput :=
  { scenario_tick (solid 255 0 0) with cursor_x := x, cursor_y := y }

/-! ## replace_all -/

/-- The call `strstr(hay, needle)` of the C library: the offset of the first
occurrence of `needle` in `hay`, absent when the result is `NULL`. -/
def strstr : List Char → List Char → Option Nat
  | [], needle => if needle = [] then some 0 else none
  | c :: rest, needle =>
    if needle.isPrefixOf (c :: rest) = true then some 0
    else
      match strstr rest needle with
      | some n => some (n + 1)
      | none => none

/-- The loop `for (pos = *src; (pos = strstr(pos, oldStr)) != NULL; pos += len_old) count++`
of `replace_all`, with `pos` as an offset into `*src`. The outer `none` stands
for a loop that has not ended when the fuel is spent; a `pos` outside the
string is a fault. -/
def count_loop (src oldStr : List Char) (len_old : Int) : Nat → Int → Int → Option (Outcome Int)
  | 0, _, _ => none
  | fuel + 1, pos, count =>
    if pos < 0 ∨ (src.length : Int) < pos then some Outcome.fault
    else
      match strstr (src.drop pos.toNat) oldStr with
      | none => some (Outcome.ok count)
      | some n => count_loop src oldStr len_old fuel (pos + (n : Int) + len_old) (wrapInt (count + 1))

/-- The loop `while ((pos = strstr(p, oldStr)) != NULL)` of `replace_all` and
the `strcpy` after it. `p` is an offset into `*src`, `dst` are the characters
written to `tmp` so far, `size` is the number of bytes of `tmp`. A write
beyond `tmp` is a fault. -/
def copy_loop (src oldStr newStr : List Char) (len_old len_new : Int) (size : Nat) :
    Nat → Int → List Char → Option (Outcome (List Char))
  | 0, _, _ => none
  | fuel + 1, p, dst =>
    if p < 0 ∨ (src.length : Int) < p then some Outcome.fault
    else
      match strstr (src.drop p.toNat) oldStr with
      | none =>
        let out := dst ++ src.drop p.toNat
        if out.length + 1 ≤ size then some (Outcome.ok out) else some Outcome.fault
      | some n =>
        let dst1 := dst ++ (src.drop p.toNat).take n
        if size < dst1.length then some Outcome.fault
        else if len_new < 0 ∨ (newStr.length : Int) < len_new then some Outcome.fault
        else
          let dst2 := dst1 ++ newStr.take len_new.toNat
          if size < dst2.length then some Outcome.fault
          else copy_loop src oldStr newStr len_old len_new size fuel (p + (n : Int) + len_old) dst2

/-- The function `replace_all(&src, oldStr, newStr)`: the string that `*src`
refers to when it returns. The lengths and `count` are `int`s, the size handed
to `malloc` is a `size_t`. -/
def replace_all (fuel : Nat) (src oldStr newStr : List Char) : Option (Outcome (List Char)) :=
  let len_old := wrapInt (oldStr.length : Int)
  let len_new := wrapInt (newStr.length : Int)
  match count_loop src oldStr len_old fuel 0 0 with
  | none => none
  | some Outcome.fault => some Outcome.fault
  | some Outcome.null => some Outcome.null
  | some (Outcome.ok count) =>
    if count = 0 then some (Outcome.ok src)
    else
      let size := (src.length + toSize (wrapInt (count * wrapInt (len_new - len_old))) + 1) %
        18446744073709551616
      if mallocOk size = false then some (Outcome.ok src)
      else copy_loop src oldStr newStr len_old len_new size fuel 0 []

/-- The result as the claim words it: the string is scanned from left to
right, every occurrence of `oldStr` met is replaced by `newStr` and the scan
goes on behind it; `skip` is the number of characters of an occurrence still
to pass. -/
def scan_replace (oldStr newStr : List Char) : Nat → List Char → List Char
  | _, [] => []
  | skip + 1, _ :: rest => scan_replace oldStr newStr skip rest
  | 0, c :: rest =>
    if oldStr.isPrefixOf (c :: rest) = true then
      newStr ++ scan_replace oldStr newStr (oldStr.length - 1) rest
    else c :: scan_replace oldStr newStr 0 rest

/-- The number of occurrences that `scan_replace` replaces. -/
def scan_count (oldStr : List Char) : Nat → List Char → Nat
  | _, [] => 0
  | skip + 1, _ :: rest => scan_count oldStr skip rest
  | 0, c :: rest =>
    if oldStr.isPrefixOf (c :: rest) = true then scan_count oldStr (oldStr.length - 1) rest + 1
    else scan_count oldStr 0 rest

/-! ## Facts about machine integers -/

theorem wrapInt_of_range {x : Int} (h1 : -2147483648 ≤ x) (h2 : x ≤ 2147483647) :
    wrapInt x = x := by
  unfold wrapInt
  omega

theorem wrapInt_range (x : Int) : -2147483648 ≤ wrapInt x ∧ wrapInt x ≤ 2147483647 := by
  unfold wrapInt
  omega

theorem wrapInt_offset (z k : Int) (hk0 : 0 ≤ k) (hk3 : k ≤ 3)
    (h : 0 ≤ wrapInt (wrapInt (z * 4) + k)) :
    0 ≤ wrapInt (z * 4) ∧ wrapInt (wrapInt (z * 4) + k) = wrapInt (z * 4) + k := by
  unfold wrapInt at *
  omega

theorem wrapInt_next (c k : Int) (hk0 : 0 ≤ k) (hk3 : k ≤ 3)
    (h0 : 0 ≤ wrapInt (wrapInt c + 0)) (h : 0 ≤ wrapInt (wrapInt c + k)) :
    0 ≤ wrapInt c ∧ wrapInt (wrapInt c + k) = wrapInt c + k := by
  unfold wrapInt at *
  omega

theorem pixel_offset_eq {w y x : Int} (hm : 0 ≤ y * w) (hx : 0 ≤ x)
    (hb : 4 * (y * w + x) + 3 ≤ 2147483647) :
    wrapInt (wrapInt (wrapInt (y * w) + x) * 4) = 4 * (y * w + x) := by
  unfold wrapInt
  omega

theorem pixel_offset_overflow {w y x : Int} (hb : y * w + x = 536870912) :
    wrapInt (wrapInt (wrapInt (y * w) + x) * 4) = -2147483648 := by
  unfold wrapInt
  omega

/-! ## Facts about traces -/

@[simp] theorem stored_append (a b : List Event) : stored (a ++ b) = stored a ++ stored b := by
  induction a with
  | nil => rfl
  | cons e rest ih => cases e <;> simp [ih]

@[simp] theorem decoded_slots_append (a b : List Event) :
    decoded_slots (a ++ b) = decoded_slots a ++ decoded_slots b := by
  induction a with
  | nil => rfl
  | cons e rest ih => cases e <;> simp [ih]

@[simp] theorem uploaded_slots_append (a b : List Event) :
    uploaded_slots (a ++ b) = uploaded_slots a ++ uploaded_slots b := by
  induction a with
  | nil => rfl
  | cons e rest ih => cases e <;> simp [ih]

@[simp] theorem uploaded_pixels_append (a b : List Event) :
    uploaded_pixels (a ++ b) = uploaded_pixels a ++ uploaded_pixels b := by
  induction a with
  | nil => rfl
  | cons e rest ih => cases e <;> simp [ih]

@[simp] theorem live_ticks_append (a b : List Event) :
    live_ticks (a ++ b) = live_ticks a ++ live_ticks b := by
  induction a with
  | nil => rfl
  | cons e rest ih => cases e <;> simp [ih]

@[simp] theorem encode_count_append (a b : List Event) :
    encode_count (a ++ b) = encode_count a + encode_count b := by
  induction a with
  | nil => simp
  | cons e rest ih =>
    cases e <;> simp [ih]
    omega

@[simp] theorem after_first_decode_append (a b : List Event) :
    after_first_decode (a ++ b) =
      if decoded_slots a = [] then after_first_decode b else after_first_decode a ++ b := by
  induction a with
  | nil => simp
  | cons e rest ih => cases e <;> simp [ih]

/-! ## The invariant of the loops -/

/-- What holds of the state of the loops after any inputs: the stores so far
are slots `0, 1, ..` in order, each made after as many completed passes; the
decodes so far are slots `0 mod N, 1 mod N, ..`; the render loop has decoded
nothing; nothing is encoded or stored after the first decode; the slots that
hold a frame are the first ones, as many as there were stores. -/
structure SchedInv (cfg : Config) (s : Sched) : Prop where
  stored_eq : stored s.trace =
    (List.range (stored s.trace).length).map (fun (i : Nat) => ((i : Int), i))
  decoded_eq : decoded_slots s.trace =
    (List.range (decoded_slots s.trace).length).map (fun (j : Nat) => (j : Int) % cfg.cache_length)
  uploaded_eq : uploaded_slots s.trace =
    (List.range (uploaded_slots s.trace).length).map (fun (j : Nat) => (j : Int) % cfg.cache_length)
  stored_le : 0 < cfg.cache_length → ((stored s.trace).length : Int) ≤ cfg.cache_length
  stored_nil : cfg.cache_length ≤ 0 → stored s.trace = []
  encode_le : encode_count s.trace ≤ (stored s.trace).length + 1
  render : s.phase = Phase.render →
    decoded_slots s.trace = [] ∧ uploaded_slots s.trace = [] ∧
    encode_count s.trace = (stored s.trace).length ∧
    (0 < cfg.cache_length →
      s.current_frame = (stored s.trace).length ∧ s.ticks = (stored s.trace).length)
  playback : s.phase = Phase.playback →
    0 < cfg.cache_length ∧
    s.frame_idx = ((decoded_slots s.trace).length : Int) % cfg.cache_length ∧
    (uploaded_slots s.trace).length = (decoded_slots s.trace).length
  quiet : encode_count (after_first_decode s.trace) = 0 ∧
    stored (after_first_decode s.trace) = []
  uploaded_px : uploaded_pixels s.trace =
    (uploaded_slots s.trace).map (decoded_pixels cfg s.frame_cache)
  cache_len : s.frame_cache.length = cfg.cache_length.toNat
  cache_some : ∀ i fr, s.frame_cache[i]? = some fr →
    (fr.jpeg_data.isSome = true ↔ i < (stored s.trace).length)

theorem SchedInv.init (cfg : Config) : SchedInv cfg (Sched.init cfg) := by
  constructor <;> simp [Sched.init]
  · omega
  · split <;> simp
    omega
  · intro i fr h
    split at h
    · rw [List.getElem?_replicate] at h
      split at h
      · cases h; rfl
      · cases h
    · simp at h

set_option linter.unnecessarySimpa false in
theorem SchedInv.leave_render {cfg : Config} {s : Sched} (inp : TickInput)
    (h : SchedInv cfg s) (hp : s.phase = Phase.render) :
    SchedInv cfg (leave_render cfg s inp) := by
  obtain ⟨hd, hu, he, hc⟩ := h.render hp
  unfold Vecpaper.leave_render
  split_ifs with h1 h2 <;> constructor
  case pos.playback =>
    intro _
    simp [hd, hu]
    exact h1
  all_goals first
    | (simpa [hd, hu] using h.stored_eq)
    | (simpa [hd, hu] using h.decoded_eq)
    | (simpa [hd, hu] using h.uploaded_eq)
    | (simpa [hd, hu] using h.stored_le)
    | (simpa [hd, hu] using h.stored_nil)
    | (simpa [hd, hu] using h.encode_le)
    | (simpa [hd, hu] using h.uploaded_px)
    | (simpa [hd, hu] using h.cache_len)
    | (simpa [hd, hu] using h.cache_some)

theorem stored_extend {tr : List Event}
    (h : stored tr = (List.range (stored tr).length).map (fun (i : Nat) => ((i : Int), i))) :
    stored tr ++ [(((stored tr).length : Int), (stored tr).length)] =
      (List.range ((stored tr).length + 1)).map (fun (i : Nat) => ((i : Int), i)) := by
  rw [List.range_succ, List.map_append, ← h]
  rfl

theorem cache_some_extend {cache : List cached_frame} {k : Nat} (fr0 : cached_frame)
    (h0 : fr0.jpeg_data.isSome = true)
    (h : ∀ i fr, cache[i]? = some fr → (fr.jpeg_data.isSome = true ↔ i < k)) :
    ∀ i fr, (cache.set k fr0)[i]? = some fr → (fr.jpeg_data.isSome = true ↔ i < k + 1) := by
  intro i fr hi
  rw [List.getElem?_set] at hi
  split at hi
  · split at hi
    · cases hi
      simp [h0]
      omega
    · cases hi
  · have := h i fr hi
    rw [this]
    omega

set_option linter.unnecessarySimpa false in
theorem SchedInv.render_step {cfg : Config} {s : Sched} (inp : TickInput)
    (hN : cfg.cache_length ≤ 2147483647)
    (h : SchedInv cfg s) (hp : s.phase = Phase.render) :
    SchedInv cfg (render_step cfg s inp) := by
  obtain ⟨hd, hu, he, hc⟩ := h.render hp
  have hpx : uploaded_pixels s.trace = [] := by simpa [hu] using h.uploaded_px
  unfold Vecpaper.render_step
  by_cases h1 : inp.dispatch = -1
  · simpa [h1] using h.leave_render inp hp
  by_cases h2 : cfg.cache_length > 0 ∧ s.current_frame = cfg.cache_length
  · simpa [h1, h2] using h.leave_render inp hp
  simp only [h1, h2, if_false]
  by_cases h3 : cfg.cache_length > 0
  · have h4 : ¬ cfg.cache_length ≤ 0 := by omega
    obtain ⟨hcf, htk⟩ := hc h3
    have hle := h.stored_le h3
    have hlt : ((stored s.trace).length : Int) < cfg.cache_length := by
      have : s.current_frame ≠ cfg.cache_length := fun hh => h2 ⟨h3, hh⟩
      omega
    simp only [h3, h4, and_false, if_false, if_true]
    cases henc : tick_encode cfg inp with
    | fault =>
      constructor
      all_goals first
        | (simpa [hd, hu] using h.stored_eq)
        | (simpa [hd, hu] using h.decoded_eq)
        | (simpa [hd, hu] using h.uploaded_eq)
        | (simpa [hd, hu] using h.stored_le)
        | (simpa [hd, hu] using h.stored_nil)
        | (simpa [hd, hu] using h.encode_le)
        | (simpa [hd, hu] using h.uploaded_px)
        | (simpa [hd, hu] using h.cache_len)
        | (simpa [hd, hu] using h.cache_some)
        | (simp [hd, hu, he, hpx])
    | null =>
      constructor
      all_goals first
        | (simpa [hd, hu] using h.stored_eq)
        | (simpa [hd, hu] using h.decoded_eq)
        | (simpa [hd, hu] using h.uploaded_eq)
        | (simpa [hd, hu] using h.stored_le)
        | (simpa [hd, hu] using h.stored_nil)
        | (simpa [hd, hu] using h.encode_le)
        | (simpa [hd, hu] using h.uploaded_px)
        | (simpa [hd, hu] using h.cache_len)
        | (simpa [hd, hu] using h.cache_some)
        | (simp [hd, hu, he, hpx])
    | ok jpeg =>
      have hst : store_frame s.frame_cache s.current_frame jpeg =
          some (s.frame_cache.set (stored s.trace).length
            { jpeg_data := some jpeg, jpeg_size := jpeg.length }) := by
        unfold store_frame
        rw [if_pos]
        · simp [hcf]
        · rw [h.cache_len, hcf]
          omega
      have hw : wrapInt (((stored s.trace).length : Int) + 1) = (stored s.trace).length + 1 :=
        wrapInt_of_range (by omega) (by omega)
      simp only [hst]
      unfold finish_render
      split_ifs with h5
      · constructor
        · simpa [hcf, htk] using stored_extend h.stored_eq
        · simpa [hd] using h.decoded_eq
        · simpa [hu] using h.uploaded_eq
        · intro _
          simp
          omega
        · intro h6
          omega
        · simp [he]
        · simp
        · simp
        · simp [hd]
        · simp [hu, hpx]
        · simpa using h.cache_len
        · simpa using cache_some_extend { jpeg_data := some jpeg, jpeg_size := jpeg.length }
            rfl h.cache_some
      · constructor
        · simpa [hcf, htk] using stored_extend h.stored_eq
        · simpa [hd] using h.decoded_eq
        · simpa [hu] using h.uploaded_eq
        · intro _
          simp
          omega
        · intro h6
          omega
        · simp [he]
        · intro _
          simp [hd, hu, he, hcf, htk, hw]
        · simp [hp]
        · simp [hd]
        · simp [hu, hpx]
        · simpa using h.cache_len
        · simpa using cache_some_extend { jpeg_data := some jpeg, jpeg_size := jpeg.length }
            rfl h.cache_some
  · have h4 : cfg.cache_length ≤ 0 := by omega
    simp only [h3, if_false]
    unfold finish_render
    split_ifs
    all_goals constructor
    all_goals first
      | (simpa [hd, hu] using h.stored_eq)
      | (simpa [hd, hu] using h.decoded_eq)
      | (simpa [hd, hu] using h.uploaded_eq)
      | (simpa [hd, hu] using h.stored_le)
      | (simpa [hd, hu] using h.stored_nil)
      | (simpa [hd, hu] using h.encode_le)
      | (simpa [hd, hu] using h.uploaded_px)
      | (simpa [hd, hu] using h.cache_len)
      | (simpa [hd, hu] using h.cache_some)
      | (simp [hd, hu, he, h3, hp])

theorem slots_extend {l : List Int} {N : Int}
    (h : l = (List.range l.length).map (fun (j : Nat) => (j : Int) % N)) :
    l ++ [(l.length : Int) % N] =
      (List.range (l.length + 1)).map (fun (j : Nat) => (j : Int) % N) := by
  rw [List.range_succ, List.map_append, ← h]
  rfl

theorem next_frame_idx {N : Int} (m : Nat) (h0 : 0 < N) (hN : N ≤ 2147483647) :
    Int.tmod (wrapInt ((m : Int) % N + 1)) N = ((m : Int) + 1) % N := by
  have h1 : 0 ≤ (m : Int) % N := Int.emod_nonneg _ (by omega)
  have h2 : (m : Int) % N < N := Int.emod_lt_of_pos _ h0
  rw [wrapInt_of_range (by omega) (by omega), Int.tmod_eq_emod (by omega) (by omega),
    Int.emod_add_emod]

set_option maxHeartbeats 2000000 in
set_option linter.unnecessarySimpa false in
theorem SchedInv.playback_step {cfg : Config} {s : Sched} (inp : TickInput)
    (hN : cfg.cache_length ≤ 2147483647)
    (h : SchedInv cfg s) (hp : s.phase = Phase.playback) :
    SchedInv cfg (playback_step cfg s inp) := by
  obtain ⟨h0, hidx, hum⟩ := h.playback hp
  have hq := h.quiet
  have hnext := next_frame_idx (decoded_slots s.trace).length h0 hN
  unfold Vecpaper.playback_step
  by_cases h1 : inp.dispatch = -1
  · simp only [h1, if_true]
    constructor
    all_goals first
      | (simpa [hp] using h.stored_eq)
      | (simpa [hp] using h.decoded_eq)
      | (simpa [hp] using h.uploaded_eq)
      | (simpa [hp] using h.stored_le)
      | (simpa [hp] using h.stored_nil)
      | (simpa [hp] using h.encode_le)
      | (simpa [hp] using h.uploaded_px)
      | (simpa [hp] using h.cache_len)
      | (simpa [hp] using h.cache_some)
      | (simp; split_ifs <;> simp [hq])
  simp only [h1, if_false]
  cases hld : load_frame s.frame_cache s.frame_idx with
  | none =>
    constructor
    all_goals first
      | (simpa [hp] using h.stored_eq)
      | (simpa [hp] using h.decoded_eq)
      | (simpa [hp] using h.uploaded_eq)
      | (simpa [hp] using h.stored_le)
      | (simpa [hp] using h.stored_nil)
      | (simpa [hp] using h.encode_le)
      | (simpa [hp] using h.uploaded_px)
      | (simpa [hp] using h.cache_len)
      | (simpa [hp] using h.cache_some)
      | (simpa using h.quiet)
  | some fr =>
    simp only []
    cases hdec : decompress_jpeg cfg.lib fr.jpeg_data fr.jpeg_size cfg.w cfg.h with
    | fault =>
      constructor
      all_goals first
        | (simpa [hp] using h.stored_eq)
        | (simpa [hp] using h.decoded_eq)
        | (simpa [hp] using h.uploaded_eq)
        | (simpa [hp] using h.stored_le)
        | (simpa [hp] using h.stored_nil)
        | (simpa [hp] using h.encode_le)
        | (simpa [hp] using h.uploaded_px)
        | (simpa [hp] using h.cache_len)
        | (simpa [hp] using h.cache_some)
        | (simpa [hidx] using slots_extend h.decoded_eq)
        | (simpa [hidx, hum] using slots_extend h.uploaded_eq)
        | (simpa [decoded_pixels, hld, hdec] using h.uploaded_px)
        | (simp; split_ifs <;> simp [hq])
    | null =>
      simp only []
      split_ifs with h5
      all_goals constructor
      all_goals first
        | (simpa [hp] using h.stored_eq)
        | (simpa [hp] using h.decoded_eq)
        | (simpa [hp] using h.uploaded_eq)
        | (simpa [hp] using h.stored_le)
        | (simpa [hp] using h.stored_nil)
        | (simpa [hp] using h.encode_le)
        | (simpa [hp] using h.uploaded_px)
        | (simpa [hp] using h.cache_len)
        | (simpa [hp] using h.cache_some)
        | (simpa [hidx] using slots_extend h.decoded_eq)
        | (simpa [hidx, hum] using slots_extend h.uploaded_eq)
        | (simpa [decoded_pixels, hld, hdec] using h.uploaded_px)
        | (simp [hp, h0, hum, hidx, hnext]; done)
        | (simp; split_ifs <;> simp [hq])
    | ok rgba =>
      simp only []
      split_ifs with h5
      all_goals constructor
      all_goals first
        | (simpa [hp] using h.stored_eq)
        | (simpa [hp] using h.decoded_eq)
        | (simpa [hp] using h.uploaded_eq)
        | (simpa [hp] using h.stored_le)
        | (simpa [hp] using h.stored_nil)
        | (simpa [hp] using h.encode_le)
        | (simpa [hp] using h.uploaded_px)
        | (simpa [hp] using h.cache_len)
        | (simpa [hp] using h.cache_some)
        | (simpa [hidx] using slots_extend h.decoded_eq)
        | (simpa [hidx, hum] using slots_extend h.uploaded_eq)
        | (simpa [decoded_pixels, hld, hdec] using h.uploaded_px)
        | (simp [hp, h0, hum, hidx, hnext]; done)
        | (simp; split_ifs <;> simp [hq])

theorem SchedInv.step {cfg : Config} {s : Sched} (inp : TickInput)
    (hN : cfg.cache_length ≤ 2147483647) (h : SchedInv cfg s) :
    SchedInv cfg (Vecpaper.step cfg s inp) := by
  unfold Vecpaper.step
  split
  · exact h.render_step inp hN (by assumption)
  · exact h.playback_step inp hN (by assumption)
  · exact h
  · exact h

theorem SchedInv.foldl {cfg : Config} (hN : cfg.cache_length ≤ 2147483647)
    (inputs : List TickInput) :
    ∀ s, SchedInv cfg s → SchedInv cfg (inputs.foldl (Vecpaper.step cfg) s) := by
  induction inputs with
  | nil => intro s h; exact h
  | cons inp rest ih => intro s h; exact ih _ (h.step inp hN)

theorem SchedInv.run {cfg : Config} (hN : cfg.cache_length ≤ 2147483647)
    (inputs : List TickInput) : SchedInv cfg (Vecpaper.run cfg inputs) :=
  SchedInv.foldl hN inputs _ (SchedInv.init cfg)

theorem run_append (cfg : Config) (a b : List TickInput) :
    run cfg (a ++ b) = b.foldl (step cfg) (run cfg a) := by
  simp [run, List.foldl_append]

theorem written_of_prefix (l : List cached_frame) :
    ∀ k : Nat, k ≤ l.length →
      (∀ i fr, l[i]? = some fr → (fr.jpeg_data.isSome = true ↔ i < k)) → written l = k := by
  induction l with
  | nil =>
    intro k hk _
    simp at hk
    simp [written, hk]
  | cons a t ih =>
    intro k hk h
    cases k with
    | zero =>
      have ha : ¬ a.jpeg_data.isSome = true := by
        have := h 0 a (by simp)
        simpa using this
      have ht := ih 0 (by omega) (fun i fr hi => by
        have := h (i + 1) fr (by simpa using hi)
        simpa using this)
      simp only [written] at ht ⊢
      simpa [List.filter_cons, ha] using ht
    | succ k =>
      have ha : a.jpeg_data.isSome = true := (h 0 a (by simp)).2 (by omega)
      have ht := ih k (by simp at hk; omega) (fun i fr hi => by
        have := h (i + 1) fr (by simpa using hi)
        rw [this]
        omega)
      simp only [written] at ht ⊢
      simpa [List.filter_cons, ha] using ht

theorem SchedInv.written_eq {cfg : Config} {s : Sched} (h : SchedInv cfg s) :
    written s.frame_cache = (stored s.trace).length := by
  apply written_of_prefix _ _ _ h.cache_some
  rw [h.cache_len]
  by_cases h0 : 0 < cfg.cache_length
  · have := h.stored_le h0
    omega
  · have := h.stored_nil (by omega)
    simp [this]

/-! ## Recording -/

theorem render_ok_step {cfg : Config} {s : Sched} {inp : TickInput}
    (h : SchedInv cfg s) (hp : s.phase = Phase.render)
    (h0 : 0 < cfg.cache_length)
    (hlt : ((stored s.trace).length : Int) < cfg.cache_length) (hok : TickOk cfg inp) :
    (step cfg s inp).phase = Phase.render ∧
      (stored (step cfg s inp).trace).length = (stored s.trace).length + 1 ∧
      live_ticks (step cfg s inp).trace =
        live_ticks s.trace ++ [((stored s.trace).length : Int)] := by
  obtain ⟨hdisp, hgl, _, henc⟩ := hok
  obtain ⟨_, _, _, hc⟩ := h.render hp
  obtain ⟨hcf, htk⟩ := hc h0
  have h2 : ¬ (cfg.cache_length > 0 ∧ s.current_frame = cfg.cache_length) := by
    intro hh
    omega
  have h4 : ¬ cfg.cache_length ≤ 0 := by omega
  have h3 : cfg.cache_length > 0 := h0
  cases hte : tick_encode cfg inp with
  | fault => simp [hte, Outcome.isOk] at henc
  | null => simp [hte, Outcome.isOk] at henc
  | ok jpeg =>
    have hst : store_frame s.frame_cache s.current_frame jpeg =
        some (s.frame_cache.set (stored s.trace).length
          { jpeg_data := some jpeg, jpeg_size := jpeg.length }) := by
      unfold store_frame
      rw [if_pos]
      · simp [hcf]
      · rw [h.cache_len, hcf]
        omega
    rw [hcf] at hst
    have hne : ¬ ((stored s.trace).length : Int) = cfg.cache_length := by omega
    have hptr : ¬ (cfg.running_hyprland = true ∧ cfg.cache_length ≤ 0) := fun hh => h4 hh.2
    simp [step, hp, render_step, hdisp, h3, hne, hte, hst, finish_render, hgl, hcf, hptr]

theorem render_full_step {cfg : Config} {s : Sched} {inp : TickInput}
    (h : SchedInv cfg s) (hp : s.phase = Phase.render)
    (h0 : 0 < cfg.cache_length)
    (heq : ((stored s.trace).length : Int) = cfg.cache_length) (hok : TickOk cfg inp) :
    (step cfg s inp).phase = Phase.playback ∧
      (step cfg s inp).trace = s.trace ++ [Event.enter_playback] := by
  obtain ⟨hdisp, _, hpt, _⟩ := hok
  obtain ⟨_, _, _, hc⟩ := h.render hp
  obtain ⟨hcf, _⟩ := hc h0
  have h2 : cfg.cache_length > 0 ∧ s.current_frame = cfg.cache_length := ⟨h0, by omega⟩
  have h3 : cfg.cache_length > 0 := h0
  simp [step, hp, render_step, hdisp, h2, h3, leave_render, hpt]

theorem recording_prefix {cfg : Config} (hN : cfg.cache_length ≤ 2147483647)
    (h0 : 0 < cfg.cache_length) (inputs : List TickInput) :
    (∀ inp ∈ inputs, TickOk cfg inp) → (inputs.length : Int) ≤ cfg.cache_length →
      (run cfg inputs).phase = Phase.render ∧
      (stored (run cfg inputs).trace).length = inputs.length ∧
      live_ticks (run cfg inputs).trace =
        (List.range inputs.length).map (fun (i : Nat) => (i : Int)) := by
  induction inputs using List.reverseRecOn with
  | nil =>
    intro _ _
    simp [run, Sched.init]
  | append_singleton l a ih =>
    intro hok hlen
    simp only [List.length_append, List.length_singleton] at hlen
    obtain ⟨hp, hk, hl⟩ := ih (fun inp hin => hok inp (by simp [hin])) (by omega)
    have hinv := SchedInv.run hN l
    have hstep := render_ok_step hinv hp h0 (by omega) (hok a (by simp))
    rw [run_append]
    simp only [List.foldl_cons, List.foldl_nil, List.length_append, List.length_singleton]
    refine ⟨hstep.1, by omega, ?_⟩
    rw [hstep.2.2, hl, hk, List.range_succ, List.map_append]
    rfl

/-! ## Playback -/

theorem playback_tick_step {cfg : Config} {s : Sched} {inp : TickInput}
    (h : SchedInv cfg s) (hp : s.phase = Phase.playback) (hdisp : inp.dispatch ≠ -1) :
    decoded_slots (step cfg s inp).trace =
      decoded_slots s.trace ++ [((decoded_slots s.trace).length : Int) % cfg.cache_length] := by
  obtain ⟨h0, hidx, _⟩ := h.playback hp
  have h1 : 0 ≤ ((decoded_slots s.trace).length : Int) % cfg.cache_length :=
    Int.emod_nonneg _ (by omega)
  have h2 : ((decoded_slots s.trace).length : Int) % cfg.cache_length < cfg.cache_length :=
    Int.emod_lt_of_pos _ h0
  have hlen := h.cache_len
  have hin : (s.frame_idx.toNat) < s.frame_cache.length := by
    rw [hlen, hidx]
    omega
  have hld : load_frame s.frame_cache s.frame_idx = some (s.frame_cache[s.frame_idx.toNat]) := by
    unfold load_frame
    rw [if_pos (by omega)]
    simp [hin]
  simp only [step, hp, playback_step, hdisp, if_false, hld]
  cases decompress_jpeg cfg.lib (s.frame_cache[s.frame_idx.toNat]).jpeg_data
      (s.frame_cache[s.frame_idx.toNat]).jpeg_size cfg.w cfg.h with
  | fault => simp [hidx]
  | null => simp only []; split_ifs <;> simp [hidx]
  | ok rgba => simp only []; split_ifs <;> simp [hidx]

theorem playback_ok_step {cfg : Config} {s : Sched} {inp : TickInput}
    (hp : s.phase = Phase.playback) (hdisp : inp.dispatch ≠ -1)
    (hgl : inp.gl_error = 0) (px : List Byte)
    (hpx : decoded_pixels cfg s.frame_cache s.frame_idx = some px) :
    (step cfg s inp).phase = Phase.playback ∧
      (step cfg s inp).frame_cache = s.frame_cache ∧
      (uploaded_slots (step cfg s inp).trace).length = (uploaded_slots s.trace).length + 1 := by
  unfold decoded_pixels at hpx
  cases hld : load_frame s.frame_cache s.frame_idx with
  | none => simp [hld] at hpx
  | some fr =>
    cases hdec : decompress_jpeg cfg.lib fr.jpeg_data fr.jpeg_size cfg.w cfg.h with
    | fault => simp [hld, hdec] at hpx
    | null => simp [hld, hdec] at hpx
    | ok rgba => simp [step, hp, playback_step, hdisp, hld, hdec, hgl]

theorem step_of_not_render {cfg : Config} {s : Sched} (inp : TickInput)
    (hp : s.phase ≠ Phase.render) :
    (step cfg s inp).phase ≠ Phase.render ∧ (step cfg s inp).frame_cache = s.frame_cache ∧
      stored (step cfg s inp).trace = stored s.trace ∧
      encode_count (step cfg s inp).trace = encode_count s.trace := by
  cases hph : s.phase with
  | render => exact absurd hph hp
  | exited c => simp [step, hph]
  | crashed => simp [step, hph]
  | playback =>
    by_cases h1 : inp.dispatch = -1
    · simp [step, hph, playback_step, h1]
    · cases hld : load_frame s.frame_cache s.frame_idx with
      | none => simp [step, hph, playback_step, h1, hld]
      | some fr =>
        cases hdec : decompress_jpeg cfg.lib fr.jpeg_data fr.jpeg_size cfg.w cfg.h with
        | fault => simp [step, hph, playback_step, h1, hld, hdec]
        | null =>
          simp only [step, hph, playback_step, h1, hld, hdec, if_false]
          split_ifs <;> simp [hph]
        | ok rgba =>
          simp only [step, hph, playback_step, h1, hld, hdec, if_false]
          split_ifs <;> simp [hph]

theorem foldl_of_not_render {cfg : Config} (more : List TickInput) :
    ∀ s : Sched, s.phase ≠ Phase.render →
      (more.foldl (step cfg) s).phase ≠ Phase.render ∧
      (more.foldl (step cfg) s).frame_cache = s.frame_cache ∧
      stored (more.foldl (step cfg) s).trace = stored s.trace ∧
      encode_count (more.foldl (step cfg) s).trace = encode_count s.trace := by
  induction more with
  | nil => intro s hp; exact ⟨hp, rfl, rfl, rfl⟩
  | cons inp rest ih =>
    intro s hp
    obtain ⟨h1, h2, h3, h4⟩ := @step_of_not_render cfg _ inp hp
    obtain ⟨g1, g2, g3, g4⟩ := ih _ h1
    exact ⟨g1, g2.trans h2, g3.trans h3, g4.trans h4⟩

theorem step_keeps_written {cfg : Config} {s : Sched} (inp : TickInput)
    (h : SchedInv cfg s) (i : Nat) (fr : cached_frame)
    (hi : s.frame_cache[i]? = some fr) (hs : fr.jpeg_data.isSome = true) :
    (step cfg s inp).frame_cache[i]? = some fr := by
  by_cases hp : s.phase = Phase.render
  · have hik : i < (stored s.trace).length := (h.cache_some i fr hi).1 hs
    obtain ⟨_, _, _, hc⟩ := h.render hp
    simp only [step, hp, render_step]
    by_cases h1 : inp.dispatch = -1
    · simp only [h1, if_true, leave_render]
      split_ifs <;> exact hi
    by_cases h2 : cfg.cache_length > 0 ∧ s.current_frame = cfg.cache_length
    · simp only [h1, h2, if_true, if_false, leave_render, and_self]
      split_ifs <;> exact hi
    simp only [h1, h2, if_false]
    by_cases h3 : cfg.cache_length > 0
    · obtain ⟨hcf, _⟩ := hc h3
      simp only [h3, if_true]
      cases tick_encode cfg inp with
      | fault => exact hi
      | null => exact hi
      | ok jpeg =>
        simp only []
        cases hst : store_frame s.frame_cache s.current_frame jpeg with
        | none => exact hi
        | some cache =>
          simp only [finish_render]
          have hcache : cache[i]? = some fr := by
            unfold store_frame at hst
            split_ifs at hst
            cases hst
            rw [List.getElem?_set_ne]
            · exact hi
            · rw [hcf]
              simp
              omega
          split_ifs <;> exact hcache
    · simp only [h3, if_false, finish_render]
      split_ifs <;> exact hi
  · rw [(step_of_not_render inp hp).2.1]
    exact hi

theorem foldl_keeps_written {cfg : Config} (hN : cfg.cache_length ≤ 2147483647)
    (more : List TickInput) :
    ∀ s : Sched, SchedInv cfg s → ∀ (i : Nat) (fr : cached_frame),
      s.frame_cache[i]? = some fr → fr.jpeg_data.isSome = true →
      (more.foldl (step cfg) s).frame_cache[i]? = some fr := by
  induction more with
  | nil => intro s _ i fr hi _; exact hi
  | cons inp rest ih =>
    intro s h i fr hi hs
    exact ih _ (h.step inp hN) i fr (step_keeps_written inp h i fr hi hs) hs

/-! ## The scenario of three frames -/

theorem scenario_slot (k : Nat) :
    decoded_pixels scenario_cfg (run scenario_cfg scenario_recording).frame_cache
      ((k : Int) % scenario_cfg.cache_length) = some (scenario_colour k) := by
  have hN : scenario_cfg.cache_length = 3 := rfl
  rw [hN]
  rcases (by omega : k % 3 = 0 ∨ k % 3 = 1 ∨ k % 3 = 2) with h | h | h
  · have hk : (k : Int) % 3 = 0 := by omega
    rw [hk]
    simp only [scenario_colour, h]
    decide
  · have hk : (k : Int) % 3 = 1 := by omega
    rw [hk]
    simp only [scenario_colour, h]
    decide
  · have hk : (k : Int) % 3 = 2 := by omega
    rw [hk]
    simp only [scenario_colour, h]
    decide

theorem scenario_playback (n : Nat) :
    (run scenario_cfg (scenario_recording ++ List.replicate n (scenario_tick []))).phase =
        Phase.playback ∧
      (run scenario_cfg (scenario_recording ++ List.replicate n (scenario_tick []))).frame_cache =
        (run scenario_cfg scenario_recording).frame_cache ∧
      (uploaded_slots
        (run scenario_cfg (scenario_recording ++ List.replicate n (scenario_tick []))).trace).length
        = n := by
  induction n with
  | zero => decide
  | succ n ih =>
    obtain ⟨hp, hc, hu⟩ := ih
    have hinv := @SchedInv.run scenario_cfg (by decide)
      (scenario_recording ++ List.replicate n (scenario_tick []))
    obtain ⟨_, hidx, hum⟩ := hinv.playback hp
    have hpx := scenario_slot n
    rw [← hu, hum, ← hidx, ← hc] at hpx
    have hstep := @playback_ok_step scenario_cfg _ (scenario_tick []) hp (by decide) rfl _ hpx
    rw [List.replicate_succ', ← List.append_assoc, run_append]
    simp only [List.foldl_cons, List.foldl_nil]
    exact ⟨hstep.1, hstep.2.1.trans hc, by omega⟩

theorem scenario_uploads (n : Nat) :
    uploaded_pixels
        (run scenario_cfg (scenario_recording ++ List.replicate n (scenario_tick []))).trace =
      (List.range n).map (fun k => some (scenario_colour k)) := by
  obtain ⟨_, hc, hu⟩ := scenario_playback n
  have hinv := @SchedInv.run scenario_cfg (by decide)
    (scenario_recording ++ List.replicate n (scenario_tick []))
  rw [hinv.uploaded_px, hinv.uploaded_eq, hu, hc, List.map_map]
  apply List.map_congr_left
  intro k _
  exact scenario_slot k

/-! ## The claims on the scheduler -/

/-- C1, as amended. For a frame rate above 1 and a cache duration above 0
whose product fits an `int`, start-up sets `cache_length` to the product; as
long as dispatch, encoding, the GL calls and the set-up of the passthrough
program succeed, the first `cache_length` passes are live ticks `0, 1, ..`
that each store one frame, and the pass after them, the one that finds
`current_frame == cache_length`, enters Playback: not earlier, not later. -/
theorem recording_lasts_cache_length_ticks (fps cache_seconds : Int)
    (hF : 1 < fps) (hS : 0 < cache_seconds) (hfit : fps * cache_seconds ≤ 2147483647) :
    main_cache_length fps cache_seconds = some (cache_seconds * fps) ∧
    ∀ (cfg : Config) (inputs : List TickInput),
      cfg.cache_length = cache_seconds * fps → (∀ inp ∈ inputs, TickOk cfg inp) →
      ((inputs.length : Int) ≤ cache_seconds * fps →
        (run cfg inputs).phase = Phase.render ∧
        (run cfg inputs).current_frame = inputs.length ∧
        live_ticks (run cfg inputs).trace =
          (List.range inputs.length).map (fun (i : Nat) => (i : Int)) ∧
        stored (run cfg inputs).trace =
          (List.range inputs.length).map (fun (i : Nat) => ((i : Int), i)) ∧
        written (run cfg inputs).frame_cache = inputs.length) ∧
      ((inputs.length : Int) = cache_seconds * fps + 1 →
        (run cfg inputs).phase = Phase.playback ∧
        live_ticks (run cfg inputs).trace =
          (List.range (inputs.length - 1)).map (fun (i : Nat) => (i : Int)) ∧
        stored (run cfg inputs).trace =
          (List.range (inputs.length - 1)).map (fun (i : Nat) => ((i : Int), i)) ∧
        written (run cfg inputs).frame_cache = inputs.length - 1 ∧
        decoded_slots (run cfg inputs).trace = []) := by
  have hpos : 0 < fps * cache_seconds := Int.mul_pos (by omega) hS
  refine ⟨?_, ?_⟩
  · unfold main_cache_length
    rw [if_neg (by omega), if_pos (by omega), wrapInt_of_range (by omega) (by omega),
      Int.mul_comm]
  · intro cfg inputs hcfg hok
    have hcomm : cache_seconds * fps = fps * cache_seconds := Int.mul_comm _ _
    have hN : cfg.cache_length ≤ 2147483647 := by omega
    have h0 : 0 < cfg.cache_length := by omega
    refine ⟨?_, ?_⟩
    · intro hlen
      obtain ⟨hp, hk, hl⟩ := recording_prefix hN h0 inputs hok (by omega)
      have hinv := SchedInv.run hN inputs
      obtain ⟨_, _, _, hc⟩ := hinv.render hp
      refine ⟨hp, ?_, hl, ?_, ?_⟩
      · rw [(hc h0).1, hk]
      · rw [hinv.stored_eq, hk]
      · rw [hinv.written_eq, hk]
    · intro hlen
      induction inputs using List.reverseRecOn with
      | nil => simp at hlen; omega
      | append_singleton l a _ =>
        simp only [List.length_append, List.length_singleton] at hlen
        obtain ⟨hp, hk, hl⟩ :=
          recording_prefix hN h0 l (fun inp hin => hok inp (by simp [hin])) (by omega)
        have hinv := SchedInv.run hN l
        have hstep := render_full_step hinv hp h0 (by omega) (hok a (by simp))
        have hinv2 := SchedInv.run hN (l ++ [a])
        have htr : (run cfg (l ++ [a])).trace = (run cfg l).trace ++ [Event.enter_playback] := by
          rw [run_append]
          exact hstep.2
        have hph : (run cfg (l ++ [a])).phase = Phase.playback := by
          rw [run_append]
          exact hstep.1
        have hst : stored (run cfg (l ++ [a])).trace = stored (run cfg l).trace := by
          rw [htr]
          simp
        simp only [List.length_append, List.length_singleton, Nat.add_sub_cancel]
        refine ⟨hph, ?_, ?_, ?_, ?_⟩
        · rw [htr]
          simpa using hl
        · rw [hst, hinv.stored_eq, hk]
        · rw [hinv2.written_eq, hst, hk]
        · rw [htr]
          simpa using (hinv.render hp).1

/-- Witness of C1 (amended): 3 frames per second for 1 second in the scenario
of three frames. -/
theorem recording_lasts_cache_length_ticks_witness :
    (1 : Int) < 3 ∧ (0 : Int) < 1 ∧ (3 : Int) * 1 ≤ 2147483647 ∧
    main_cache_length 3 1 = some 3 ∧
    (run scenario_cfg (scenario_recording.take 3)).phase = Phase.render ∧
    (run scenario_cfg scenario_recording).phase = Phase.playback ∧
    stored (run scenario_cfg scenario_recording).trace = [(0, 0), (1, 1), (2, 2)] :=
  have h := recording_lasts_cache_length_ticks 3 1 (by decide) (by decide) (by decide)
  ⟨by decide, by decide, by decide, h.1,
    ((h.2 scenario_cfg (scenario_recording.take 3) rfl (by decide)).1 (by decide)).1,
    ((h.2 scenario_cfg scenario_recording rfl (by decide)).2 (by decide)).1,
    ((h.2 scenario_cfg scenario_recording rfl (by decide)).2 (by decide)).2.2.1⟩

/-- C1 as stated fails. With 65536 frames per second and 65536 seconds the
`int` product wraps and `cache_length` is 0, not the product, so that caching
is off; and with 3 frames per second for 1 second, a GL error in the first
pass ends the process at tick 0 although dispatch and encoding succeeded. -/
theorem recording_length_counterexample :
    main_cache_length 65536 65536 = some 0 ∧ (65536 : Int) * 65536 ≠ 0 ∧
    (scenario_tick (solid 255 0 0)).dispatch ≠ -1 ∧
    (tick_encode scenario_cfg (scenario_tick (solid 255 0 0))).isOk = true ∧
    (run scenario_cfg [{ scenario_tick (solid 255 0 0) with gl_error := 1 }]).phase =
      Phase.exited 1 := by
  decide

/-- C2. For a cache of `N > 0` slots, in every run the slots decoded are
`0 mod N, 1 mod N, 2 mod N, ..` in this order and so are the slots uploaded,
each upload carrying the pixels decoded from its slot; every pass of the cache
loop whose dispatch succeeds decodes the next slot of this order. In the
scenario of three frames (red, green, blue, 2×2 pixels) the first `n` uploads
are red, green, blue, red, green, blue, .. for every `n`. -/
theorem playback_presents_slots_cyclically (cfg : Config) (h0 : 0 < cfg.cache_length)
    (hN : cfg.cache_length ≤ 2147483647) (inputs : List TickInput) :
    decoded_slots (run cfg inputs).trace =
        (List.range (decoded_slots (run cfg inputs).trace).length).map
          (fun (k : Nat) => (k : Int) % cfg.cache_length) ∧
      uploaded_slots (run cfg inputs).trace =
        (List.range (uploaded_slots (run cfg inputs).trace).length).map
          (fun (k : Nat) => (k : Int) % cfg.cache_length) ∧
      uploaded_pixels (run cfg inputs).trace =
        (uploaded_slots (run cfg inputs).trace).map
          (decoded_pixels cfg (run cfg inputs).frame_cache) ∧
      (∀ slot ∈ decoded_slots (run cfg inputs).trace, 0 ≤ slot ∧ slot < cfg.cache_length) ∧
      ((run cfg inputs).phase = Phase.playback → ∀ inp : TickInput, inp.dispatch ≠ -1 →
        decoded_slots (run cfg (inputs ++ [inp])).trace =
          decoded_slots (run cfg inputs).trace ++
            [((decoded_slots (run cfg inputs).trace).length : Int) % cfg.cache_length]) ∧
      ∀ n : Nat,
        uploaded_pixels
            (run scenario_cfg (scenario_recording ++ List.replicate n (scenario_tick []))).trace =
          (List.range n).map (fun k => some (scenario_colour k)) := by
  have hinv := SchedInv.run hN inputs
  refine ⟨hinv.decoded_eq, hinv.uploaded_eq, hinv.uploaded_px, ?_, ?_, scenario_uploads⟩
  · intro slot hslot
    rw [hinv.decoded_eq] at hslot
    obtain ⟨k, _, rfl⟩ := List.mem_map.1 hslot
    exact ⟨Int.emod_nonneg _ (by omega), Int.emod_lt_of_pos _ h0⟩
  · intro hp inp hdisp
    rw [run_append]
    exact playback_tick_step hinv hp hdisp

/-- Witness of C2: the scenario of three frames followed by six passes of the
cache loop. -/
theorem playback_presents_slots_cyclically_witness :
    (0 : Int) < scenario_cfg.cache_length ∧ scenario_cfg.cache_length ≤ 2147483647 ∧
    decoded_slots
        (run scenario_cfg (scenario_recording ++ List.replicate 6 (scenario_tick []))).trace =
      [0, 1, 2, 0, 1, 2] ∧
    uploaded_pixels
        (run scenario_cfg (scenario_recording ++ List.replicate 6 (scenario_tick []))).trace =
      [some (solid 255 0 0), some (solid 0 255 0), some (solid 0 0 255),
       some (solid 255 0 0), some (solid 0 255 0), some (solid 0 0 255)] :=
  have h := playback_presents_slots_cyclically scenario_cfg (by decide) (by decide)
    (scenario_recording ++ List.replicate 6 (scenario_tick []))
  ⟨by decide, by decide, h.1.trans (by decide), (h.2.2.2.2.2 6).trans (by decide)⟩

/-- C3. In every run the stores are slots `0, 1, 2, ..` in this order, slot
`i` after exactly `i` completed passes, at most `N` of them and none when
caching is off; nothing is encoded or stored after the first decode; a slot
that holds a frame holds the same frame after any further inputs; and once
the render loop is left it is never entered again, the cache stays as it is
and no encode or store is added. -/
theorem cache_writes_monotonic_one_way (cfg : Config) (hN : cfg.cache_length ≤ 2147483647)
    (inputs more : List TickInput) :
    stored (run cfg inputs).trace =
        (List.range (stored (run cfg inputs).trace).length).map
          (fun (i : Nat) => ((i : Int), i)) ∧
      (0 < cfg.cache_length →
        ((stored (run cfg inputs).trace).length : Int) ≤ cfg.cache_length) ∧
      (cfg.cache_length ≤ 0 → stored (run cfg inputs).trace = []) ∧
      encode_count (after_first_decode (run cfg inputs).trace) = 0 ∧
      stored (after_first_decode (run cfg inputs).trace) = [] ∧
      (∀ (i : Nat) (fr : cached_frame), (run cfg inputs).frame_cache[i]? = some fr →
        fr.jpeg_data.isSome = true → (run cfg (inputs ++ more)).frame_cache[i]? = some fr) ∧
      ((run cfg inputs).phase ≠ Phase.render →
        (run cfg (inputs ++ more)).phase ≠ Phase.render ∧
        (run cfg (inputs ++ more)).frame_cache = (run cfg inputs).frame_cache ∧
        stored (run cfg (inputs ++ more)).trace = stored (run cfg inputs).trace ∧
        encode_count (run cfg (inputs ++ more)).trace =
          encode_count (run cfg inputs).trace) := by
  have hinv := SchedInv.run hN inputs
  refine ⟨hinv.stored_eq, hinv.stored_le, hinv.stored_nil, hinv.quiet.1, hinv.quiet.2, ?_, ?_⟩
  · intro i fr hi hs
    rw [run_append]
    exact foldl_keeps_written hN more _ hinv i fr hi hs
  · intro hp
    rw [run_append]
    exact foldl_of_not_render more _ hp

/-- Witness of C3: the scenario of three frames, then two passes of the cache
loop. -/
theorem cache_writes_monotonic_one_way_witness :
    scenario_cfg.cache_length ≤ 2147483647 ∧
    stored (run scenario_cfg scenario_recording).trace = [(0, 0), (1, 1), (2, 2)] ∧
    encode_count (run scenario_cfg
      (scenario_recording ++ [scenario_tick [], scenario_tick []])).trace = 3 :=
  have h := cache_writes_monotonic_one_way scenario_cfg (by decide) scenario_recording
    [scenario_tick [], scenario_tick []]
  ⟨by decide, h.1.trans (by decide), ((h.2.2.2.2.2.2 (by decide)).2.2.2).trans (by decide)⟩

theorem render_step_no_decode (cfg : Config) (s : Sched) (inp : TickInput) :
    decoded_slots (render_step cfg s inp).trace = decoded_slots s.trace := by
  unfold render_step
  by_cases hd : inp.dispatch = -1
  · rw [if_pos hd]
    unfold leave_render
    split_ifs <;> simp
  · rw [if_neg hd]
    by_cases hf : cfg.cache_length > 0 ∧ s.current_frame = cfg.cache_length
    · rw [if_pos hf]
      unfold leave_render
      split_ifs <;> simp
    · rw [if_neg hf]
      simp only []
      by_cases hc : cfg.cache_length > 0
      · have h1 : ¬ cfg.cache_length ≤ 0 := by omega
        simp only [h1, and_false, if_false, hc, if_true]
        cases he : tick_encode cfg inp with
        | fault => simp
        | null => simp
        | ok jpeg =>
          simp only []
          cases hs : store_frame s.frame_cache s.current_frame jpeg with
          | none => simp
          | some cache =>
            simp only []
            unfold finish_render
            by_cases hg : inp.gl_error = 0 <;> simp [hg]
      · simp only [hc, if_false]
        unfold finish_render
        by_cases hg : inp.gl_error = 0 <;>
          by_cases hh : cfg.running_hyprland = true ∧ cfg.cache_length ≤ 0 <;> simp [hg, hh]

/-- A pass adds a `decode` event only in the cache loop, after a dispatch that
did not fail. -/
theorem decode_only_in_playback (cfg : Config) (s : Sched) (inp : TickInput)
    (h : decoded_slots (step cfg s inp).trace ≠ decoded_slots s.trace) :
    s.phase = Phase.playback ∧ inp.dispatch ≠ -1 := by
  cases hph : s.phase with
  | render =>
    exfalso
    apply h
    simp only [step, hph]
    exact render_step_no_decode cfg s inp
  | exited st =>
    exfalso
    apply h
    simp only [step, hph]
  | crashed =>
    exfalso
    apply h
    simp only [step, hph]
  | playback =>
    refine ⟨rfl, ?_⟩
    intro hd
    apply h
    simp [step, hph, playback_step, hd]

/-- The render loop is left for the cache loop either by the `break` of a full
cache or through a failed dispatch; nothing is stored on the way. -/
theorem render_step_enters_playback {cfg : Config} {s : Sched} {inp : TickInput}
    (h : SchedInv cfg s) (hp : s.phase = Phase.render)
    (hpl : (render_step cfg s inp).phase = Phase.playback) :
    (inp.dispatch = -1 ∨ ((stored s.trace).length : Int) = cfg.cache_length) ∧
      stored (render_step cfg s inp).trace = stored s.trace := by
  obtain ⟨_, _, _, hc⟩ := h.render hp
  unfold render_step at hpl ⊢
  by_cases hd : inp.dispatch = -1
  · refine ⟨Or.inl hd, ?_⟩
    rw [if_pos hd]
    unfold leave_render
    split_ifs <;> simp
  · rw [if_neg hd] at hpl ⊢
    by_cases hf : cfg.cache_length > 0 ∧ s.current_frame = cfg.cache_length
    · refine ⟨Or.inr ?_, ?_⟩
      · have := (hc hf.1).1
        omega
      · rw [if_pos hf]
        unfold leave_render
        split_ifs <;> simp
    · exfalso
      rw [if_neg hf] at hpl
      simp only [] at hpl
      by_cases hcl : cfg.cache_length > 0
      · simp only [hcl, if_true] at hpl
        cases he : tick_encode cfg inp with
        | fault => simp [he] at hpl
        | null => simp [he] at hpl
        | ok jpeg =>
          simp only [he] at hpl
          cases hs : store_frame s.frame_cache s.current_frame jpeg with
          | none => simp [hs] at hpl
          | some cache =>
            simp only [hs, finish_render] at hpl
            by_cases hg : inp.gl_error = 0 <;> simp [hg, hp] at hpl
      · simp only [hcl, if_false, finish_render] at hpl
        by_cases hg : inp.gl_error = 0 <;> simp [hg, hp] at hpl

/-- When the cache loop runs, the cache is full or a dispatch has failed. -/
theorem playback_after {cfg : Config} (hN : cfg.cache_length ≤ 2147483647)
    (inputs : List TickInput) :
    (run cfg inputs).phase = Phase.playback →
      ((stored (run cfg inputs).trace).length : Int) = cfg.cache_length ∨
        ∃ a ∈ inputs, a.dispatch = -1 := by
  induction inputs using List.reverseRecOn with
  | nil =>
    intro h
    simp [run, Sched.init] at h
  | append_singleton l a ih =>
    intro hpl
    have hr : run cfg (l ++ [a]) = step cfg (run cfg l) a := by
      rw [run_append]
      rfl
    rw [hr] at hpl ⊢
    have hinv := SchedInv.run hN l
    by_cases hp : (run cfg l).phase = Phase.render
    · have hs : step cfg (run cfg l) a = render_step cfg (run cfg l) a := by
        simp only [step, hp]
      rw [hs] at hpl ⊢
      obtain ⟨hcase, hst⟩ := render_step_enters_playback hinv hp hpl
      rw [hst]
      rcases hcase with hd | hfull
      · exact Or.inr ⟨a, by simp, hd⟩
      · exact Or.inl hfull
    · obtain ⟨_, _, hst, _⟩ := @step_of_not_render cfg _ a hp
      rw [hst]
      have hprev : (run cfg l).phase = Phase.playback := by
        cases hph : (run cfg l).phase with
        | render => exact absurd hph hp
        | playback => rfl
        | exited st =>
          simp only [step, hph] at hpl
          cases hpl
        | crashed =>
          simp only [step, hph] at hpl
          cases hpl
      rcases ih hprev with hfull | ⟨b, hb, hbd⟩
      · exact Or.inl hfull
      · exact Or.inr ⟨b, by simp [hb], hbd⟩

/-- C4. In every run in which a failure of dispatch persists, as it does in
libwayland, a pass that decodes a cache slot starts in the cache loop with all
`cache_length` slots written, and leaves them so. This holds whatever happens
while recording: a failure of dispatch ends the render loop and then the cache
loop before its first pass, a failure of encoding ends the process. -/
theorem partial_cache_never_decoded (cfg : Config) (hN : cfg.cache_length ≤ 2147483647)
    (inputs : List TickInput) (inp : TickInput)
    (hpers : DispatchFailurePersists (inputs ++ [inp]))
    (hdec : decoded_slots (run cfg (inputs ++ [inp])).trace ≠
      decoded_slots (run cfg inputs).trace) :
    (run cfg inputs).phase = Phase.playback ∧ 0 < cfg.cache_length ∧
      (written (run cfg inputs).frame_cache : Int) = cfg.cache_length ∧
      (written (run cfg (inputs ++ [inp])).frame_cache : Int) = cfg.cache_length := by
  have hr : run cfg (inputs ++ [inp]) = step cfg (run cfg inputs) inp := by
    rw [run_append]
    rfl
  rw [hr] at hdec ⊢
  obtain ⟨hp, hd⟩ := decode_only_in_playback cfg _ inp hdec
  have hinv := SchedInv.run hN inputs
  have hfull : ((stored (run cfg inputs).trace).length : Int) = cfg.cache_length := by
    rcases playback_after hN inputs hp with h | ⟨b, hb, hbd⟩
    · exact h
    · exfalso
      unfold DispatchFailurePersists at hpers
      exact hd ((List.pairwise_append.mp hpers).2.2 b hb inp (by simp) hbd)
  have hnr : (run cfg inputs).phase ≠ Phase.render := by
    rw [hp]
    intro h
    cases h
  refine ⟨hp, (hinv.playback hp).1, ?_, ?_⟩
  · rw [hinv.written_eq]
    exact hfull
  · rw [(@step_of_not_render cfg _ inp hnr).2.1, hinv.written_eq]
    exact hfull

/-- Witness of C4: after the three frames of the scenario are recorded, the
first pass of the cache loop decodes with 3 of 3 slots written. -/
theorem partial_cache_never_decoded_witness :
    (run scenario_cfg scenario_recording).phase = Phase.playback ∧
      0 < scenario_cfg.cache_length ∧
      (written (run scenario_cfg scenario_recording).frame_cache : Int) =
        scenario_cfg.cache_length ∧
      (written (run scenario_cfg (scenario_recording ++ [scenario_tick []])).frame_cache : Int) =
        scenario_cfg.cache_length :=
  partial_cache_never_decoded scenario_cfg (by decide) scenario_recording (scenario_tick [])
    (by decide) (by decide)

/-- A dispatch that fails before any frame is stored ends both loops: nothing
is decoded. -/
theorem failed_dispatch_decodes_nothing :
    DispatchFailurePersists [failed_dispatch, failed_dispatch] ∧
    (run scenario_cfg [failed_dispatch, failed_dispatch]).phase = Phase.exited 0 ∧
    decoded_slots (run scenario_cfg [failed_dispatch, failed_dispatch]).trace = [] := by
  decide

/-! ## Selection of the output -/

theorem getLast?_cons_or (p : Nat) (rest : List Nat) (d : Option Nat) :
    Option.or (p :: rest).getLast? d = Option.or rest.getLast? (some p) := by
  rw [List.getLast?_cons]
  cases rest.getLast? <;> rfl

theorem done_events_no_target (ds : List Nat) :
    ∀ r : Registry, r.screenset = none →
      dispatch_events r (ds.map OutputEvent.done) =
        Outcome.ok { r with target_display := Option.or ds.getLast? r.target_display } := by
  induction ds with
  | nil => intro r _; rfl
  | cons p rest ih =>
    intro r hs
    have hstep : dispatch_event r (OutputEvent.done p) =
        Outcome.ok { r with target_display := some p } := by
      simp [dispatch_event, output_done, hs]
    simp only [List.map_cons, dispatch_events, hstep]
    have hrec := ih { r with target_display := some p } hs
    rw [hrec, getLast?_cons_or]

theorem done_events_with_target (t : String) (ds : List Nat) :
    ∀ r : Registry, r.screenset = some t →
      (∀ p ∈ ds, (output_name_of r p).isSome = true) →
      dispatch_events r (ds.map OutputEvent.done) =
        Outcome.ok { r with target_display := (Option.or
          (ds.filter (fun p => decide (output_name_of r p = some t))).getLast?
          r.target_display) } := by
  induction ds with
  | nil => intro r _ _; rfl
  | cons p rest ih =>
    intro r hs hnamed
    obtain ⟨n, hn⟩ := Option.isSome_iff_exists.1 (hnamed p (by simp))
    have hrest : ∀ q ∈ rest, (output_name_of r q).isSome = true :=
      fun q hq => hnamed q (by simp [hq])
    have hget : ∃ o, r.heap[p]? = some o ∧ o.name = some n := by
      unfold output_name_of at hn
      cases hg : r.heap[p]? with
      | none => simp [hg] at hn
      | some o => exact ⟨o, rfl, by simpa [hg] using hn⟩
    obtain ⟨o, hg, hname⟩ := hget
    by_cases hnt : n = t
    · have hstep : dispatch_event r (OutputEvent.done p) =
          Outcome.ok { r with target_display := some p } := by
        simp [dispatch_event, output_done, hs, hg, hname, hnt]
      simp only [List.map_cons, dispatch_events, hstep]
      have hrec := ih { r with target_display := some p } hs hrest
      rw [hrec]
      have hp : output_name_of r p = some t := by rw [hn, hnt]
      have hsame : ∀ q, output_name_of { r with target_display := some p } q =
          output_name_of r q := fun _ => rfl
      simp only [hsame, List.filter_cons, hp, decide_True, if_true, getLast?_cons_or]
    · have hstep : dispatch_event r (OutputEvent.done p) = Outcome.ok r := by
        simp [dispatch_event, output_done, hs, hg, hname, hnt]
      simp only [List.map_cons, dispatch_events, hstep]
      rw [ih r hs hrest]
      have hp : ¬ output_name_of r p = some t := by
        rw [hn]
        intro hh
        exact hnt (Option.some.inj hh)
      simp only [List.filter_cons, hp, decide_False]
      rfl

theorem selected_after_no_target (r : Registry) (hs : r.screenset = none) (ds : List Nat) :
    selected_after r (ds.map OutputEvent.done) = Option.or ds.getLast? r.target_display := by
  unfold selected_after
  rw [done_events_no_target ds r hs]

theorem selected_after_with_target (r : Registry) (t : String) (hs : r.screenset = some t)
    (ds : List Nat) (hnamed : ∀ p ∈ ds, (output_name_of r p).isSome = true) :
    selected_after r (ds.map OutputEvent.done) =
      Option.or (ds.filter (fun p => decide (output_name_of r p = some t))).getLast?
        r.target_display := by
  unfold selected_after
  rw [done_events_with_target t ds r hs hnamed]

/-! ## The claims on the selection of the output -/

/-- C5. Without `--monitor`, after any sequence of Done events the selected
output is the one of the last Done event; for three outputs done in the order
A, B, C it is C, and it is not A unless A is C. -/
theorem last_done_wins_without_target (r : Registry) (hs : r.screenset = none)
    (ds : List Nat) (p : Nat) :
    selected_after r ((ds ++ [p]).map OutputEvent.done) = some p ∧
    ∀ a b c : Nat,
      selected_after r [OutputEvent.done a, OutputEvent.done b, OutputEvent.done c] = some c ∧
      (a ≠ c →
        selected_after r [OutputEvent.done a, OutputEvent.done b, OutputEvent.done c] ≠
          some a) := by
  refine ⟨?_, ?_⟩
  · rw [selected_after_no_target r hs, List.getLast?_concat]
    rfl
  · intro a b c
    have h := selected_after_no_target r hs [a, b, c]
    have h3 : selected_after r
        [OutputEvent.done a, OutputEvent.done b, OutputEvent.done c] = some c := by
      simpa using h
    refine ⟨h3, ?_⟩
    intro hne heq
    rw [h3] at heq
    exact hne (Option.some.inj heq).symm

/-- Witness of C5: three named outputs, no `--monitor`, Done in the order 0, 1, 2. -/
theorem last_done_wins_without_target_witness :
    (three_outputs none).screenset = none ∧
    selected_after (three_outputs none)
      [OutputEvent.done 0, OutputEvent.done 1, OutputEvent.done 2] = some 2 :=
  ⟨rfl, (last_done_wins_without_target (three_outputs none) rfl [0, 1] 2).1⟩

/-- C6. With `--monitor` equal to the name of B, while A and C have other
names, the selected output after the Done events of A, B and C in any order
is B. -/
theorem named_target_wins_in_any_order (r : Registry) (t : String) (a b c : Nat)
    (hs : r.screenset = some t)
    (ha : ∃ n, output_name_of r a = some n ∧ n ≠ t)
    (hb : output_name_of r b = some t)
    (hc : ∃ n, output_name_of r c = some n ∧ n ≠ t)
    (ds : List Nat) (hperm : ds.Perm [a, b, c]) :
    selected_after r (ds.map OutputEvent.done) = some b := by
  obtain ⟨na, hna, hnat⟩ := ha
  obtain ⟨nc, hnc, hnct⟩ := hc
  have hnamed : ∀ p ∈ ds, (output_name_of r p).isSome = true := by
    intro p hp
    have hp3 : p ∈ [a, b, c] := hperm.mem_iff.1 hp
    simp only [List.mem_cons, List.mem_singleton, List.not_mem_nil, or_false] at hp3
    rcases hp3 with rfl | rfl | rfl
    · rw [hna]; rfl
    · rw [hb]; rfl
    · rw [hnc]; rfl
  rw [selected_after_with_target r t hs ds hnamed]
  have hfa : ¬ output_name_of r a = some t := by
    rw [hna]
    exact fun hh => hnat (Option.some.inj hh)
  have hfc : ¬ output_name_of r c = some t := by
    rw [hnc]
    exact fun hh => hnct (Option.some.inj hh)
  have hfil : (ds.filter (fun p => decide (output_name_of r p = some t))).Perm [b] := by
    have := hperm.filter (fun p => decide (output_name_of r p = some t))
    simpa [List.filter_cons, hfa, hb, hfc] using this
  rw [List.perm_singleton.1 hfil]
  rfl

/-- Witness of C6: `--monitor HDMI-A-1` and the Done events in the order C, A, B. -/
theorem named_target_wins_in_any_order_witness :
    selected_after (three_outputs (some "HDMI-A-1"))
      ([2, 0, 1].map OutputEvent.done) = some 1 :=
  named_target_wins_in_any_order (three_outputs (some "HDMI-A-1")) "HDMI-A-1" 0 1 2 rfl
    ⟨"DP-1", rfl, by decide⟩ rfl ⟨"DP-2", rfl, by decide⟩ [2, 0, 1] (by decide)

/-- C7, as amended. With `--monitor` set and every output of the sequence
named, the selected output after a sequence of Done events is the last one of
the sequence whose name equals the target (the selection is unchanged when
there is none), and a further Done event of an output with another name does
not change the selection. -/
theorem last_matching_done_wins (r : Registry) (t : String) (hs : r.screenset = some t)
    (ds : List Nat) (hnamed : ∀ p ∈ ds, (output_name_of r p).isSome = true) :
    selected_after r (ds.map OutputEvent.done) =
      Option.or (ds.filter (fun p => decide (output_name_of r p = some t))).getLast?
        r.target_display ∧
    ∀ (p : Nat) (n : String), output_name_of r p = some n → n ≠ t →
      selected_after r ((ds ++ [p]).map OutputEvent.done) =
        selected_after r (ds.map OutputEvent.done) := by
  refine ⟨selected_after_with_target r t hs ds hnamed, ?_⟩
  intro p n hn hnt
  have hnamed2 : ∀ q ∈ ds ++ [p], (output_name_of r q).isSome = true := by
    intro q hq
    rcases List.mem_append.1 hq with h | h
    · exact hnamed q h
    · rw [List.mem_singleton.1 h, hn]
      rfl
  have hf : ¬ output_name_of r p = some t := by
    rw [hn]
    exact fun hh => hnt (Option.some.inj hh)
  rw [selected_after_with_target r t hs _ hnamed2, selected_after_with_target r t hs ds hnamed]
  simp [List.filter_append, List.filter_cons, hf]

/-- Witness of C7 (amended): `--monitor HDMI-A-1`, Done in the order B, A, C. -/
theorem last_matching_done_wins_witness :
    (three_outputs (some "HDMI-A-1")).screenset = some "HDMI-A-1" ∧
    selected_after (three_outputs (some "HDMI-A-1")) ([1, 0, 2].map OutputEvent.done) =
      some 1 :=
  ⟨rfl, ((last_matching_done_wins (three_outputs (some "HDMI-A-1")) "HDMI-A-1" rfl [1, 0, 2]
    (by decide)).1).trans (by decide)⟩

/-- C7 as stated fails. Two outputs report the name given to `--monitor`;
output 0 is done first and is selected, then output 1 is done and replaces it:
the selection is not the first matching output, and a later Done event changed
it. -/
theorem first_match_is_replaced_counterexample :
    twin_outputs.screenset = some "DP-1" ∧
    output_name_of twin_outputs 0 = some "DP-1" ∧
    output_name_of twin_outputs 1 = some "DP-1" ∧
    selected_after twin_outputs [OutputEvent.done 0] = some 0 ∧
    selected_after twin_outputs [OutputEvent.done 0, OutputEvent.done 1] = some 1 := by
  decide

/-! ## Facts about buffers -/

theorem readAt_some {buf : List Byte} {i : Int} {v : Byte} (h : readAt buf i = some v) :
    0 ≤ i ∧ buf[i.toNat]? = some v := by
  unfold readAt at h
  split at h
  · exact ⟨by assumption, h⟩
  · cases h

theorem writeAt_some {buf buf' : List Byte} {i : Int} {v : Byte}
    (h : writeAt buf i v = some buf') :
    0 ≤ i ∧ i.toNat < buf.length ∧ buf' = buf.set i.toNat v := by
  unfold writeAt at h
  split at h
  · rename_i hc
    cases h
    exact ⟨hc.1, hc.2, rfl⟩
  · cases h

theorem readAt_of_getElem? {buf : List Byte} {n : Nat} {v : Byte} (h : buf[n]? = some v) :
    readAt buf (n : Int) = some v := by
  unfold readAt
  simp [h]

theorem writeAt_of_lt {buf : List Byte} {n : Nat} (v : Byte) (h : n < buf.length) :
    writeAt buf (n : Int) v = some (buf.set n v) := by
  unfold writeAt
  simp [h]

/-! ## Facts about `decompress_jpeg` -/

/-- A pass of the pixel loop of `decompress_jpeg` that returns has written the
four bytes at its offset, which is inside the buffer. -/
theorem decompress_pixel_some {row out out' : List Byte} {w ri x : Int}
    (h : decompress_pixel row w ri out x = some out') :
    ∃ (o c : Nat) (r g b : Byte),
      (o : Int) = wrapInt (wrapInt (wrapInt (ri * w) + x) * 4) ∧
      (c : Int) = wrapInt (x * 3) ∧ o + 3 < out.length ∧
      row[c]? = some r ∧ row[c + 1]? = some g ∧ row[c + 2]? = some b ∧
      out' = (((out.set o r).set (o + 1) g).set (o + 2) b).set (o + 3) 255 := by
  unfold decompress_pixel at h
  simp only [] at h
  cases h1 : readAt row (wrapInt (wrapInt (x * 3) + 0)) with
  | none => rw [h1] at h; cases h
  | some r =>
    simp only [h1] at h
    cases h2 : writeAt out (wrapInt (wrapInt (wrapInt (wrapInt (ri * w) + x) * 4) + 0)) r with
    | none => rw [h2] at h; cases h
    | some out0 =>
      simp only [h2] at h
      cases h3 : readAt row (wrapInt (wrapInt (x * 3) + 1)) with
      | none => rw [h3] at h; cases h
      | some g =>
        simp only [h3] at h
        cases h4 : writeAt out0 (wrapInt (wrapInt (wrapInt (wrapInt (ri * w) + x) * 4) + 1)) g with
        | none => rw [h4] at h; cases h
        | some out1 =>
          simp only [h4] at h
          cases h5 : readAt row (wrapInt (wrapInt (x * 3) + 2)) with
          | none => rw [h5] at h; cases h
          | some b =>
            simp only [h5] at h
            cases h6 : writeAt out1
                (wrapInt (wrapInt (wrapInt (wrapInt (ri * w) + x) * 4) + 2)) b with
            | none => rw [h6] at h; cases h
            | some out2 =>
              simp only [h6] at h
              obtain ⟨a1, e1⟩ := readAt_some h1
              obtain ⟨a2, b2, e2⟩ := writeAt_some h2
              obtain ⟨a3, e3⟩ := readAt_some h3
              obtain ⟨a4, b4, e4⟩ := writeAt_some h4
              obtain ⟨a5, e5⟩ := readAt_some h5
              obtain ⟨a6, b6, e6⟩ := writeAt_some h6
              obtain ⟨a7, b7, e7⟩ := writeAt_some h
              obtain ⟨hO, k0⟩ := wrapInt_offset _ 0 (by omega) (by omega) a2
              obtain ⟨_, k1⟩ := wrapInt_offset _ 1 (by omega) (by omega) a4
              obtain ⟨_, k2⟩ := wrapInt_offset _ 2 (by omega) (by omega) a6
              obtain ⟨_, k3⟩ := wrapInt_offset _ 3 (by omega) (by omega) a7
              obtain ⟨hC, c0⟩ := wrapInt_next _ 0 (by omega) (by omega) a1 a1
              obtain ⟨_, c1⟩ := wrapInt_next _ 1 (by omega) (by omega) a1 a3
              obtain ⟨_, c2⟩ := wrapInt_next _ 2 (by omega) (by omega) a1 a5
              rw [k0] at e2
              rw [k1] at e4
              rw [k2] at e6
              rw [k3] at e7 b7
              rw [c0] at e1
              rw [c1] at e3
              rw [c2] at e5
              rw [Int.toNat_add hO (by omega)] at e4 e6 e7 b7
              rw [Int.toNat_add hC (by omega)] at e1 e3 e5
              rw [Int.toNat_add hO (by omega)] at e2
              refine ⟨(wrapInt (wrapInt (wrapInt (ri * w) + x) * 4)).toNat,
                (wrapInt (x * 3)).toNat, r, g, b,
                Int.toNat_of_nonneg hO, Int.toNat_of_nonneg hC, ?_, ?_, e3, e5, ?_⟩
              · rw [e6, e4, e2] at b7
                simpa using b7
              · simpa using e1
              · rw [e7, e6, e4, e2]
                simp

/-- A pass of the pixel loop of `decompress_jpeg` whose offsets lie inside the
buffers returns. -/
theorem decompress_pixel_of_bounds {row out : List Byte} {w ri x : Int} {o c : Nat}
    {r g b : Byte}
    (ho : (o : Int) = wrapInt (wrapInt (wrapInt (ri * w) + x) * 4))
    (hc : (c : Int) = wrapInt (x * 3))
    (hob : o + 3 < out.length) (ho3 : (o : Int) + 3 ≤ 2147483647)
    (hc3 : (c : Int) + 2 ≤ 2147483647)
    (hr : row[c]? = some r) (hg : row[c + 1]? = some g) (hb : row[c + 2]? = some b) :
    decompress_pixel row w ri out x =
      some ((((out.set o r).set (o + 1) g).set (o + 2) b).set (o + 3) 255) := by
  have e0 : wrapInt (wrapInt (wrapInt (wrapInt (ri * w) + x) * 4) + 0) = ((o : Nat) : Int) := by
    rw [← ho]
    exact wrapInt_of_range (by omega) (by omega)
  have e1 : wrapInt (wrapInt (wrapInt (wrapInt (ri * w) + x) * 4) + 1) =
      ((o + 1 : Nat) : Int) := by
    rw [← ho, wrapInt_of_range (by omega) (by omega)]
    push_cast
    rfl
  have e2 : wrapInt (wrapInt (wrapInt (wrapInt (ri * w) + x) * 4) + 2) =
      ((o + 2 : Nat) : Int) := by
    rw [← ho, wrapInt_of_range (by omega) (by omega)]
    push_cast
    rfl
  have e3 : wrapInt (wrapInt (wrapInt (wrapInt (ri * w) + x) * 4) + 3) =
      ((o + 3 : Nat) : Int) := by
    rw [← ho, wrapInt_of_range (by omega) (by omega)]
    push_cast
    rfl
  have d0 : wrapInt (wrapInt (x * 3) + 0) = ((c : Nat) : Int) := by
    rw [← hc]
    exact wrapInt_of_range (by omega) (by omega)
  have d1 : wrapInt (wrapInt (x * 3) + 1) = ((c + 1 : Nat) : Int) := by
    rw [← hc, wrapInt_of_range (by omega) (by omega)]
    push_cast
    rfl
  have d2 : wrapInt (wrapInt (x * 3) + 2) = ((c + 2 : Nat) : Int) := by
    rw [← hc, wrapInt_of_range (by omega) (by omega)]
    push_cast
    rfl
  unfold decompress_pixel
  simp only [e0, e1, e2, e3, d0, d1, d2, readAt_of_getElem? hr, readAt_of_getElem? hg,
    readAt_of_getElem? hb]
  rw [writeAt_of_lt r (by omega)]
  simp only []
  rw [writeAt_of_lt g (by simp; omega)]
  simp only []
  rw [writeAt_of_lt b (by simp; omega)]
  simp only []
  rw [writeAt_of_lt 255 (by simp; omega)]

theorem four_set_get (out : List Byte) (o : Nat) (r g b a : Byte) (h : o + 3 < out.length) :
    ((((out.set o r).set (o + 1) g).set (o + 2) b).set (o + 3) a).length = out.length ∧
    ((((out.set o r).set (o + 1) g).set (o + 2) b).set (o + 3) a)[o]? = some r ∧
    ((((out.set o r).set (o + 1) g).set (o + 2) b).set (o + 3) a)[o + 1]? = some g ∧
    ((((out.set o r).set (o + 1) g).set (o + 2) b).set (o + 3) a)[o + 2]? = some b ∧
    ((((out.set o r).set (o + 1) g).set (o + 2) b).set (o + 3) a)[o + 3]? = some a ∧
    ∀ i, i < o ∨ o + 4 ≤ i →
      ((((out.set o r).set (o + 1) g).set (o + 2) b).set (o + 3) a)[i]? = out[i]? := by
  refine ⟨by simp, ?_, ?_, ?_, ?_, ?_⟩
  · rw [List.getElem?_set_ne (by omega), List.getElem?_set_ne (by omega),
      List.getElem?_set_ne (by omega), List.getElem?_set_self (by omega)]
  · rw [List.getElem?_set_ne (by omega), List.getElem?_set_ne (by omega),
      List.getElem?_set_self (by simp; omega)]
  · rw [List.getElem?_set_ne (by omega), List.getElem?_set_self (by simp; omega)]
  · rw [List.getElem?_set_self (by simp; omega)]
  · intro i hi
    rw [List.getElem?_set_ne (by omega), List.getElem?_set_ne (by omega),
      List.getElem?_set_ne (by omega), List.getElem?_set_ne (by omega)]

theorem decompress_row_spec (row : List Byte) (w ri : Int) (hm : 0 ≤ ri * w) :
    ∀ (n x0 P : Nat) (out : List Byte),
      ri * w + (x0 : Int) = (P : Int) →
      3 * (x0 + n) ≤ row.length →
      4 * (P + n) ≤ out.length →
      4 * (P + n) ≤ 2147483648 →
      ∃ out', decompress_row row w ri n (x0 : Int) out = some out' ∧
        out'.length = out.length ∧
        (∀ j, j < n → ∀ k, k < 3 → out'[4 * (P + j) + k]? = row[3 * (x0 + j) + k]?) ∧
        (∀ j, j < n → out'[4 * (P + j) + 3]? = some 255) ∧
        (∀ i, i < 4 * P ∨ 4 * (P + n) ≤ i → out'[i]? = out[i]?) := by
  intro n
  induction n with
  | zero =>
    intro x0 P out _ _ _ _
    exact ⟨out, rfl, rfl, fun j hj => absurd hj (by omega), fun j hj => absurd hj (by omega),
      fun _ _ => rfl⟩
  | succ n ih =>
    intro x0 P out hP hrow hout hmax
    have hx0 : (x0 : Int) ≤ P := by omega
    have ho : ((4 * P : Nat) : Int) = wrapInt (wrapInt (wrapInt (ri * w) + (x0 : Int)) * 4) := by
      rw [pixel_offset_eq hm (by omega) (by omega), hP]
      push_cast
      rfl
    have hc : ((3 * x0 : Nat) : Int) = wrapInt ((x0 : Int) * 3) := by
      rw [wrapInt_of_range (by omega) (by omega)]
      push_cast
      omega
    have hb0 : 3 * x0 < row.length := by omega
    have hb1 : 3 * x0 + 1 < row.length := by omega
    have hb2 : 3 * x0 + 2 < row.length := by omega
    have hr : row[3 * x0]? = some row[3 * x0] := List.getElem?_eq_getElem _
    have hg : row[3 * x0 + 1]? = some row[3 * x0 + 1] := List.getElem?_eq_getElem _
    have hb : row[3 * x0 + 2]? = some row[3 * x0 + 2] := List.getElem?_eq_getElem _
    have hpix := @decompress_pixel_of_bounds row out w ri x0 (4 * P) (3 * x0) _ _ _ ho hc
      (by omega) (by omega) (by omega) hr hg hb
    obtain ⟨hlen1, g0, g1, g2, g3, gout⟩ := four_set_get out (4 * P) row[3 * x0]
      row[3 * x0 + 1] row[3 * x0 + 2] 255 (by omega)
    obtain ⟨out', hrun, hlen, hrgb, halpha, hrest⟩ := ih (x0 + 1) (P + 1) _
      (by push_cast; omega) (by omega) (by rw [hlen1]; omega) (by omega)
    refine ⟨out', ?_, by rw [hlen, hlen1], ?_, ?_, ?_⟩
    · rw [decompress_row, hpix]
      have hcast : ((x0 : Int) + 1) = ((x0 + 1 : Nat) : Int) := by push_cast; rfl
      simp only []
      rw [hcast]
      exact hrun
    · intro j hj k hk
      cases j with
      | zero =>
        have hk3 : k = 0 ∨ k = 1 ∨ k = 2 := by omega
        rcases hk3 with rfl | rfl | rfl
        · have e1 : 4 * (P + 0) + 0 = 4 * P := by omega
          have e2 : 3 * (x0 + 0) + 0 = 3 * x0 := by omega
          rw [e1, e2, hrest (4 * P) (Or.inl (by omega)), g0, hr]
        · have e1 : 4 * (P + 0) + 1 = 4 * P + 1 := by omega
          have e2 : 3 * (x0 + 0) + 1 = 3 * x0 + 1 := by omega
          rw [e1, e2, hrest (4 * P + 1) (Or.inl (by omega)), g1, hg]
        · have e1 : 4 * (P + 0) + 2 = 4 * P + 2 := by omega
          have e2 : 3 * (x0 + 0) + 2 = 3 * x0 + 2 := by omega
          rw [e1, e2, hrest (4 * P + 2) (Or.inl (by omega)), g2, hb]
      | succ j =>
        have := hrgb j (by omega) k hk
        have e1 : 4 * (P + (j + 1)) + k = 4 * (P + 1 + j) + k := by omega
        have e2 : 3 * (x0 + (j + 1)) + k = 3 * (x0 + 1 + j) + k := by omega
        rw [e1, e2]
        exact this
    · intro j hj
      cases j with
      | zero =>
        have e1 : 4 * (P + 0) + 3 = 4 * P + 3 := by omega
        rw [e1, hrest (4 * P + 3) (Or.inl (by omega)), g3]
      | succ j =>
        have := halpha j (by omega)
        have e1 : 4 * (P + (j + 1)) + 3 = 4 * (P + 1 + j) + 3 := by omega
        rw [e1]
        exact this
    · intro i hi
      rw [hrest i (by omega), gout i (by omega)]

theorem deposit_some {row scan row1 : List Byte} (h : deposit row scan = some row1) :
    scan.length ≤ row.length ∧ row1.length = row.length ∧
      ∀ i, i < scan.length → row1[i]? = scan[i]? := by
  unfold deposit at h
  split at h
  · rename_i hle
    cases h
    refine ⟨hle, ?_, ?_⟩
    · simp
      omega
    · intro i hi
      rw [List.getElem?_append_left hi]
  · cases h

theorem deposit_of_le {row scan : List Byte} (h : scan.length ≤ row.length) :
    deposit row scan = some (scan ++ row.drop scan.length) := by
  unfold deposit
  rw [if_pos h]

theorem row_index_eq (k wn : Nat) (hk : k * wn < 2147483648) :
    wrapInt (((k + 1 : Nat) : Int) - 1) * (wn : Int) + ((0 : Nat) : Int) = ((k * wn : Nat) : Int) ∧
      0 ≤ wrapInt (((k + 1 : Nat) : Int) - 1) * (wn : Int) := by
  by_cases h0 : wn = 0
  · subst h0
    simp
  · have hk1 : k ≤ k * wn := Nat.le_mul_of_pos_right k (by omega)
    have hw : wrapInt (((k + 1 : Nat) : Int) - 1) = (k : Int) := by
      rw [wrapInt_of_range (by push_cast; omega) (by push_cast; omega)]
      push_cast
      omega
    rw [hw]
    push_cast
    refine ⟨by omega, ?_⟩
    exact Int.mul_nonneg (by omega) (by omega)

theorem decompress_scanlines_succ {lib : JpegLib} {data : Option (List Byte)} {size : Nat}
    {w : Int} {n k : Nat} {row out out' : List Byte}
    (h : decompress_scanlines lib data size w (n + 1) k row out = Outcome.ok out') :
    ∃ (scan row1 out1 : List Byte),
      lib.read_scanlines data size k = some (1, scan) ∧ deposit row scan = some row1 ∧
      decompress_row row1 w (wrapInt (((k + 1 : Nat) : Int) - 1)) w.toNat 0 out = some out1 ∧
      decompress_scanlines lib data size w n (k + 1) row1 out1 = Outcome.ok out' := by
  rw [decompress_scanlines] at h
  cases hread : lib.read_scanlines data size k with
  | none =>
    rw [hread] at h
    cases h
  | some p =>
    obtain ⟨count, scan⟩ := p
    rw [hread] at h
    simp only [] at h
    by_cases hc : count = 1
    · subst hc
      rw [if_pos rfl] at h
      cases hdep : deposit row scan with
      | none =>
        rw [hdep] at h
        cases h
      | some row1 =>
        rw [hdep] at h
        simp only [] at h
        cases hrow : decompress_row row1 w (wrapInt (((k + 1 : Nat) : Int) - 1)) w.toNat 0 out with
        | none =>
          rw [hrow] at h
          cases h
        | some out1 =>
          rw [hrow] at h
          exact ⟨scan, row1, out1, rfl, hdep, hrow, h⟩
    · rw [if_neg hc] at h
      cases h

theorem decompress_scanlines_step {lib : JpegLib} {data : Option (List Byte)} {size : Nat}
    {w : Int} {k : Nat} {row out scan row1 out1 : List Byte} (n : Nat)
    (hread : lib.read_scanlines data size k = some (1, scan))
    (hdep : deposit row scan = some row1)
    (hrow : decompress_row row1 w (wrapInt (((k + 1 : Nat) : Int) - 1)) w.toNat 0 out
      = some out1) :
    decompress_scanlines lib data size w (n + 1) k row out =
      decompress_scanlines lib data size w n (k + 1) row1 out1 := by
  rw [decompress_scanlines, hread]
  simp only [if_true, hdep, hrow]

/-- The scanline loop of `decompress_jpeg`, when it returns and the image fits
the `int` offsets: every scanline was read, and the pixels of row `k + j` hold
the samples of the row buffer as the library left it at that read, with alpha
255; nothing else of the buffer changed. -/
theorem decompress_scanlines_spec (lib : JpegLib) (data : Option (List Byte)) (size : Nat)
    (wn : Nat) :
    ∀ (n k : Nat) (row out out' : List Byte),
      decompress_scanlines lib data size (wn : Int) n k row out = Outcome.ok out' →
      row.length = 3 * wn → 4 * ((k + n) * wn) ≤ out.length →
      4 * ((k + n) * wn) ≤ 2147483648 →
      out'.length = out.length ∧
      (∀ j, j < n → ∃ (scan row1 : List Byte),
        lib.read_scanlines data size (k + j) = some (1, scan) ∧
        row1.length = 3 * wn ∧ (∀ i, i < scan.length → row1[i]? = scan[i]?) ∧
        (∀ x, x < wn → ∀ c, c < 3 →
          out'[4 * ((k + j) * wn + x) + c]? = row1[3 * x + c]?) ∧
        (∀ x, x < wn → out'[4 * ((k + j) * wn + x) + 3]? = some 255)) ∧
      (∀ i, i < 4 * (k * wn) ∨ 4 * ((k + n) * wn) ≤ i → out'[i]? = out[i]?) := by
  intro n
  induction n with
  | zero =>
    intro k row out out' h _ _ _
    rw [decompress_scanlines] at h
    cases h
    exact ⟨rfl, fun j hj => absurd hj (by omega), fun _ _ => rfl⟩
  | succ n ih =>
    intro k row out out' h hrow hout hmax
    have e1 : (k + (n + 1)) * wn = k * wn + wn + n * wn := by
      rw [Nat.add_mul, Nat.add_mul, Nat.one_mul]
      omega
    have e2 : (k + 1 + n) * wn = k * wn + wn + n * wn := by
      rw [Nat.add_mul, Nat.add_mul, Nat.one_mul]
    have e4 : (k + 1) * wn = k * wn + wn := by
      rw [Nat.add_mul, Nat.one_mul]
    obtain ⟨scan, row1, out1, hread, hdep, hrun1, hnext⟩ := decompress_scanlines_succ h
    obtain ⟨_, hlen1, hscan⟩ := deposit_some hdep
    obtain ⟨hP, hm⟩ := row_index_eq k wn (by omega)
    obtain ⟨out1', hrun1', hlenout1, hrgb1, halpha1, hrest1⟩ :=
      decompress_row_spec row1 (wn : Int) _ hm wn 0 (k * wn) out hP
        (by rw [hlen1, hrow]; omega) (by omega) (by omega)
    rw [Int.toNat_ofNat] at hrun1
    have hsame : out1' = out1 := by
      have := hrun1'.symm.trans hrun1
      exact Option.some.inj this
    subst hsame
    obtain ⟨hlen', hrows', hrest'⟩ := ih (k + 1) row1 out1' out' hnext (by rw [hlen1, hrow])
      (by rw [hlenout1, e2]; omega) (by rw [e2]; omega)
    refine ⟨by rw [hlen', hlenout1], ?_, ?_⟩
    · intro j hj
      cases j with
      | zero =>
        refine ⟨scan, row1, hread, by rw [hlen1, hrow], hscan, ?_, ?_⟩
        · intro x hx c hc
          have e5 : 4 * ((k + 0) * wn + x) + c = 4 * (k * wn + x) + c := by simp
          have e6 : 3 * (0 + x) + c = 3 * x + c := by omega
          rw [e5, hrest' _ (Or.inl (by rw [e4]; omega)), hrgb1 x hx c hc, e6]
        · intro x hx
          have e5 : 4 * ((k + 0) * wn + x) + 3 = 4 * (k * wn + x) + 3 := by simp
          rw [e5, hrest' _ (Or.inl (by rw [e4]; omega)), halpha1 x hx]
      | succ j =>
        obtain ⟨scan2, row2, hr2, hl2, hscan2, hrgb2, halpha2⟩ := hrows' j (by omega)
        have e3 : k + (j + 1) = k + 1 + j := by omega
        rw [e3]
        exact ⟨scan2, row2, hr2, hl2, hscan2, hrgb2, halpha2⟩
    · intro i hi
      rw [hrest' i (by rw [e2, e4]; omega), hrest1 i (by omega)]

theorem decompress_row_passes (row : List Byte) (w ri : Int) :
    ∀ (n : Nat) (x0 : Int) (out out' : List Byte),
      decompress_row row w ri n x0 out = some out' →
      ∀ j : Nat, j < n → ∃ (o1 o2 : List Byte),
        decompress_pixel row w ri o1 (x0 + j) = some o2 := by
  intro n
  induction n with
  | zero => intro _ _ _ _ j hj; omega
  | succ n ih =>
    intro x0 out out' h j hj
    rw [decompress_row] at h
    cases hpix : decompress_pixel row w ri out x0 with
    | none =>
      rw [hpix] at h
      cases h
    | some out1 =>
      rw [hpix] at h
      cases j with
      | zero =>
        refine ⟨out, out1, ?_⟩
        have e : x0 + ((0 : Nat) : Int) = x0 := by simp
        rw [e]
        exact hpix
      | succ j =>
        obtain ⟨o1, o2, hp⟩ := ih (x0 + 1) out1 out' h j (by omega)
        refine ⟨o1, o2, ?_⟩
        have e : x0 + ((j + 1 : Nat) : Int) = x0 + 1 + (j : Int) := by push_cast; omega
        rw [e]
        exact hp

theorem decompress_scanlines_passes (lib : JpegLib) (data : Option (List Byte)) (size : Nat)
    (w : Int) :
    ∀ (n k : Nat) (row out out' : List Byte),
      decompress_scanlines lib data size w n k row out = Outcome.ok out' →
      ∀ j : Nat, j < n → ∃ (row1 o1 o2 : List Byte),
        decompress_row row1 w (wrapInt (((k + j + 1 : Nat) : Int) - 1)) w.toNat 0 o1 = some o2 := by
  intro n
  induction n with
  | zero => intro _ _ _ _ _ j hj; omega
  | succ n ih =>
    intro k row out out' h j hj
    obtain ⟨scan, row1, out1, _, _, hrow, hnext⟩ := decompress_scanlines_succ h
    cases j with
    | zero => exact ⟨row1, out, out1, hrow⟩
    | succ j =>
      obtain ⟨r1, o1, o2, hp⟩ := ih (k + 1) row1 out1 out' hnext j (by omega)
      refine ⟨r1, o1, o2, ?_⟩
      have e : k + (j + 1) + 1 = k + 1 + j + 1 := by omega
      rw [e]
      exact hp

theorem overflow_pixel (wn n : Nat) (hbig : ¬ 4 * (n * wn) ≤ 2147483648) :
    ∃ J X : Nat, J < n ∧ X < wn ∧ J ≤ 536870912 ∧
      (J : Int) * (wn : Int) + (0 + (X : Int)) = 536870912 := by
  have hw0 : 0 < wn := by
    rcases Nat.eq_zero_or_pos wn with h0 | h0
    · subst h0
      simp at hbig
    · exact h0
  have hdiv : wn * (536870912 / wn) + 536870912 % wn = 536870912 := Nat.div_add_mod _ _
  have hmod : 536870912 % wn < wn := Nat.mod_lt _ hw0
  have hjle : 536870912 / wn ≤ 536870912 := Nat.div_le_self _ _
  generalize 536870912 / wn = J at hdiv hjle
  generalize 536870912 % wn = X at hdiv hmod
  refine ⟨J, X, ?_, hmod, hjle, ?_⟩
  · by_contra hge
    have h1 : n * wn ≤ J * wn := Nat.mul_le_mul_right _ (by omega)
    rw [Nat.mul_comm J wn] at h1
    omega
  · have h2 : ((wn * J + X : Nat) : Int) = 536870912 := by exact_mod_cast hdiv
    push_cast at h2
    have hc : (J : Int) * (wn : Int) = (wn : Int) * (J : Int) := Int.mul_comm _ _
    omega

/-- The scanline loop of `decompress_jpeg` does not return for an image whose
offsets leave the `int` range: the pass for the pixel at offset 2^31 writes
before the buffer. -/
theorem decompress_scanlines_fits (lib : JpegLib) (data : Option (List Byte)) (size : Nat)
    (wn n : Nat) (row out out' : List Byte)
    (h : decompress_scanlines lib data size (wn : Int) n 0 row out = Outcome.ok out') :
    4 * (n * wn) ≤ 2147483648 := by
  by_contra hbig
  obtain ⟨J, X, hj, hmod, hjle, hsum⟩ := overflow_pixel wn n hbig
  obtain ⟨row1, o1, o2, hrow⟩ :=
    decompress_scanlines_passes lib data size (wn : Int) n 0 row out out' h J hj
  rw [Int.toNat_ofNat] at hrow
  obtain ⟨p1, p2, hpix⟩ := decompress_row_passes row1 (wn : Int) _ wn 0 o1 o2 hrow X hmod
  obtain ⟨o, c, r, g, b, ho, _⟩ := decompress_pixel_some hpix
  have hri : wrapInt (((0 + J + 1 : Nat) : Int) - 1) = (J : Int) := by
    rw [wrapInt_of_range (by push_cast; omega) (by push_cast; omega)]
    push_cast
    omega
  rw [hri, pixel_offset_overflow hsum] at ho
  omega

/-- The scanline loop of `decompress_jpeg` returns when the library yields
every scanline, no scanline is longer than the row buffer and the image fits
the `int` offsets. -/
theorem decompress_scanlines_returns (lib : JpegLib) (data : Option (List Byte)) (size : Nat)
    (wn : Nat) :
    ∀ (n k : Nat) (row out : List Byte),
      (∀ j, j < n → ∃ scan : List Byte,
        lib.read_scanlines data size (k + j) = some (1, scan) ∧ scan.length ≤ 3 * wn) →
      row.length = 3 * wn → 4 * ((k + n) * wn) ≤ out.length →
      4 * ((k + n) * wn) ≤ 2147483648 →
      ∃ out', decompress_scanlines lib data size (wn : Int) n k row out = Outcome.ok out' ∧
        out'.length = out.length := by
  intro n
  induction n with
  | zero =>
    intro k row out _ _ _ _
    exact ⟨out, by rw [decompress_scanlines], rfl⟩
  | succ n ih =>
    intro k row out hlib hrow hout hmax
    have e1 : (k + (n + 1)) * wn = k * wn + wn + n * wn := by
      rw [Nat.add_mul, Nat.add_mul, Nat.one_mul]
      omega
    have e2 : (k + 1 + n) * wn = k * wn + wn + n * wn := by
      rw [Nat.add_mul, Nat.add_mul, Nat.one_mul]
    obtain ⟨scan, hread, hscanlen⟩ := hlib 0 (by omega)
    rw [Nat.add_zero] at hread
    have hdep := @deposit_of_le row scan (by omega)
    have hlen1 : (scan ++ row.drop scan.length).length = 3 * wn := by
      rw [List.length_append, List.length_drop]
      omega
    obtain ⟨hP, hm⟩ := row_index_eq k wn (by omega)
    obtain ⟨out1, hrun1, hlenout1, _, _, _⟩ :=
      decompress_row_spec (scan ++ row.drop scan.length) (wn : Int) _ hm wn 0 (k * wn) out hP
        (by rw [hlen1]; omega) (by omega) (by omega)
    obtain ⟨out', hrun, hlen'⟩ := ih (k + 1) (scan ++ row.drop scan.length) out1
      (fun j hj => by
        have := hlib (j + 1) (by omega)
        have e3 : k + (j + 1) = k + 1 + j := by omega
        rw [e3] at this
        exact this)
      hlen1 (by rw [hlenout1, e2]; omega) (by rw [e2]; omega)
    refine ⟨out', ?_, by rw [hlen', hlenout1]⟩
    rw [decompress_scanlines_step n hread hdep (by rw [Int.toNat_ofNat]; exact hrun1)]
    exact hrun

theorem toUnsigned_natCast (n : Nat) (h : n ≤ 2147483647) : toUnsigned (n : Int) = n := by
  unfold toUnsigned
  omega

theorem toSize_natCast (n : Nat) (h : n ≤ 2147483647) : toSize (n : Int) = n := by
  unfold toSize
  omega

theorem decompress_jpeg_ok {lib : JpegLib} {data : Option (List Byte)} {size w h : Nat}
    {out : List Byte} (hw : w ≤ 2147483647) (hh : h ≤ 2147483647)
    (hdec : decompress_jpeg lib data size (w : Int) (h : Int) = Outcome.ok out) :
    lib.start_decompress data size = some (w, h) ∧
      decompress_scanlines lib data size (w : Int) h 0 (List.replicate (3 * w) 0)
        (List.replicate (4 * (h * w)) 0) = Outcome.ok out := by
  have hprod : w * h ≤ 2147483647 * 2147483647 := Nat.mul_le_mul hw hh
  have hsz : (w * h * 4) % 18446744073709551616 = 4 * (h * w) := by
    rw [Nat.mul_comm h w]
    omega
  have hrs : (w * 3) % 18446744073709551616 = 3 * w := by omega
  unfold decompress_jpeg at hdec
  split at hdec
  · cases hdec
  · rename_i ow oh hstart
    rw [toUnsigned_natCast w hw, toUnsigned_natCast h hh, toSize_natCast w hw,
      toSize_natCast h hh, hsz, hrs] at hdec
    split at hdec
    · cases hdec
    · rename_i hdim
      have hdim2 : ow = w ∧ oh = h := by
        constructor
        · by_contra hc
          exact hdim (Or.inl hc)
        · by_contra hc
          exact hdim (Or.inr hc)
      simp only [] at hdec
      by_cases hm1 : mallocOk (4 * (h * w)) = false
      · rw [if_pos hm1] at hdec
        cases hdec
      · rw [if_neg hm1] at hdec
        by_cases hm2 : mallocOk (3 * w) = false
        · rw [if_pos hm2] at hdec
          cases hdec
        · rw [if_neg hm2, hdim2.2] at hdec
          rw [hstart, hdim2.1, hdim2.2]
          exact ⟨rfl, hdec⟩

/-! ## The claims on decoding -/

/-- C8. A frame whose stored dimensions are `(w0, h0)`, both within the range
of `int` as every dimension of a JPEG frame is (at most 65535), decoded with
expected `int` dimensions `(w, h)` other than `(w0, h0)`: `decompress_jpeg`
returns `NULL`, not a buffer. -/
theorem decode_rejects_other_dimensions (lib : JpegLib) (data : Option (List Byte))
    (size w0 h0 : Nat) (w h : Int)
    (hstored : lib.start_decompress data size = some (w0, h0))
    (hw0 : w0 ≤ 2147483647) (hh0 : h0 ≤ 2147483647)
    (hw : -2147483648 ≤ w ∧ w ≤ 2147483647) (hh : -2147483648 ≤ h ∧ h ≤ 2147483647)
    (hne : (w, h) ≠ ((w0 : Int), (h0 : Int))) :
    decompress_jpeg lib data size w h = Outcome.null := by
  have hdim : w0 ≠ toUnsigned w ∨ h0 ≠ toUnsigned h := by
    by_contra hc
    have h1 : w0 = toUnsigned w := by
      by_contra h1
      exact hc (Or.inl h1)
    have h2 : h0 = toUnsigned h := by
      by_contra h2
      exact hc (Or.inr h2)
    unfold toUnsigned at h1 h2
    apply hne
    have e1 : w = (w0 : Int) := by omega
    have e2 : h = (h0 : Int) := by omega
    rw [e1, e2]
  unfold decompress_jpeg
  simp only [hstored]
  rw [if_pos hdim]

/-- Witness of C8: a frame of 2×2 pixels decoded as 3×2. -/
theorem decode_rejects_other_dimensions_witness :
    decompress_jpeg rawLib (some (2 :: 2 :: List.replicate 12 0)) 14 3 2 = Outcome.null :=
  decode_rejects_other_dimensions rawLib (some (2 :: 2 :: List.replicate 12 0)) 14 2 2 3 2 rfl
    (by decide) (by decide) (by decide) (by decide) (by decide)

/-- C10. When `decompress_jpeg` returns a buffer for expected dimensions
`(w, h)`, the buffer has `4 * w * h` bytes and, for every row `r < h` whose
scanline the library delivered with three samples per pixel and every column
`x < w`, bytes `4 * (r * w + x)` to `4 * (r * w + x) + 2` are samples `3 * x`
to `3 * x + 2` of that scanline and byte `4 * (r * w + x) + 3` is 255. -/
theorem decode_layout_rgba (lib : JpegLib) (data : Option (List Byte)) (size w h : Nat)
    (out : List Byte) (hw : w ≤ 2147483647) (hh : h ≤ 2147483647)
    (hdec : decompress_jpeg lib data size (w : Int) (h : Int) = Outcome.ok out)
    (r x cnt : Nat) (scan : List Byte) (hr : r < h) (hx : x < w)
    (hline : lib.read_scanlines data size r = some (cnt, scan))
    (hlen : scan.length = 3 * w) :
    out.length = 4 * (w * h) ∧
    out[4 * (r * w + x)]? = scan[3 * x]? ∧
    out[4 * (r * w + x) + 1]? = scan[3 * x + 1]? ∧
    out[4 * (r * w + x) + 2]? = scan[3 * x + 2]? ∧
    out[4 * (r * w + x) + 3]? = some 255 := by
  obtain ⟨_, hrun⟩ := decompress_jpeg_ok hw hh hdec
  have hfit := decompress_scanlines_fits lib data size w h _ _ _ hrun
  obtain ⟨hlenout, hrows, _⟩ := decompress_scanlines_spec lib data size w h 0 _ _ _ hrun
    (by simp) (by simp) (by simpa using hfit)
  obtain ⟨scan1, row1, hread, _, hsame, hrgb, halpha⟩ := hrows r hr
  simp only [Nat.zero_add] at hread hrgb halpha
  rw [hline] at hread
  have hl : scan = scan1 := by
    cases hread
    rfl
  subst hl
  have h0 := hrgb x hx 0 (by omega)
  have h1 := hrgb x hx 1 (by omega)
  have h2 := hrgb x hx 2 (by omega)
  simp only [Nat.add_zero] at h0
  refine ⟨?_, ?_, ?_, ?_, halpha x hx⟩
  · rw [hlenout, List.length_replicate, Nat.mul_comm h w]
  · rw [h0]
    exact hsame _ (by omega)
  · rw [h1]
    exact hsame _ (by omega)
  · rw [h2]
    exact hsame _ (by omega)

/-- Witness of C10: pixel `(1, 0)` of a frame of 2×2 pixels. -/
theorem decode_layout_rgba_witness :
    decompress_jpeg rawLib (some [2, 2, 1, 2, 3, 4, 5, 6, 7, 8, 9, 10, 11, 12]) 14 2 2 =
      Outcome.ok [1, 2, 3, 255, 4, 5, 6, 255, 7, 8, 9, 255, 10, 11, 12, 255] ∧
    ([1, 2, 3, 255, 4, 5, 6, 255, 7, 8, 9, 255, 10, 11, 12, 255] : List Byte)[8]? =
      ([7, 8, 9, 10, 11, 12] : List Byte)[0]? ∧
    ([1, 2, 3, 255, 4, 5, 6, 255, 7, 8, 9, 255, 10, 11, 12, 255] : List Byte)[11]? = some 255 :=
  have h := decode_layout_rgba rawLib (some [2, 2, 1, 2, 3, 4, 5, 6, 7, 8, 9, 10, 11, 12]) 14
    2 2 [1, 2, 3, 255, 4, 5, 6, 255, 7, 8, 9, 255, 10, 11, 12, 255] (by decide) (by decide)
    (by decide) 1 0 1 [7, 8, 9, 10, 11, 12] (by decide) (by decide) (by decide) (by decide)
  ⟨by decide, h.2.1, h.2.2.2.2⟩

/-! ## Facts about `compress_jpeg` -/

/-- A pass of the pixel loop of `compress_jpeg` whose offsets lie inside the
buffers returns, with the three samples copied. -/
theorem compress_pixel_of_bounds {rgba row : List Byte} {w y x : Int} {o c : Nat}
    {r g b : Byte}
    (ho : (o : Int) = wrapInt (wrapInt (wrapInt (y * w) + x) * 4))
    (hc : (c : Int) = wrapInt (x * 3))
    (ho3 : (o : Int) + 2 ≤ 2147483647) (hc3 : (c : Int) + 2 ≤ 2147483647)
    (hcb : c + 2 < row.length)
    (hr : rgba[o]? = some r) (hg : rgba[o + 1]? = some g) (hb : rgba[o + 2]? = some b) :
    compress_pixel rgba w y row x = some (((row.set c r).set (c + 1) g).set (c + 2) b) := by
  have e0 : wrapInt (wrapInt (wrapInt (wrapInt (y * w) + x) * 4) + 0) = ((o : Nat) : Int) := by
    rw [← ho]
    exact wrapInt_of_range (by omega) (by omega)
  have e1 : wrapInt (wrapInt (wrapInt (wrapInt (y * w) + x) * 4) + 1) =
      ((o + 1 : Nat) : Int) := by
    rw [← ho, wrapInt_of_range (by omega) (by omega)]
    push_cast
    rfl
  have e2 : wrapInt (wrapInt (wrapInt (wrapInt (y * w) + x) * 4) + 2) =
      ((o + 2 : Nat) : Int) := by
    rw [← ho, wrapInt_of_range (by omega) (by omega)]
    push_cast
    rfl
  have d0 : wrapInt (wrapInt (x * 3) + 0) = ((c : Nat) : Int) := by
    rw [← hc]
    exact wrapInt_of_range (by omega) (by omega)
  have d1 : wrapInt (wrapInt (x * 3) + 1) = ((c + 1 : Nat) : Int) := by
    rw [← hc, wrapInt_of_range (by omega) (by omega)]
    push_cast
    rfl
  have d2 : wrapInt (wrapInt (x * 3) + 2) = ((c + 2 : Nat) : Int) := by
    rw [← hc, wrapInt_of_range (by omega) (by omega)]
    push_cast
    rfl
  unfold compress_pixel
  simp only [e0, e1, e2, d0, d1, d2, readAt_of_getElem? hr, readAt_of_getElem? hg,
    readAt_of_getElem? hb]
  rw [writeAt_of_lt r (by omega)]
  simp only []
  rw [writeAt_of_lt g (by simp; omega)]
  simp only []
  rw [writeAt_of_lt b (by simp; omega)]

/-- A pass of the pixel loop of `compress_jpeg` that returns has read at an
offset that is not negative. -/
theorem compress_pixel_offset {rgba row row' : List Byte} {w y x : Int}
    (h : compress_pixel rgba w y row x = some row') :
    0 ≤ wrapInt (wrapInt (wrapInt (y * w) + x) * 4) := by
  unfold compress_pixel at h
  simp only [] at h
  cases h1 : readAt rgba (wrapInt (wrapInt (wrapInt (wrapInt (y * w) + x) * 4) + 0)) with
  | none => rw [h1] at h; cases h
  | some r =>
    obtain ⟨a1, _⟩ := readAt_some h1
    exact (wrapInt_offset _ 0 (by omega) (by omega) a1).1

theorem compress_row_step {rgba row row1 : List Byte} {w y x : Int} (n : Nat)
    (h : compress_pixel rgba w y row x = some row1) :
    compress_row rgba w y (n + 1) x row = compress_row rgba w y n (x + 1) row1 := by
  have hu : compress_row rgba w y (n + 1) x row =
      match compress_pixel rgba w y row x with
      | none => none
      | some row2 => compress_row rgba w y n (x + 1) row2 := rfl
  rw [hu, h]

theorem compress_row_succ {rgba row row' : List Byte} {w y x : Int} {n : Nat}
    (h : compress_row rgba w y (n + 1) x row = some row') :
    ∃ row1 : List Byte, compress_pixel rgba w y row x = some row1 ∧
      compress_row rgba w y n (x + 1) row1 = some row' := by
  have hu : compress_row rgba w y (n + 1) x row =
      match compress_pixel rgba w y row x with
      | none => none
      | some row2 => compress_row rgba w y n (x + 1) row2 := rfl
  rw [hu] at h
  cases hpix : compress_pixel rgba w y row x with
  | none =>
    rw [hpix] at h
    cases h
  | some row1 =>
    rw [hpix] at h
    exact ⟨row1, rfl, h⟩

theorem compress_scanlines_zero (lib : JpegLib) (rgba : List Byte) (w : Int) (iw ih : Nat)
    (q : Int) (done : List (List Byte)) (row data : List Byte)
    (h : lib.finish_compress iw ih q done = some data) :
    compress_scanlines lib rgba w iw ih q 0 done row = Outcome.ok data := by
  have hu : compress_scanlines lib rgba w iw ih q 0 done row =
      match lib.finish_compress iw ih q done with
      | none => Outcome.null
      | some out => Outcome.ok out := rfl
  rw [hu, h]

theorem compress_scanlines_unfold (lib : JpegLib) (rgba : List Byte) (w : Int) (iw ih : Nat)
    (q : Int) (n : Nat) (done : List (List Byte)) (row : List Byte) :
    compress_scanlines lib rgba w iw ih q (n + 1) done row =
      match compress_row rgba w (wrapInt (done.length : Int)) w.toNat 0 row with
      | none => Outcome.fault
      | some row1 =>
        match lib.write_scanlines iw ih q done row1 with
        | none => Outcome.null
        | some count =>
          if count = 1 then compress_scanlines lib rgba w iw ih q n (done ++ [row1]) row1
          else Outcome.null := rfl

theorem compress_scanlines_step {lib : JpegLib} {rgba : List Byte} {w : Int} {iw ih : Nat}
    {q : Int} {done : List (List Byte)} {row row1 : List Byte} (n : Nat)
    (hrow : compress_row rgba w (wrapInt (done.length : Int)) w.toNat 0 row = some row1)
    (hwrite : lib.write_scanlines iw ih q done row1 = some 1) :
    compress_scanlines lib rgba w iw ih q (n + 1) done row =
      compress_scanlines lib rgba w iw ih q n (done ++ [row1]) row1 := by
  rw [compress_scanlines_unfold, hrow]
  simp only [hwrite, if_true]

theorem compress_scanlines_succ {lib : JpegLib} {rgba : List Byte} {w : Int} {iw ih : Nat}
    {q : Int} {n : Nat} {done : List (List Byte)} {row data : List Byte}
    (h : compress_scanlines lib rgba w iw ih q (n + 1) done row = Outcome.ok data) :
    ∃ row1 : List Byte,
      compress_row rgba w (wrapInt (done.length : Int)) w.toNat 0 row = some row1 ∧
      lib.write_scanlines iw ih q done row1 = some 1 ∧
      compress_scanlines lib rgba w iw ih q n (done ++ [row1]) row1 = Outcome.ok data := by
  rw [compress_scanlines_unfold] at h
  cases hrow : compress_row rgba w (wrapInt (done.length : Int)) w.toNat 0 row with
  | none =>
    rw [hrow] at h
    cases h
  | some row1 =>
    rw [hrow] at h
    simp only [] at h
    cases hwrite : lib.write_scanlines iw ih q done row1 with
    | none =>
      rw [hwrite] at h
      cases h
    | some count =>
      rw [hwrite] at h
      simp only [] at h
      by_cases hc : count = 1
      · subst hc
        rw [if_pos rfl] at h
        exact ⟨row1, rfl, hwrite, h⟩
      · rw [if_neg hc] at h
        cases h

theorem three_set_get (row : List Byte) (c : Nat) (r g b : Byte) (h : c + 2 < row.length) :
    (((row.set c r).set (c + 1) g).set (c + 2) b).length = row.length ∧
    (((row.set c r).set (c + 1) g).set (c + 2) b)[c]? = some r ∧
    (((row.set c r).set (c + 1) g).set (c + 2) b)[c + 1]? = some g ∧
    (((row.set c r).set (c + 1) g).set (c + 2) b)[c + 2]? = some b ∧
    ∀ i, i < c ∨ c + 3 ≤ i →
      (((row.set c r).set (c + 1) g).set (c + 2) b)[i]? = row[i]? := by
  refine ⟨by simp, ?_, ?_, ?_, ?_⟩
  · rw [List.getElem?_set_ne (by omega), List.getElem?_set_ne (by omega),
      List.getElem?_set_self (by omega)]
  · rw [List.getElem?_set_ne (by omega), List.getElem?_set_self (by simp; omega)]
  · rw [List.getElem?_set_self (by simp; omega)]
  · intro i hi
    rw [List.getElem?_set_ne (by omega), List.getElem?_set_ne (by omega),
      List.getElem?_set_ne (by omega)]

/-- The pixel loop of `compress_jpeg` for scanline `y`, when the image fits
the `int` offsets: it returns, the row keeps its length, sample `3 * x + k` of
the row is byte `4 * (y * w + x) + k` of the input for `k < 3`, and the rest
of the row is unchanged. -/
theorem compress_row_spec (rgba : List Byte) (w y : Int) (hm : 0 ≤ y * w) :
    ∀ (n x0 P : Nat) (row : List Byte),
      y * w + (x0 : Int) = (P : Int) →
      3 * (x0 + n) ≤ row.length →
      4 * (P + n) ≤ rgba.length →
      4 * (P + n) ≤ 2147483648 →
      ∃ row', compress_row rgba w y n (x0 : Int) row = some row' ∧
        row'.length = row.length ∧
        (∀ j, j < n → ∀ k, k < 3 → row'[3 * (x0 + j) + k]? = rgba[4 * (P + j) + k]?) ∧
        (∀ i, i < 3 * x0 ∨ 3 * (x0 + n) ≤ i → row'[i]? = row[i]?) := by
  intro n
  induction n with
  | zero =>
    intro x0 P row _ _ _ _
    exact ⟨row, rfl, rfl, fun j hj => absurd hj (by omega), fun _ _ => rfl⟩
  | succ n ih =>
    intro x0 P row hP hrow hin hmax
    have ho : ((4 * P : Nat) : Int) = wrapInt (wrapInt (wrapInt (y * w) + (x0 : Int)) * 4) := by
      rw [pixel_offset_eq hm (by omega) (by omega), hP]
      push_cast
      rfl
    have hc : ((3 * x0 : Nat) : Int) = wrapInt ((x0 : Int) * 3) := by
      rw [wrapInt_of_range (by omega) (by omega)]
      push_cast
      omega
    have hb0 : 4 * P < rgba.length := by omega
    have hb1 : 4 * P + 1 < rgba.length := by omega
    have hb2 : 4 * P + 2 < rgba.length := by omega
    have hr : rgba[4 * P]? = some rgba[4 * P] := List.getElem?_eq_getElem _
    have hg : rgba[4 * P + 1]? = some rgba[4 * P + 1] := List.getElem?_eq_getElem _
    have hb : rgba[4 * P + 2]? = some rgba[4 * P + 2] := List.getElem?_eq_getElem _
    have hpix := @compress_pixel_of_bounds rgba row w y x0 (4 * P) (3 * x0) _ _ _ ho hc
      (by omega) (by omega) (by omega) hr hg hb
    obtain ⟨hlen1, g0, g1, g2, gout⟩ := three_set_get row (3 * x0) rgba[4 * P]
      rgba[4 * P + 1] rgba[4 * P + 2] (by omega)
    obtain ⟨row', hrun, hlen, hrgb, hrest⟩ := ih (x0 + 1) (P + 1) _
      (by push_cast; omega) (by rw [hlen1]; omega) (by omega) (by omega)
    refine ⟨row', ?_, by rw [hlen, hlen1], ?_, ?_⟩
    · rw [compress_row_step n hpix]
      have hcast : ((x0 : Int) + 1) = ((x0 + 1 : Nat) : Int) := by push_cast; rfl
      rw [hcast]
      exact hrun
    · intro j hj k hk
      cases j with
      | zero =>
        have hk3 : k = 0 ∨ k = 1 ∨ k = 2 := by omega
        rcases hk3 with rfl | rfl | rfl
        · have e1 : 4 * (P + 0) + 0 = 4 * P := by omega
          have e2 : 3 * (x0 + 0) + 0 = 3 * x0 := by omega
          rw [e1, e2, hrest (3 * x0) (Or.inl (by omega)), g0, hr]
        · have e1 : 4 * (P + 0) + 1 = 4 * P + 1 := by omega
          have e2 : 3 * (x0 + 0) + 1 = 3 * x0 + 1 := by omega
          rw [e1, e2, hrest (3 * x0 + 1) (Or.inl (by omega)), g1, hg]
        · have e1 : 4 * (P + 0) + 2 = 4 * P + 2 := by omega
          have e2 : 3 * (x0 + 0) + 2 = 3 * x0 + 2 := by omega
          rw [e1, e2, hrest (3 * x0 + 2) (Or.inl (by omega)), g2, hb]
      | succ j =>
        have := hrgb j (by omega) k hk
        have e1 : 4 * (P + (j + 1)) + k = 4 * (P + 1 + j) + k := by omega
        have e2 : 3 * (x0 + (j + 1)) + k = 3 * (x0 + 1 + j) + k := by omega
        rw [e1, e2]
        exact this
    · intro i hi
      rw [hrest i (by omega), gout i (by omega)]

theorem scan_index_eq (k wn : Nat) (hk : k * wn < 2147483648) :
    wrapInt (k : Int) * (wn : Int) + ((0 : Nat) : Int) = ((k * wn : Nat) : Int) ∧
      0 ≤ wrapInt (k : Int) * (wn : Int) := by
  by_cases h0 : wn = 0
  · subst h0
    simp
  · have hk1 : k ≤ k * wn := Nat.le_mul_of_pos_right k (by omega)
    rw [wrapInt_of_range (by omega) (by omega)]
    push_cast
    refine ⟨by omega, ?_⟩
    exact Int.mul_nonneg (by omega) (by omega)

/-- The scanline loop of `compress_jpeg` with a faithful library, when the
image fits the `int` offsets and the input holds all its pixels: the loop
returns the data that `jpeg_finish_compress` leaves for the scanlines handed
over, one per remaining row in increasing order, each of `3 * w` bytes, byte
`3 * x + k` of the scanline of row `y` being byte `4 * (y * w + x) + k` of the
input. -/
theorem compress_scanlines_returns (lib : JpegLib) (hlib : lib.Faithful) (rgba : List Byte)
    (wn ih : Nat) (q : Int) (hacc : lib.start_compress wn ih q = true)
    (hin : 4 * (ih * wn) ≤ rgba.length) (hmax : 4 * (ih * wn) ≤ 2147483648) :
    ∀ (n : Nat) (done : List (List Byte)) (row : List Byte),
      done.length + n = ih → (∀ r ∈ done, r.length = 3 * wn) → row.length = 3 * wn →
      ∃ (data : List Byte) (tail : List (List Byte)),
        compress_scanlines lib rgba (wn : Int) wn ih q n done row = Outcome.ok data ∧
        lib.finish_compress wn ih q (done ++ tail) = some data ∧ tail.length = n ∧
        ∀ (j : Nat) (scan : List Byte), tail[j]? = some scan → scan.length = 3 * wn ∧
          ∀ x, x < wn → ∀ k, k < 3 →
            scan[3 * x + k]? = rgba[4 * ((done.length + j) * wn + x) + k]? := by
  intro n
  induction n with
  | zero =>
    intro done row hlen hdone _
    obtain ⟨data, hfin, _, _⟩ := hlib.finish_ok wn ih q done hacc (by omega) hdone
    refine ⟨data, [], compress_scanlines_zero _ _ _ _ _ _ _ _ _ hfin, ?_, rfl, ?_⟩
    · rw [List.append_nil]
      exact hfin
    · intro j scan hj
      simp at hj
  | succ n ih2 =>
    intro done row hlen hdone hrow
    have hk : done.length * wn + wn ≤ ih * wn := by
      have : (done.length + 1) * wn ≤ ih * wn := Nat.mul_le_mul_right _ (by omega)
      rw [Nat.add_mul, Nat.one_mul] at this
      exact this
    obtain ⟨hP, hm⟩ := scan_index_eq done.length wn (by omega)
    obtain ⟨row1, hrun1, hlen1, hrgb1, _⟩ :=
      compress_row_spec rgba (wn : Int) _ hm wn 0 (done.length * wn) row hP
        (by rw [hrow]; omega) (by omega) (by omega)
    have hwrite := hlib.write_ok wn ih q done row1 hacc (by omega) (by rw [hlen1, hrow])
    obtain ⟨data, tail, hrun, hfin, htl, hcontent⟩ := ih2 (done ++ [row1]) row1
      (by rw [List.length_append, List.length_singleton]; omega)
      (fun r hr => by
        rcases List.mem_append.1 hr with h | h
        · exact hdone r h
        · rw [List.mem_singleton.1 h, hlen1, hrow])
      (by rw [hlen1, hrow])
    refine ⟨data, row1 :: tail, ?_, ?_, by rw [List.length_cons, htl], ?_⟩
    · rw [compress_scanlines_step n (by rw [Int.toNat_ofNat]; exact hrun1) hwrite]
      exact hrun
    · rw [List.append_assoc] at hfin
      exact hfin
    · intro j scan hj
      cases j with
      | zero =>
        rw [List.getElem?_cons_zero] at hj
        have hs : row1 = scan := Option.some.inj hj
        subst hs
        refine ⟨by rw [hlen1, hrow], ?_⟩
        intro x hx k hk3
        have h1 := hrgb1 x hx k hk3
        have e1 : 3 * (0 + x) + k = 3 * x + k := by omega
        have e2 : 4 * ((done.length + 0) * wn + x) + k = 4 * (done.length * wn + x) + k := by
          simp
        rw [e1] at h1
        rw [e2]
        exact h1
      | succ j =>
        rw [List.getElem?_cons_succ] at hj
        obtain ⟨hl, hc⟩ := hcontent j scan hj
        refine ⟨hl, ?_⟩
        intro x hx k hk3
        have h1 := hc x hx k hk3
        rw [List.length_append, List.length_singleton] at h1
        have e : done.length + (j + 1) = done.length + 1 + j := by omega
        rw [e]
        exact h1

theorem compress_row_passes (rgba : List Byte) (w y : Int) :
    ∀ (n : Nat) (x0 : Int) (row row' : List Byte),
      compress_row rgba w y n x0 row = some row' →
      ∀ j : Nat, j < n → ∃ (r1 r2 : List Byte),
        compress_pixel rgba w y r1 (x0 + j) = some r2 := by
  intro n
  induction n with
  | zero => intro _ _ _ _ j hj; omega
  | succ n ih =>
    intro x0 row row' h j hj
    obtain ⟨row1, hpix, hnext⟩ := compress_row_succ h
    cases j with
    | zero =>
      refine ⟨row, row1, ?_⟩
      have e : x0 + ((0 : Nat) : Int) = x0 := by simp
      rw [e]
      exact hpix
    | succ j =>
      obtain ⟨r1, r2, hp⟩ := ih (x0 + 1) row1 row' hnext j (by omega)
      refine ⟨r1, r2, ?_⟩
      have e : x0 + ((j + 1 : Nat) : Int) = x0 + 1 + (j : Int) := by push_cast; omega
      rw [e]
      exact hp

theorem compress_scanlines_passes (lib : JpegLib) (rgba : List Byte) (w : Int) (iw ih : Nat)
    (q : Int) :
    ∀ (n : Nat) (done : List (List Byte)) (row : List Byte) (data : List Byte),
      compress_scanlines lib rgba w iw ih q n done row = Outcome.ok data →
      ∀ j : Nat, j < n → ∃ (r1 r2 : List Byte),
        compress_row rgba w (wrapInt ((done.length + j : Nat) : Int)) w.toNat 0 r1 = some r2 := by
  intro n
  induction n with
  | zero => intro _ _ _ _ j hj; omega
  | succ n ih2 =>
    intro done row data h j hj
    obtain ⟨row1, hrow, _, hnext⟩ := compress_scanlines_succ h
    cases j with
    | zero => exact ⟨row, row1, hrow⟩
    | succ j =>
      obtain ⟨r1, r2, hp⟩ := ih2 (done ++ [row1]) row1 data hnext j (by omega)
      refine ⟨r1, r2, ?_⟩
      rw [List.length_append, List.length_singleton] at hp
      have e : done.length + (j + 1) = done.length + 1 + j := by omega
      rw [e]
      exact hp

/-- The scanline loop of `compress_jpeg` does not return for an image whose
offsets leave the `int` range, whatever the library does: the pass for the
pixel at offset 2^31 reads before the buffer. -/
theorem compress_scanlines_fits (lib : JpegLib) (rgba : List Byte) (wn iw ih : Nat) (q : Int)
    (n : Nat) (row data : List Byte)
    (h : compress_scanlines lib rgba (wn : Int) iw ih q n [] row = Outcome.ok data) :
    4 * (n * wn) ≤ 2147483648 := by
  by_contra hbig
  obtain ⟨J, X, hj, hmod, hjle, hsum⟩ := overflow_pixel wn n hbig
  obtain ⟨r1, r2, hrow⟩ :=
    compress_scanlines_passes lib rgba (wn : Int) iw ih q n [] row data h J hj
  rw [Int.toNat_ofNat, List.length_nil, Nat.zero_add] at hrow
  obtain ⟨p1, p2, hpix⟩ := compress_row_passes rgba (wn : Int) _ wn 0 r1 r2 hrow X hmod
  have hoff := compress_pixel_offset hpix
  rw [wrapInt_of_range (x := (J : Int)) (by omega) (by omega),
    pixel_offset_overflow hsum] at hoff
  omega

/-- With a faithful library `compress_jpeg` returns for an image that the
library accepts, that fits the `int` offsets and whose input holds all its
pixels, and the library has been handed the scanlines of the input. -/
theorem compress_jpeg_returns (lib : JpegLib) (hlib : lib.Faithful) (rgba : List Byte)
    (w h : Nat) (q : Int) (hw1 : 1 ≤ w) (hh1 : 1 ≤ h)
    (hacc : lib.start_compress w h q = true)
    (hfit : 4 * (w * h) ≤ 2147483648) (hlen : 4 * (w * h) ≤ rgba.length) :
    ∃ data rows,
      compress_jpeg lib rgba (w : Int) (h : Int) q = Outcome.ok data ∧
      lib.finish_compress w h q rows = some data ∧ rows.length = h ∧
      ∀ y scan, rows[y]? = some scan → scan.length = 3 * w ∧
        ∀ x, x < w → ∀ k, k < 3 → scan[3 * x + k]? = rgba[4 * (y * w + x) + k]? := by
  have hwle : w ≤ w * h := Nat.le_mul_of_pos_right w (by omega)
  have hhle : h ≤ w * h := Nat.le_mul_of_pos_left h (by omega)
  have hcomm : h * w = w * h := Nat.mul_comm h w
  have hstride : wrapInt ((w : Int) * 3) = ((3 * w : Nat) : Int) := by
    rw [wrapInt_of_range (by omega) (by omega)]
    push_cast
    omega
  obtain ⟨data, tail, hrun, hfin, htl, hcontent⟩ :=
    compress_scanlines_returns lib hlib rgba w h q hacc (by omega) (by omega) h []
      (List.replicate (3 * w) 0) (by simp) (by simp) (by simp)
  refine ⟨data, tail, ?_, by simpa using hfin, htl, ?_⟩
  · unfold compress_jpeg
    simp only [toUnsigned_natCast w (by omega), toUnsigned_natCast h (by omega), hacc, hstride,
      toSize_natCast (3 * w) (by omega)]
    have hm : mallocOk (3 * w) = true := by
      unfold mallocOk
      simp
      omega
    simp only [hm]
    simpa using hrun
  · intro y scan hy
    have := hcontent y scan hy
    simpa using this

theorem decompress_jpeg_returns (lib : JpegLib) (data : List Byte) (w h : Nat)
    (hw1 : 1 ≤ w) (hh1 : 1 ≤ h) (hfit : 4 * (w * h) ≤ 2147483648)
    (hstart : lib.start_decompress (some data) data.length = some (w, h))
    (hscan : ∀ k, k < h → ∃ scan,
      lib.read_scanlines (some data) data.length k = some (1, scan) ∧ scan.length = 3 * w) :
    ∃ out, decompress_jpeg lib (some data) data.length (w : Int) (h : Int) = Outcome.ok out ∧
      out.length = 4 * (w * h) := by
  have hwle : w ≤ w * h := Nat.le_mul_of_pos_right w (by omega)
  have hhle : h ≤ w * h := Nat.le_mul_of_pos_left h (by omega)
  have hcomm : h * w = w * h := Nat.mul_comm h w
  obtain ⟨out, hrun, hlen⟩ := decompress_scanlines_returns lib (some data) data.length w h 0
    (List.replicate (3 * w) 0) (List.replicate (4 * (w * h)) 0)
    (fun j hj => by
      obtain ⟨scan, hl, hll⟩ := hscan j hj
      exact ⟨scan, by simpa using hl, by omega⟩)
    (by simp) (by rw [List.length_replicate, Nat.zero_add, hcomm])
    (by rw [Nat.zero_add, hcomm]; omega)
  refine ⟨out, ?_, by simpa using hlen⟩
  have hsz : (w * h * 4) % 18446744073709551616 = 4 * (w * h) := by omega
  have hrs : (w * 3) % 18446744073709551616 = 3 * w := by omega
  have hm1 : mallocOk (4 * (w * h)) = true := by
    unfold mallocOk
    simp
    omega
  have hm2 : mallocOk (3 * w) = true := by
    unfold mallocOk
    simp
    omega
  unfold decompress_jpeg
  simp only [hstart, toUnsigned_natCast w (by omega), toUnsigned_natCast h (by omega),
    toSize_natCast w (by omega), toSize_natCast h (by omega), hsz, hrs, hm1, hm2]
  simpa using hrun

theorem length_flatten_uniform (m : Nat) (rows : List (List Byte))
    (h : ∀ row ∈ rows, row.length = m) : rows.flatten.length = m * rows.length := by
  induction rows with
  | nil => simp
  | cons a t ih =>
    have ha := h a (by simp)
    have ht := ih (fun row hr => h row (by simp [hr]))
    simp only [List.flatten_cons, List.length_append, List.length_cons, ha, ht]
    rw [Nat.mul_add, Nat.mul_one]
    omega

theorem rawLib_faithful : rawLib.Faithful := by
  constructor
  · intro iw ih q h1 h2 h3 h4 _ _
    unfold JPEG_MAX_DIMENSION at h2 h4
    simp [rawLib, h1, h2, h3, h4]
  · intro iw ih q done row _ h1 h2
    simp [rawLib, h1, h2]
  · intro iw ih q rows _ h1 h2
    refine ⟨iw :: ih :: rows.flatten, by simp [rawLib, h1], by simp [rawLib], ?_⟩
    intro k hk
    refine ⟨(rows.flatten.drop (3 * iw * k)).take (3 * iw), by simp [rawLib], ?_⟩
    have hl := length_flatten_uniform (3 * iw) rows h2
    have hk1 : 3 * iw * (k + 1) ≤ 3 * iw * rows.length := Nat.mul_le_mul_left _ (by omega)
    rw [Nat.mul_add, Nat.mul_one] at hk1
    simp only [List.length_take, List.length_drop, hl]
    omega

/-- The function `compress_jpeg` does not return a frame for an image whose
offsets leave the `int` range, whatever the library does. -/
theorem compress_jpeg_fits (lib : JpegLib) (rgba : List Byte) (w h : Nat) (q : Int)
    (data : List Byte) (hh : h ≤ 2147483647)
    (hc : compress_jpeg lib rgba (w : Int) (h : Int) q = Outcome.ok data) :
    4 * (h * w) ≤ 2147483648 := by
  unfold compress_jpeg at hc
  simp only [] at hc
  rw [toUnsigned_natCast h hh] at hc
  by_cases h1 : lib.start_compress (toUnsigned (w : Int)) h q = false
  · rw [if_pos h1] at hc
    cases hc
  · rw [if_neg h1] at hc
    by_cases h2 : mallocOk (toSize (wrapInt ((w : Int) * 3))) = false
    · rw [if_pos h2] at hc
      cases hc
    · rw [if_neg h2] at hc
      exact compress_scanlines_fits lib rgba w _ _ q h _ data hc

/-! ## The claims on the round trip -/

/-- C9, as amended. With a library that is faithful, for every image of at
least one pixel, of at most `JPEG_MAX_DIMENSION` pixels a side and of
`4 * w * h` bytes that fit an `int`, every RGBA buffer of exactly that many
bytes and every quality from 1 to 100, `compress_jpeg` returns a frame, and
`decompress_jpeg` of that frame with the same `(w, h)` returns a buffer of
exactly `4 * w * h` bytes. -/
theorem round_trip_keeps_dimensions (lib : JpegLib) (hlib : lib.Faithful) (rgba : List Byte)
    (w h : Nat) (q : Int) (hw1 : 1 ≤ w) (hwmax : w ≤ JPEG_MAX_DIMENSION) (hh1 : 1 ≤ h)
    (hhmax : h ≤ JPEG_MAX_DIMENSION) (hfit : 4 * (w * h) ≤ 2147483647)
    (hlen : rgba.length = 4 * (w * h)) (hq1 : 1 ≤ q) (hq100 : q ≤ 100) :
    ∃ jpeg, compress_jpeg lib rgba (w : Int) (h : Int) q = Outcome.ok jpeg ∧
      ∃ out, decompress_jpeg lib (some jpeg) jpeg.length (w : Int) (h : Int) = Outcome.ok out ∧
        out.length = 4 * (w * h) := by
  have hacc := hlib.start_ok w h q hw1 hwmax hh1 hhmax hq1 hq100
  obtain ⟨jpeg, rows, hc, hfin, hrl, hrows⟩ :=
    compress_jpeg_returns lib hlib rgba w h q hw1 hh1 hacc (by omega) (by omega)
  obtain ⟨jpeg2, hfin2, hstart, hscan⟩ := hlib.finish_ok w h q rows hacc hrl
    (fun row hr => by
      obtain ⟨y, hy⟩ := List.getElem?_of_mem hr
      exact (hrows y row hy).1)
  have hj : jpeg2 = jpeg := Option.some.inj (hfin2.symm.trans hfin)
  subst hj
  exact ⟨jpeg2, hc, decompress_jpeg_returns lib jpeg2 w h hw1 hh1 (by omega) hstart hscan⟩

/-- Witness of C9 (amended): a red image of 2×2 pixels at quality 75 with `rawLib`. -/
theorem round_trip_keeps_dimensions_witness :
    ∃ jpeg, compress_jpeg rawLib (solid 255 0 0) ((2 : Nat) : Int) ((2 : Nat) : Int) 75 =
        Outcome.ok jpeg ∧
      ∃ out, decompress_jpeg rawLib (some jpeg) jpeg.length ((2 : Nat) : Int) ((2 : Nat) : Int) =
          Outcome.ok out ∧
        out.length = 4 * (2 * 2) :=
  round_trip_keeps_dimensions rawLib rawLib_faithful (solid 255 0 0) 2 2 75 (by decide)
    (by decide) (by decide) (by decide) (by decide) (by decide) (by decide) (by decide)

/-- C9 as stated fails. For an image of 32768 × 16385 pixels, dimensions that
libjpeg accepts, the offset `(y * w + x) * 4` of pixel `(16384, 0)` is 2^31 and
wraps to a negative `int`: with no library, no buffer and no quality does
`compress_jpeg` return a frame, so that there is nothing to decode. -/
theorem round_trip_overflow_counterexample :
    (32768 ≤ JPEG_MAX_DIMENSION ∧ 16385 ≤ JPEG_MAX_DIMENSION) ∧
    ¬ ∃ (lib : JpegLib) (rgba : List Byte) (q : Int),
      (compress_jpeg lib rgba 32768 16385 q).isOk = true := by
  refine ⟨by decide, ?_⟩
  rintro ⟨lib, rgba, q, hok⟩
  cases hc : compress_jpeg lib rgba 32768 16385 q with
  | fault => rw [hc] at hok; cases hok
  | null => rw [hc] at hok; cases hok
  | ok data =>
    have hfit := compress_jpeg_fits lib rgba 32768 16385 q data (by decide) hc
    omega


/-! ## The claim on the frame rate -/

/-- C11. When no file is to be converted and the shader file has been read, a
frame rate of at most 1 makes `main` exit with status 1, and
`wl_display_connect` is not among the actions of start-up. -/
theorem low_frame_rate_exits_before_connect (env : StartEnv) (a : Args) (path src : String)
    (hconv : a.convertfile = none) (hfile : a.fragment_shader_file = some path)
    (hread : env.read_file path = some src) (hfps : a.fps ≤ 1) :
    (main_startup env a).exit_status = some 1 ∧
      StartEvent.display_connect ∉ (main_startup env a).trace := by
  have hlen : main_cache_length a.fps a.cache_seconds = none := by
    unfold main_cache_length
    rw [if_pos hfps]
  unfold main_startup
  simp [hconv, hfile, hread, hlen]

/-- Witness of C11: `vecpaper --shader wave.frag --fps 1`. -/
theorem low_frame_rate_exits_before_connect_witness :
    (main_startup plain_env (shader_args 1)).exit_status = some 1 ∧
      StartEvent.display_connect ∉ (main_startup plain_env (shader_args 1)).trace :=
  low_frame_rate_exits_before_connect plain_env (shader_args 1) "wave.frag" "void main() {}"
    rfl rfl rfl (by decide)

/-! ## The claims on the listeners of an output -/

theorem strrchr_none (c : Char) (l : List Char) (h : c ∉ l) : strrchr c l = none := by
  induction l with
  | nil => rfl
  | cons x rest ih =>
    have hx : x ≠ c := fun e => h (by rw [e]; exact List.mem_cons_self _ _)
    have hr : c ∉ rest := fun m => h (List.mem_cons_of_mem _ m)
    simp [strrchr, ih hr, hx]

theorem strrchr_last (c : Char) (pre post : List Char) (h : c ∉ post) :
    strrchr c (pre ++ c :: post) = some pre.length := by
  induction pre with
  | nil => simp [strrchr, strrchr_none c post h]
  | cons x rest ih => simp [strrchr, ih]

theorem update_output_identifier (r : Registry) (p : Nat) (o : display_output)
    (f : display_output → display_output) (hp : r.heap[p]? = some o) :
    ∃ r1, update_output r p f = Outcome.ok r1 ∧
      output_identifier_of r1 p = (f o).identifier := by
  have hlt : p < r.heap.length := by
    rcases Nat.lt_or_ge p r.heap.length with h | h
    · exact h
    · rw [List.getElem?_eq_none h] at hp
      cases hp
  refine ⟨{ r with heap := r.heap.set p (f o) }, ?_, ?_⟩
  · simp only [update_output, hp]
  · simp [output_identifier_of, hlt]

/-- C12, as amended. For an output that exists: a description without `(` is
stored whole as the identifier; a description with `(`, whose last `(` has at
least one character in front of it, gets an identifier that is a prefix of the
characters before that last `(` and lacks at most one of them. -/
theorem identifier_cut_at_last_paren (r : Registry) (p : Nat) (o : display_output)
    (description : String) (hp : r.heap[p]? = some o) :
    ('(' ∉ description.toList →
      ∃ r1, output_description r p description = Outcome.ok r1 ∧
        output_identifier_of r1 p = some description) ∧
    (∀ pre post : List Char, description.toList = pre ++ '(' :: post → '(' ∉ post → pre ≠ [] →
      ∃ r1 ident, output_description r p description = Outcome.ok r1 ∧
        output_identifier_of r1 p = some ident ∧
        ident.toList <+: pre ∧ pre.length ≤ ident.toList.length + 1) := by
  constructor
  · intro hno
    obtain ⟨r1, h1, h2⟩ := update_output_identifier r p o
      (fun o => { o with identifier := some description }) hp
    refine ⟨r1, ?_, h2⟩
    unfold output_description
    rw [strrchr_none _ _ hno]
    exact h1
  · intro pre post hd hpost hpre
    have hlen : 0 < pre.length := List.length_pos.mpr hpre
    obtain ⟨r1, h1, h2⟩ := update_output_identifier r p o
      (fun o => { o with
        identifier := some (String.mk (description.toList.take (pre.length - 1))) }) hp
    refine ⟨r1, String.mk (description.toList.take (pre.length - 1)), ?_, h2, ?_, ?_⟩
    · have hs : strrchr '(' description.toList = some pre.length := by
        rw [hd]
        exact strrchr_last _ _ _ hpost
      unfold output_description
      rw [hs]
      simp only []
      rw [if_neg (by omega)]
      exact h1
    · show description.toList.take (pre.length - 1) <+: pre
      rw [hd, List.take_append_of_le_length (by omega)]
      exact List.take_prefix _ _
    · show pre.length ≤ (description.toList.take (pre.length - 1)).length + 1
      rw [hd, List.length_take, List.length_append]
      simp only [List.length_cons]
      omega

/-- Witness of C12 (amended): the second output of `three_outputs` and a
description in the form that wlroots gives. -/
theorem identifier_cut_at_last_paren_witness :
    ∃ r1 ident, output_description (three_outputs none) 1 "Acme 27 (HDMI-A-1)" = Outcome.ok r1 ∧
      output_identifier_of r1 1 = some ident ∧
      ident.toList <+: "Acme 27 ".toList ∧ "Acme 27 ".toList.length ≤ ident.toList.length + 1 :=
  (identifier_cut_at_last_paren (three_outputs none) 1 _ "Acme 27 (HDMI-A-1)" rfl).2
    "Acme 27 ".toList "HDMI-A-1)".toList rfl (by decide) (by decide)

/-- C12 as stated fails. For a description with two parentheses the identifier
runs to the last one, not to the first: the specification's wording gives
`"Acme "`, the listener stores `"Acme (rev 2)"`. -/
theorem identifier_runs_to_last_paren_counterexample :
    identifier_after "Acme (rev 2) (DP-1)" = some "Acme (rev 2)" ∧
    truncated_at_first_paren "Acme (rev 2) (DP-1)" = "Acme " ∧
    identifier_after "Acme (rev 2) (DP-1)" ≠
      some (truncated_at_first_paren "Acme (rev 2) (DP-1)") := by
  decide

/-- C18, the failing sequences. An output is discovered and described by a
text that begins with `(`, then done: `output_description` computes
`length = 0` and writes `identifier[length - 1]`, outside the buffer. An
output is discovered and done with no name event while `--monitor` is given:
`output_done` hands the `NULL` name to `strcmp`. Without `--monitor` and
without a description the same sequence is processed. -/
theorem listeners_undefined_on_bare_output :
    dispatch_events (Registry.init none)
        [OutputEvent.global 40, OutputEvent.description 0 "(DP-1)", OutputEvent.done 0] =
      Outcome.fault ∧
    dispatch_events (Registry.init (some "DP-1"))
        [OutputEvent.global 40, OutputEvent.done 0] = Outcome.fault ∧
    selected_after (Registry.init none) [OutputEvent.global 40, OutputEvent.done 0] = some 0 := by
  decide

/-! ## The claim on a failed decode -/

/-- C13, the failing run. Three frames are recorded and the decoder then
reports an error: the pass of the cache loop calls `decompress_jpeg` on slot 0,
gets `NULL`, hands it to `glTexSubImage2D` and presents; the process neither
calls `cleanup` nor exits, and the next pass goes on with slot 1. -/
theorem failed_decode_is_presented :
    written (run decode_error_cfg scenario_recording).frame_cache = 3 ∧
    decoded_pixels decode_error_cfg (run decode_error_cfg scenario_recording).frame_cache 0 =
      none ∧
    (run decode_error_cfg (scenario_recording ++ [scenario_tick []])).trace.drop 13 =
      [Event.decode 0, Event.upload 0 none, Event.present] ∧
    Event.cleanup ∉ (run decode_error_cfg (scenario_recording ++ [scenario_tick []])).trace ∧
    (run decode_error_cfg (scenario_recording ++ [scenario_tick []])).phase = Phase.playback ∧
    (run decode_error_cfg (scenario_recording ++ [scenario_tick []])).frame_idx = 1 := by
  decide

/-! ## The claims on teardown -/

/-- C14, the failing runs. While the cache loop runs with two cached frames,
a second call of `cleanup` makes every release call of the first again, on
objects already released: the two cache buffers, the cache array and the
connection among them. And `layer_surface_closed` disconnects `display`, after
which `cleanup` finds the global still set and disconnects it again. -/
theorem cleanup_twice_releases_twice :
    (cleanup playing_globals).calls =
      [(Resource.egl_surface, Ptr.live), (Resource.egl_context, Ptr.live),
       (Resource.egl_display, Ptr.live), (Resource.output 0, Ptr.live),
       (Resource.vbo, Ptr.live), (Resource.layer_surface, Ptr.live),
       (Resource.surface, Ptr.live), (Resource.layer_shell, Ptr.live),
       (Resource.registry, Ptr.live), (Resource.egl_win, Ptr.live),
       (Resource.jpeg_data 0, Ptr.live), (Resource.jpeg_data 1, Ptr.live),
       (Resource.frame_cache, Ptr.live), (Resource.cache_tex, Ptr.live),
       (Resource.passthrough_program, Ptr.live), (Resource.display, Ptr.live)] ∧
    (cleanup_again playing_globals).calls =
      [(Resource.egl_surface, Ptr.released), (Resource.egl_context, Ptr.released),
       (Resource.egl_display, Ptr.released),
       (Resource.vbo, Ptr.released), (Resource.layer_surface, Ptr.released),
       (Resource.surface, Ptr.released), (Resource.layer_shell, Ptr.released),
       (Resource.registry, Ptr.released), (Resource.egl_win, Ptr.released),
       (Resource.jpeg_data 0, Ptr.released), (Resource.jpeg_data 1, Ptr.released),
       (Resource.frame_cache, Ptr.released), (Resource.cache_tex, Ptr.released),
       (Resource.passthrough_program, Ptr.released), (Resource.display, Ptr.released)] ∧
    (layer_surface_closed playing_globals).calls.filter (fun c => c.1 = Resource.display) =
      [(Resource.display, Ptr.live), (Resource.display, Ptr.released)] := by
  decide

/-- C15, the failing states. An interrupt that arrives before line 922, while
the shader file is read, runs `cleanup` on a list head that is all zero: the
loop over `outputs` dereferences `NULL`. An interrupt that arrives after the
connection is opened and before line 947, with `--fps 3 --cache 1`, runs
`cleanup` with `cache_length = 3` and `frame_cache == NULL`: the loop over the
cache dereferences `NULL`. -/
theorem cleanup_undefined_during_startup :
    handle_sigint Globals.at_entry = Teardown.null_deref Resource.outputs [] ∧
    (main_startup plain_env (cache_args 3 1)).exit_status = none ∧
    (startup_globals (main_startup plain_env (cache_args 3 1))).cache_length = 3 ∧
    handle_sigint (startup_globals (main_startup plain_env (cache_args 3 1))) =
      Teardown.null_deref Resource.frame_cache [] := by
  decide

/-! ## The claim on the pointer uniform -/

@[simp] theorem pointer_updates_append (a b : List Event) :
    pointer_updates (a ++ b) = pointer_updates a ++ pointer_updates b := by
  induction a with
  | nil => rfl
  | cons e rest ih => cases e <;> simp [ih]

theorem step_no_pointer (cfg : Config) (s : Sched) (inp : TickInput)
    (hc : 0 < cfg.cache_length) :
    pointer_updates (step cfg s inp).trace = pointer_updates s.trace := by
  have h1 : ¬ cfg.cache_length ≤ 0 := by omega
  unfold step
  cases hph : s.phase with
  | exited st => rfl
  | crashed => rfl
  | playback =>
    simp only []
    unfold playback_step
    by_cases hd : inp.dispatch = -1
    · simp [hd]
    · rw [if_neg hd]
      cases hl : load_frame s.frame_cache s.frame_idx with
      | none => rfl
      | some fr =>
        simp only []
        cases hdec : decompress_jpeg cfg.lib fr.jpeg_data fr.jpeg_size cfg.w cfg.h with
        | fault => simp
        | null => by_cases hg : inp.gl_error = 0 <;> simp [hg]
        | ok rgba => by_cases hg : inp.gl_error = 0 <;> simp [hg]
  | render =>
    simp only []
    unfold render_step
    by_cases hd : inp.dispatch = -1
    · rw [if_pos hd]
      unfold leave_render
      split_ifs <;> simp
    · rw [if_neg hd]
      by_cases hf : cfg.cache_length > 0 ∧ s.current_frame = cfg.cache_length
      · rw [if_pos hf]
        unfold leave_render
        split_ifs <;> simp
      · rw [if_neg hf]
        simp only [h1, and_false, if_false, gt_iff_lt, hc, if_true]
        cases he : tick_encode cfg inp with
        | fault => simp
        | null => simp
        | ok jpeg =>
          simp only []
          cases hs : store_frame s.frame_cache s.current_frame jpeg with
          | none => simp
          | some cache =>
            simp only []
            unfold finish_render
            by_cases hg : inp.gl_error = 0 <;> simp [hg]

theorem run_no_pointer (cfg : Config) (hc : 0 < cfg.cache_length) (inputs : List TickInput) :
    pointer_updates (run cfg inputs).trace = [] := by
  induction inputs using List.reverseRecOn with
  | nil => simp [run, Sched.init]
  | append_singleton l a ih =>
    have hr : run cfg (l ++ [a]) = step cfg (run cfg l) a := by
      simp [run, List.foldl_append]
    rw [hr, step_no_pointer cfg _ a hc, ih]

theorem live_step_pointer (cfg : Config) (s : Sched) (inp : TickInput)
    (hh : cfg.running_hyprland = true) (hc : cfg.cache_length ≤ 0) (hph : s.phase = Phase.render) :
    (inp.dispatch = -1 ∧ (step cfg s inp).phase = Phase.exited 0 ∧
        pointer_updates (step cfg s inp).trace = pointer_updates s.trace ∧
        live_ticks (step cfg s inp).trace = live_ticks s.trace) ∨
    (inp.dispatch ≠ -1 ∧ (step cfg s inp).phase ≠ Phase.playback ∧
        pointer_updates (step cfg s inp).trace = pointer_updates s.trace ++ [cursor_of cfg inp] ∧
        live_ticks (step cfg s inp).trace = live_ticks s.trace ++ [s.current_frame]) := by
  have h1 : ¬ cfg.cache_length > 0 := by omega
  unfold step
  rw [hph]
  simp only []
  unfold render_step
  by_cases hd : inp.dispatch = -1
  · left
    rw [if_pos hd]
    unfold leave_render
    simp [h1, hd]
  · right
    rw [if_neg hd]
    simp only [h1, false_and, if_false, hh, hc, and_self, if_true]
    unfold finish_render
    by_cases hg : inp.gl_error = 0 <;> simp [hg, hd, hph, cursor_of]

theorem idle_step (cfg : Config) (s : Sched) (inp : TickInput) (hph : s.phase ≠ Phase.render)
    (hpb : s.phase ≠ Phase.playback) : step cfg s inp = s := by
  unfold step
  cases h : s.phase with
  | render => exact absurd h hph
  | playback => exact absurd h hpb
  | exited st => rfl
  | crashed => rfl

theorem live_run_pointer (cfg : Config) (hh : cfg.running_hyprland = true)
    (hc : cfg.cache_length ≤ 0) (inputs : List TickInput) :
    pointer_updates (run cfg inputs).trace =
        (inputs.take (live_ticks (run cfg inputs).trace).length).map (cursor_of cfg) ∧
      (live_ticks (run cfg inputs).trace).length ≤ inputs.length ∧
      ((run cfg inputs).phase = Phase.render →
        (live_ticks (run cfg inputs).trace).length = inputs.length) ∧
      (run cfg inputs).phase ≠ Phase.playback := by
  induction inputs using List.reverseRecOn with
  | nil => simp [run, Sched.init]
  | append_singleton l a ih =>
    have hr : run cfg (l ++ [a]) = step cfg (run cfg l) a := by
      simp [run, List.foldl_append]
    obtain ⟨ih1, ih2, ih3, ih4⟩ := ih
    rw [hr]
    by_cases hph : (run cfg l).phase = Phase.render
    · have hlen := ih3 hph
      rw [hlen, List.take_length] at ih1
      rcases live_step_pointer cfg (run cfg l) a hh hc hph with ⟨_, h2, h3, h4⟩ | ⟨_, h2, h3, h4⟩
      · rw [h3, h4, h2, hlen, List.take_append_of_le_length (le_refl _), List.take_length]
        refine ⟨ih1, by simp, ?_, ?_⟩
        · intro h
          cases h
        · intro h
          cases h
      · rw [h3, h4, ih1]
        refine ⟨?_, by simp [hlen], ?_, h2⟩
        · rw [List.length_append, hlen]
          simp
        · intro _
          simp [hlen]
    · rw [idle_step cfg _ a hph ih4]
      refine ⟨?_, ?_, ?_, ih4⟩
      · rw [List.take_append_of_le_length ih2]
        exact ih1
      · rw [List.length_append]
        omega
      · intro h
        exact absurd h hph

theorem live_step_phase (cfg : Config) (s : Sched) (inp : TickInput)
    (hc : cfg.cache_length ≤ 0) (hph : s.phase = Phase.render) (hd : inp.dispatch ≠ -1)
    (hg : inp.gl_error = 0) : (step cfg s inp).phase = Phase.render := by
  have h1 : ¬ cfg.cache_length > 0 := by omega
  unfold step
  rw [hph]
  simp only []
  unfold render_step
  rw [if_neg hd]
  simp only [h1, false_and, if_false]
  unfold finish_render
  simp [hg, hph]

theorem live_run_phase (cfg : Config) (hc : cfg.cache_length ≤ 0) (inputs : List TickInput) :
    (∀ inp ∈ inputs, inp.dispatch ≠ -1 ∧ inp.gl_error = 0) →
      (run cfg inputs).phase = Phase.render := by
  induction inputs using List.reverseRecOn with
  | nil =>
    intro _
    rfl
  | append_singleton l a ih =>
    intro hok
    have hr : run cfg (l ++ [a]) = step cfg (run cfg l) a := by
      rw [run_append]
      rfl
    rw [hr]
    have hprev := ih (fun inp hin => hok inp (by simp [hin]))
    obtain ⟨hd, hg⟩ := hok a (by simp)
    exact live_step_phase cfg _ a hc hprev hd hg

/-- C17, as amended. With the cursor source available (`running_hyprland`).
Without a cache: every pass of the render loop sets the pointer uniform to the
cursor position of that pass (the `int` difference to the origin of the
monitor, as a `float`) and then draws; in a run whose passes all pass dispatch
and the GL check, every input is such a pass, so the updates are the cursor
positions of all inputs in order; in any run they are those of its live
passes. With a cache (`cache_length > 0`): no pass updates the pointer
uniform, neither in the cache loop nor while recording, although the recording
passes do draw. -/
theorem pointer_updated_only_without_cache (cfg : Config) (inputs : List TickInput)
    (hh : cfg.running_hyprland = true) :
    (cfg.cache_length ≤ 0 →
      ∀ (s : Sched) (inp : TickInput), s.phase = Phase.render → inp.dispatch ≠ -1 →
        pointer_updates (step cfg s inp).trace = pointer_updates s.trace ++ [cursor_of cfg inp] ∧
        live_ticks (step cfg s inp).trace = live_ticks s.trace ++ [s.current_frame]) ∧
    (cfg.cache_length ≤ 0 → (∀ inp ∈ inputs, inp.dispatch ≠ -1 ∧ inp.gl_error = 0) →
      (run cfg inputs).phase = Phase.render ∧
      (live_ticks (run cfg inputs).trace).length = inputs.length ∧
      pointer_updates (run cfg inputs).trace = inputs.map (cursor_of cfg)) ∧
    (cfg.cache_length ≤ 0 →
      pointer_updates (run cfg inputs).trace =
        (inputs.take (live_ticks (run cfg inputs).trace).length).map (cursor_of cfg)) ∧
    (0 < cfg.cache_length → pointer_updates (run cfg inputs).trace = []) ∧
    (0 < cfg.cache_length → cfg.cache_length ≤ 2147483647 →
      (∀ inp ∈ inputs, TickOk cfg inp) → (inputs.length : Int) ≤ cfg.cache_length →
      (live_ticks (run cfg inputs).trace).length = inputs.length ∧
      pointer_updates (run cfg inputs).trace = []) := by
  refine ⟨?_, ?_, fun hc => (live_run_pointer cfg hh hc inputs).1,
    fun hc => run_no_pointer cfg hc inputs, ?_⟩
  · intro hc s inp hph hd
    rcases live_step_pointer cfg s inp hh hc hph with ⟨h1, _⟩ | ⟨_, _, h3, h4⟩
    · exact absurd h1 hd
    · exact ⟨h3, h4⟩
  · intro hc hok
    have hph := live_run_phase cfg hc inputs hok
    obtain ⟨h1, _, h3, _⟩ := live_run_pointer cfg hh hc inputs
    have hlen := h3 hph
    refine ⟨hph, hlen, ?_⟩
    rw [h1, hlen, List.take_length]
  · intro h0 hN hok hlen
    obtain ⟨_, _, hl⟩ := recording_prefix hN h0 inputs hok hlen
    refine ⟨?_, run_no_pointer cfg h0 inputs⟩
    rw [hl]
    simp

/-- Witness of C17 (amended): two passes under Hyprland without a cache, the
cursor at `(5, 7)` and then at `(16777217, 8)`, a position that a `float` does
not hold exactly. -/
theorem pointer_updated_only_without_cache_witness :
    pointer_updates (run hyprland_live_cfg [cursor_tick 5 7, cursor_tick 16777217 8]).trace =
      [(5, 7), (16777216, 8)] :=
  ((pointer_updated_only_without_cache hyprland_live_cfg
    [cursor_tick 5 7, cursor_tick 16777217 8] rfl).2.1 (by decide) (by decide)).2.2.trans
    (by decide)

/-- C17 as stated fails. Under Hyprland with a cache of 3 frames, the first
pass of the render loop records a frame (it draws and stores slot 0) and does
not update the pointer uniform. -/
theorem recording_tick_leaves_pointer_counterexample :
    hyprland_cfg.running_hyprland = true ∧
    live_ticks (run hyprland_cfg [cursor_tick 5 7]).trace = [0] ∧
    stored (run hyprland_cfg [cursor_tick 5 7]).trace = [(0, 0)] ∧
    pointer_updates (run hyprland_cfg [cursor_tick 5 7]).trace = [] := by
  decide

/-! ## The claim on the rows handed to the encoder -/

/-- The scanline loop of `compress_jpeg` with any library, when the image fits
the `int` offsets and the input holds all its pixels: no access leaves a
buffer, and when the loop returns data, they are what `jpeg_finish_compress`
leaves for the scanlines handed over, one per remaining row in increasing
order, each of `3 * w` bytes taken from the pixels of its row. -/
theorem compress_scanlines_safe (lib : JpegLib) (rgba : List Byte) (wn ih : Nat) (q : Int)
    (hin : 4 * (ih * wn) ≤ rgba.length) (hmax : 4 * (ih * wn) ≤ 2147483648) :
    ∀ (n : Nat) (done : List (List Byte)) (row : List Byte),
      done.length + n = ih → row.length = 3 * wn →
      compress_scanlines lib rgba (wn : Int) wn ih q n done row ≠ Outcome.fault ∧
      ∀ data, compress_scanlines lib rgba (wn : Int) wn ih q n done row = Outcome.ok data →
        ∃ tail : List (List Byte),
          lib.finish_compress wn ih q (done ++ tail) = some data ∧ tail.length = n ∧
          ∀ (j : Nat) (scan : List Byte), tail[j]? = some scan → scan.length = 3 * wn ∧
            ∀ x, x < wn → ∀ k, k < 3 →
              scan[3 * x + k]? = rgba[4 * ((done.length + j) * wn + x) + k]? := by
  intro n
  induction n with
  | zero =>
    intro done row _ _
    have hu : compress_scanlines lib rgba (wn : Int) wn ih q 0 done row =
        (match lib.finish_compress wn ih q done with
          | none => Outcome.null
          | some out => Outcome.ok out) := rfl
    rw [hu]
    cases hf : lib.finish_compress wn ih q done with
    | none =>
      exact ⟨fun h => (by cases h), fun data h => (by cases h)⟩
    | some out =>
      refine ⟨fun h => (by cases h), fun data h => ?_⟩
      have hd : out = data := by
        cases h
        rfl
      subst hd
      refine ⟨[], by rw [List.append_nil]; exact hf, rfl, ?_⟩
      intro j scan hj
      simp at hj
  | succ n ih2 =>
    intro done row hlen hrow
    have hk : done.length * wn + wn ≤ ih * wn := by
      have : (done.length + 1) * wn ≤ ih * wn := Nat.mul_le_mul_right _ (by omega)
      rw [Nat.add_mul, Nat.one_mul] at this
      exact this
    obtain ⟨hP, hm⟩ := scan_index_eq done.length wn (by omega)
    obtain ⟨row1, hrun1, hlen1, hrgb1, _⟩ :=
      compress_row_spec rgba (wn : Int) _ hm wn 0 (done.length * wn) row hP
        (by rw [hrow]; omega) (by omega) (by omega)
    have hrun2 : compress_row rgba (wn : Int) (wrapInt (done.length : Int)) (wn : Int).toNat 0
        row = some row1 := by
      rw [Int.toNat_ofNat]
      exact hrun1
    rw [compress_scanlines_unfold, hrun2]
    simp only []
    cases hw : lib.write_scanlines wn ih q done row1 with
    | none =>
      exact ⟨fun h => (by cases h), fun data h => (by cases h)⟩
    | some count =>
      simp only []
      by_cases hc : count = 1
      · rw [if_pos hc]
        obtain ⟨hnf, hok⟩ := ih2 (done ++ [row1]) row1
          (by rw [List.length_append, List.length_singleton]; omega) (by rw [hlen1, hrow])
        refine ⟨hnf, fun data hdata => ?_⟩
        obtain ⟨tail, hfin, htl, hcontent⟩ := hok data hdata
        refine ⟨row1 :: tail, ?_, by rw [List.length_cons, htl], ?_⟩
        · rw [List.append_assoc] at hfin
          exact hfin
        · intro j scan hj
          cases j with
          | zero =>
            rw [List.getElem?_cons_zero] at hj
            have hs : row1 = scan := Option.some.inj hj
            subst hs
            refine ⟨by rw [hlen1, hrow], ?_⟩
            intro x hx k hk3
            have h1 := hrgb1 x hx k hk3
            have e1 : 3 * (0 + x) + k = 3 * x + k := by omega
            have e2 : 4 * ((done.length + 0) * wn + x) + k =
                4 * (done.length * wn + x) + k := by
              simp
            rw [e1] at h1
            rw [e2]
            exact h1
          | succ j =>
            rw [List.getElem?_cons_succ] at hj
            obtain ⟨hl, hc2⟩ := hcontent j scan hj
            refine ⟨hl, ?_⟩
            intro x hx k hk3
            have h1 := hc2 x hx k hk3
            rw [List.length_append, List.length_singleton] at h1
            have e : done.length + (j + 1) = done.length + 1 + j := by omega
            rw [e]
            exact h1
      · rw [if_neg hc]
        exact ⟨fun h => (by cases h), fun data h => (by cases h)⟩

/-- C16. For an image of at least one pixel whose `4 * w * h` bytes fit an
`int` and an input buffer of exactly that many bytes, with any library and any
quality: `compress_jpeg` makes no access outside a buffer; the data it returns
are what the encoder made of the `h` scanlines it was handed in increasing
order, the scanline of row `y` having `3 * w` bytes, bytes `3 * x`, `3 * x + 1`
and `3 * x + 2` being bytes 0, 1 and 2 (R, G, B) of pixel `y * w + x` of the
input. With a faithful library that accepts the image, it does return data. -/
theorem compress_hands_rgb_rows (lib : JpegLib) (rgba : List Byte) (w h : Nat) (q : Int)
    (hw1 : 1 ≤ w) (hh1 : 1 ≤ h) (hfit : 4 * (w * h) ≤ 2147483647)
    (hlen : rgba.length = 4 * (w * h)) :
    compress_jpeg lib rgba (w : Int) (h : Int) q ≠ Outcome.fault ∧
    (∀ data, compress_jpeg lib rgba (w : Int) (h : Int) q = Outcome.ok data →
      ∃ rows : List (List Byte), lib.finish_compress w h q rows = some data ∧ rows.length = h ∧
        ∀ y scan, rows[y]? = some scan → scan.length = 3 * w ∧
          ∀ x, x < w → ∀ k, k < 3 → scan[3 * x + k]? = rgba[4 * (y * w + x) + k]?) ∧
    (lib.Faithful → lib.start_compress w h q = true →
      ∃ data, compress_jpeg lib rgba (w : Int) (h : Int) q = Outcome.ok data) := by
  have hwle : w ≤ w * h := Nat.le_mul_of_pos_right w (by omega)
  have hhle : h ≤ w * h := Nat.le_mul_of_pos_left h (by omega)
  have hcomm : h * w = w * h := Nat.mul_comm h w
  have hstride : wrapInt ((w : Int) * 3) = ((3 * w : Nat) : Int) := by
    rw [wrapInt_of_range (by omega) (by omega)]
    push_cast
    omega
  have hm : mallocOk (3 * w) = true := by
    unfold mallocOk
    simp
    omega
  obtain ⟨hnf, hok⟩ := compress_scanlines_safe lib rgba w h q (by omega) (by omega) h []
    (List.replicate (3 * w) 0) (by simp) (by simp)
  have hu : compress_jpeg lib rgba (w : Int) (h : Int) q =
      if lib.start_compress w h q = false then Outcome.null
      else compress_scanlines lib rgba (w : Int) w h q h [] (List.replicate (3 * w) 0) := by
    unfold compress_jpeg
    simp only [toUnsigned_natCast w (by omega), toUnsigned_natCast h (by omega), hstride,
      toSize_natCast (3 * w) (by omega), hm]
    simp
  refine ⟨?_, ?_, ?_⟩
  · rw [hu]
    by_cases hs : lib.start_compress w h q = false
    · rw [if_pos hs]
      intro hc
      cases hc
    · rw [if_neg hs]
      exact hnf
  · intro data hdata
    rw [hu] at hdata
    by_cases hs : lib.start_compress w h q = false
    · rw [if_pos hs] at hdata
      cases hdata
    · rw [if_neg hs] at hdata
      obtain ⟨tail, hfin, htl, hcontent⟩ := hok data hdata
      refine ⟨tail, by simpa using hfin, htl, ?_⟩
      intro y scan hy
      have := hcontent y scan hy
      simpa using this
  · intro hlib hacc
    obtain ⟨data, _, hc, _⟩ :=
      compress_jpeg_returns lib hlib rgba w h q hw1 hh1 hacc (by omega) (by omega)
    exact ⟨data, hc⟩

/-- Witness of C16: a red image of 2×2 pixels with `rawLib`. -/
theorem compress_hands_rgb_rows_witness :
    compress_jpeg rawLib (solid 255 0 0) ((2 : Nat) : Int) ((2 : Nat) : Int) 75 ≠ Outcome.fault ∧
    (∀ data, compress_jpeg rawLib (solid 255 0 0) ((2 : Nat) : Int) ((2 : Nat) : Int) 75 =
        Outcome.ok data →
      ∃ rows : List (List Byte), rawLib.finish_compress 2 2 75 rows = some data ∧
        rows.length = 2 ∧
        ∀ y scan, rows[y]? = some scan → scan.length = 3 * 2 ∧
          ∀ x, x < 2 → ∀ k, k < 3 →
            scan[3 * x + k]? = (solid 255 0 0)[4 * (y * 2 + x) + k]?) ∧
    (rawLib.Faithful → rawLib.start_compress 2 2 75 = true →
      ∃ data, compress_jpeg rawLib (solid 255 0 0) ((2 : Nat) : Int) ((2 : Nat) : Int) 75 =
        Outcome.ok data) :=
  compress_hands_rgb_rows rawLib (solid 255 0 0) 2 2 75 (by decide) (by decide) (by decide)
    (by decide)

/-! ## Facts about `replace_all` -/

theorem scan_replace_skip (oldStr newStr : List Char) :
    ∀ (s : List Char) (k : Nat),
      scan_replace oldStr newStr k s = scan_replace oldStr newStr 0 (s.drop k) := by
  intro s
  induction s with
  | nil =>
    intro k
    cases k <;> simp [scan_replace]
  | cons c rest ih =>
    intro k
    cases k with
    | zero => rfl
    | succ k =>
      rw [List.drop_succ_cons, ← ih k]
      rfl

theorem scan_count_skip (oldStr : List Char) :
    ∀ (s : List Char) (k : Nat), scan_count oldStr k s = scan_count oldStr 0 (s.drop k) := by
  intro s
  induction s with
  | nil =>
    intro k
    cases k <;> simp [scan_count]
  | cons c rest ih =>
    intro k
    cases k with
    | zero => rfl
    | succ k =>
      rw [List.drop_succ_cons, ← ih k]
      rfl

theorem strstr_none_scan (oldStr newStr : List Char) :
    ∀ s : List Char, strstr s oldStr = none →
      scan_replace oldStr newStr 0 s = s ∧ scan_count oldStr 0 s = 0 := by
  intro s
  induction s with
  | nil =>
    intro _
    exact ⟨rfl, rfl⟩
  | cons c rest ih =>
    intro h
    by_cases hp : oldStr.isPrefixOf (c :: rest) = true
    · simp [strstr, hp] at h
    · cases hs : strstr rest oldStr with
      | some n => simp [strstr, hp, hs] at h
      | none =>
        obtain ⟨h1, h2⟩ := ih hs
        constructor
        · show (if oldStr.isPrefixOf (c :: rest) = true then _ else _) = _
          rw [if_neg hp, h1]
        · show (if oldStr.isPrefixOf (c :: rest) = true then _ else _) = _
          rw [if_neg hp, h2]

theorem strstr_some_scan (oldStr newStr : List Char) (hold : oldStr ≠ []) :
    ∀ (s : List Char) (n : Nat), strstr s oldStr = some n →
      n + oldStr.length ≤ s.length ∧
      scan_replace oldStr newStr 0 s =
        s.take n ++ (newStr ++ scan_replace oldStr newStr 0 (s.drop (n + oldStr.length))) ∧
      scan_count oldStr 0 s = scan_count oldStr 0 (s.drop (n + oldStr.length)) + 1 := by
  have hpos : 1 ≤ oldStr.length := List.length_pos.mpr hold
  intro s
  induction s with
  | nil =>
    intro n h
    simp [strstr, hold] at h
  | cons c rest ih =>
    intro n h
    by_cases hp : oldStr.isPrefixOf (c :: rest) = true
    · have hn : n = 0 := by
        simp [strstr, hp] at h
        omega
      subst hn
      have hle : oldStr.length ≤ (c :: rest).length :=
        (List.isPrefixOf_iff_prefix.mp hp).length_le
      have hd : (c :: rest).drop (0 + oldStr.length) = rest.drop (oldStr.length - 1) := by
        have e : 0 + oldStr.length = (oldStr.length - 1) + 1 := by omega
        rw [e, List.drop_succ_cons]
      refine ⟨by omega, ?_, ?_⟩
      · rw [hd, List.take_zero, List.nil_append, ← scan_replace_skip]
        show (if oldStr.isPrefixOf (c :: rest) = true then _ else _) = _
        rw [if_pos hp]
      · rw [hd, ← scan_count_skip]
        show (if oldStr.isPrefixOf (c :: rest) = true then _ else _) = _
        rw [if_pos hp]
    · cases hs : strstr rest oldStr with
      | none => simp [strstr, hp, hs] at h
      | some m =>
        have hn : n = m + 1 := by
          simp [strstr, hp, hs] at h
          omega
        subst hn
        obtain ⟨h1, h2, h3⟩ := ih m hs
        have hd : (c :: rest).drop (m + 1 + oldStr.length) = rest.drop (m + oldStr.length) := by
          have e : m + 1 + oldStr.length = (m + oldStr.length) + 1 := by omega
          rw [e, List.drop_succ_cons]
        refine ⟨by rw [List.length_cons]; omega, ?_, ?_⟩
        · rw [hd, List.take_succ_cons, List.cons_append, ← h2]
          show (if oldStr.isPrefixOf (c :: rest) = true then _ else _) = _
          rw [if_neg hp]
        · rw [hd, ← h3]
          show (if oldStr.isPrefixOf (c :: rest) = true then _ else _) = _
          rw [if_neg hp]

/-- Lengths under `scan_replace`: each occurrence trades the length of
`oldStr` for the length of `newStr`, and the occurrences fit in the string. -/
theorem scan_replace_length (oldStr newStr : List Char) (hold : oldStr ≠ []) :
    ∀ (m : Nat) (s : List Char), s.length ≤ m →
      (scan_replace oldStr newStr 0 s).length + scan_count oldStr 0 s * oldStr.length =
          s.length + scan_count oldStr 0 s * newStr.length ∧
        scan_count oldStr 0 s * oldStr.length ≤ s.length := by
  have hpos : 1 ≤ oldStr.length := List.length_pos.mpr hold
  intro m
  induction m with
  | zero =>
    intro s hs
    have : s = [] := List.length_eq_zero.mp (by omega)
    subst this
    simp [scan_replace, scan_count]
  | succ m ih =>
    intro s hs
    cases h : strstr s oldStr with
    | none =>
      obtain ⟨h1, h2⟩ := strstr_none_scan oldStr newStr s h
      rw [h1, h2]
      simp
    | some n =>
      obtain ⟨h1, h2, h3⟩ := strstr_some_scan oldStr newStr hold s n h
      have hdl : (s.drop (n + oldStr.length)).length = s.length - (n + oldStr.length) :=
        List.length_drop _ _
      obtain ⟨i1, i2⟩ := ih (s.drop (n + oldStr.length)) (by omega)
      rw [h2, h3, List.length_append, List.length_append, List.length_take, Nat.add_mul,
        Nat.add_mul, Nat.one_mul, Nat.one_mul]
      rw [hdl] at i1 i2
      have hmin : min n s.length = n := by omega
      rw [hmin]
      omega

theorem scan_count_le (oldStr : List Char) (hold : oldStr ≠ []) (s : List Char) :
    scan_count oldStr 0 s ≤ s.length := by
  have hpos : 1 ≤ oldStr.length := List.length_pos.mpr hold
  have h := (scan_replace_length oldStr [] hold s.length s (le_refl _)).2
  calc scan_count oldStr 0 s = scan_count oldStr 0 s * 1 := (Nat.mul_one _).symm
    _ ≤ scan_count oldStr 0 s * oldStr.length := Nat.mul_le_mul_left _ hpos
    _ ≤ s.length := h

theorem scan_count_zero (oldStr newStr : List Char) (hold : oldStr ≠ []) (s : List Char)
    (h : scan_count oldStr 0 s = 0) : scan_replace oldStr newStr 0 s = s := by
  cases hs : strstr s oldStr with
  | none => exact (strstr_none_scan oldStr newStr s hs).1
  | some n =>
    have := (strstr_some_scan oldStr newStr hold s n hs).2.2
    omega

/-- The counting loop of `replace_all` ends within `src.length - pos + 1`
passes and counts the occurrences that `scan_count` counts. -/
theorem count_loop_spec (src oldStr : List Char) (hold : oldStr ≠ []) :
    ∀ (fuel pos : Nat) (count : Int), pos ≤ src.length → src.length - pos < fuel →
      -2147483648 ≤ count →
      count + (scan_count oldStr 0 (src.drop pos) : Int) ≤ 2147483647 →
      count_loop src oldStr (oldStr.length : Int) fuel (pos : Int) count =
        some (Outcome.ok (count + (scan_count oldStr 0 (src.drop pos) : Int))) := by
  have hpos : 1 ≤ oldStr.length := List.length_pos.mpr hold
  intro fuel
  induction fuel with
  | zero =>
    intro pos count _ hf
    omega
  | succ fuel ih =>
    intro pos count hp hf hc0 hc
    have hu : count_loop src oldStr (oldStr.length : Int) (fuel + 1) (pos : Int) count =
        if (pos : Int) < 0 ∨ (src.length : Int) < (pos : Int) then some Outcome.fault
        else
          match strstr (src.drop (pos : Int).toNat) oldStr with
          | none => some (Outcome.ok count)
          | some n =>
            count_loop src oldStr (oldStr.length : Int) fuel
              ((pos : Int) + (n : Int) + (oldStr.length : Int)) (wrapInt (count + 1)) := rfl
    rw [hu, if_neg (by omega), Int.toNat_ofNat]
    cases hs : strstr (src.drop pos) oldStr with
    | none =>
      simp only []
      rw [(strstr_none_scan oldStr [] _ hs).2]
      simp
    | some n =>
      simp only []
      obtain ⟨h1, _, h3⟩ := strstr_some_scan oldStr [] hold _ n hs
      rw [List.length_drop] at h1
      rw [List.drop_drop] at h3
      have hw : wrapInt (count + 1) = count + 1 := by
        apply wrapInt_of_range <;> omega
      have hcast : (pos : Int) + (n : Int) + (oldStr.length : Int) =
          ((pos + n + oldStr.length : Nat) : Int) := by
        push_cast
        rfl
      have hcomm : pos + (n + oldStr.length) = pos + n + oldStr.length := by omega
      rw [hcomm] at h3
      rw [hw, hcast, ih (pos + n + oldStr.length) (count + 1) (by omega) (by omega) (by omega)
        (by omega), h3]
      congr 2
      push_cast
      omega

/-- The copying loop of `replace_all` ends within `src.length - p + 1` passes
and writes what `scan_replace` describes, when `tmp` has room for it and the
terminator. -/
theorem copy_loop_spec (src oldStr newStr : List Char) (hold : oldStr ≠ []) (size : Nat) :
    ∀ (fuel p : Nat) (dst : List Char), p ≤ src.length → src.length - p < fuel →
      dst.length + (scan_replace oldStr newStr 0 (src.drop p)).length + 1 ≤ size →
      copy_loop src oldStr newStr (oldStr.length : Int) (newStr.length : Int) size fuel
          (p : Int) dst =
        some (Outcome.ok (dst ++ scan_replace oldStr newStr 0 (src.drop p))) := by
  have hpos : 1 ≤ oldStr.length := List.length_pos.mpr hold
  intro fuel
  induction fuel with
  | zero =>
    intro p dst _ hf
    omega
  | succ fuel ih =>
    intro p dst hp hf hsize
    have hu : copy_loop src oldStr newStr (oldStr.length : Int) (newStr.length : Int) size
        (fuel + 1) (p : Int) dst =
        if (p : Int) < 0 ∨ (src.length : Int) < (p : Int) then some Outcome.fault
        else
          match strstr (src.drop (p : Int).toNat) oldStr with
          | none =>
            if (dst ++ src.drop (p : Int).toNat).length + 1 ≤ size then
              some (Outcome.ok (dst ++ src.drop (p : Int).toNat))
            else some Outcome.fault
          | some n =>
            if size < (dst ++ (src.drop (p : Int).toNat).take n).length then some Outcome.fault
            else if (newStr.length : Int) < 0 ∨ (newStr.length : Int) < (newStr.length : Int) then
              some Outcome.fault
            else
              if size < (dst ++ (src.drop (p : Int).toNat).take n ++
                  newStr.take (newStr.length : Int).toNat).length then some Outcome.fault
              else
                copy_loop src oldStr newStr (oldStr.length : Int) (newStr.length : Int) size fuel
                  ((p : Int) + (n : Int) + (oldStr.length : Int))
                  (dst ++ (src.drop (p : Int).toNat).take n ++
                    newStr.take (newStr.length : Int).toNat) := rfl
    rw [hu, if_neg (by omega), Int.toNat_ofNat]
    cases hs : strstr (src.drop p) oldStr with
    | none =>
      simp only []
      rw [(strstr_none_scan oldStr newStr _ hs).1] at hsize ⊢
      rw [if_pos (by rw [List.length_append]; omega)]
    | some n =>
      simp only []
      obtain ⟨h1, h2, _⟩ := strstr_some_scan oldStr newStr hold _ n hs
      rw [h2] at hsize ⊢
      rw [List.length_drop] at h1
      rw [List.drop_drop] at h2 hsize ⊢
      have hcomm : p + (n + oldStr.length) = p + n + oldStr.length := by omega
      rw [hcomm] at hsize ⊢
      simp only [List.length_append, List.length_take, List.length_drop] at hsize
      have hmin : min n (src.length - p) = n := by omega
      rw [hmin] at hsize
      have hcast : (p : Int) + (n : Int) + (oldStr.length : Int) =
          ((p + n + oldStr.length : Nat) : Int) := by
        push_cast
        rfl
      rw [Int.toNat_ofNat, List.take_length, hcast]
      rw [if_neg (by simp only [List.length_append, List.length_take, List.length_drop]; omega),
        if_neg (by omega),
        if_neg (by simp only [List.length_append, List.length_take, List.length_drop]; omega),
        ih (p + n + oldStr.length) _ (by omega) (by omega)
          (by simp only [List.length_append, List.length_take, List.length_drop]; omega)]
      simp only [List.append_assoc]

theorem replace_all_unfold (fuel : Nat) (src oldStr newStr : List Char) :
    replace_all fuel src oldStr newStr =
      match count_loop src oldStr (wrapInt (oldStr.length : Int)) fuel 0 0 with
      | none => none
      | some Outcome.fault => some Outcome.fault
      | some Outcome.null => some Outcome.null
      | some (Outcome.ok count) =>
        if count = 0 then some (Outcome.ok src)
        else
          if mallocOk ((src.length + toSize (wrapInt (count *
              wrapInt (wrapInt (newStr.length : Int) - wrapInt (oldStr.length : Int)))) + 1) %
              18446744073709551616) = false then some (Outcome.ok src)
          else
            copy_loop src oldStr newStr (wrapInt (oldStr.length : Int))
              (wrapInt (newStr.length : Int))
              ((src.length + toSize (wrapInt (count *
                wrapInt (wrapInt (newStr.length : Int) - wrapInt (oldStr.length : Int)))) + 1) %
                18446744073709551616) fuel 0 [] := rfl

theorem wrapInt_natCast (n : Nat) (h : n ≤ 2147483647) : wrapInt (n : Int) = (n : Int) :=
  wrapInt_of_range (by omega) (by omega)

theorem wrapInt_length_diff (a b : Nat) (ha : a ≤ 2147483647) (hb : b ≤ 2147483647) :
    wrapInt ((a : Int) - (b : Int)) = (a : Int) - (b : Int) :=
  wrapInt_of_range (by omega) (by omega)

theorem wrapInt_growth (len r : Nat) (x : Int) (hx : (r : Int) = (len : Int) + x)
    (hlen : len ≤ 2147483647) (hmax : x ≤ 2147483647) : wrapInt x = x :=
  wrapInt_of_range (by omega) hmax

theorem malloc_size_eq (len r : Nat) (x : Int) (hx : (r : Int) = (len : Int) + x)
    (hr : r ≤ 4294967296) :
    (len + toSize x + 1) % 18446744073709551616 = r + 1 := by
  unfold toSize
  omega

/-! ## The claim on `replace_all` -/

/-- C19, as amended. For a source string, a non-empty `oldStr` and a `newStr`
whose lengths fit an `int`, and with `count * (len(newStr) - len(oldStr))`
within `int`, where `count` is the number of occurrences met by scanning from
left to right without overlap: `replace_all` ends (more fuel than the source
has characters is enough) and leaves in `*src` the string in which each of
those occurrences is replaced by `newStr`, the source itself when there is
none; its length is `len(src) + count * (len(newStr) - len(oldStr))`. -/
theorem replace_all_replaces_occurrences (src oldStr newStr : List Char) (fuel : Nat)
    (hold : oldStr ≠ []) (hfuel : src.length < fuel)
    (hsrc : src.length ≤ 2147483647) (hlo : oldStr.length ≤ 2147483647)
    (hln : newStr.length ≤ 2147483647)
    (hprod : (scan_count oldStr 0 src : Int) *
      ((newStr.length : Int) - (oldStr.length : Int)) ≤ 2147483647) :
    replace_all fuel src oldStr newStr =
        some (Outcome.ok (scan_replace oldStr newStr 0 src)) ∧
      ((scan_replace oldStr newStr 0 src).length : Int) =
        (src.length : Int) + (scan_count oldStr 0 src : Int) *
          ((newStr.length : Int) - (oldStr.length : Int)) := by
  obtain ⟨hlen, _⟩ := scan_replace_length oldStr newStr hold src.length src (le_refl _)
  have hcle := scan_count_le oldStr hold src
  have hlenZ : ((scan_replace oldStr newStr 0 src).length : Int) =
      (src.length : Int) + (scan_count oldStr 0 src : Int) *
        ((newStr.length : Int) - (oldStr.length : Int)) := by
    have h := congrArg (fun n : Nat => (n : Int)) hlen
    simp only [Nat.cast_add, Nat.cast_mul] at h
    rw [mul_sub]
    omega
  refine ⟨?_, hlenZ⟩
  have hcount := count_loop_spec src oldStr hold fuel 0 0 (by omega) (by omega) (by omega)
    (by rw [List.drop_zero]; omega)
  rw [List.drop_zero, Int.zero_add] at hcount
  have hwo := wrapInt_natCast oldStr.length hlo
  have hwn := wrapInt_natCast newStr.length hln
  have hwd := wrapInt_length_diff newStr.length oldStr.length hln hlo
  have hwx := wrapInt_growth src.length (scan_replace oldStr newStr 0 src).length _ hlenZ hsrc
    hprod
  rw [replace_all_unfold, hwo, hwn, hwd]
  have hcount2 : count_loop src oldStr (oldStr.length : Int) fuel 0 0 =
      some (Outcome.ok (scan_count oldStr 0 src : Int)) := hcount
  rw [hcount2]
  simp only []
  by_cases hc0 : scan_count oldStr 0 src = 0
  · rw [if_pos (by rw [hc0]; rfl), scan_count_zero oldStr newStr hold src hc0]
  · rw [if_neg (by omega), hwx,
      malloc_size_eq src.length (scan_replace oldStr newStr 0 src).length _ hlenZ (by omega)]
    have hm : mallocOk ((scan_replace oldStr newStr 0 src).length + 1) = true := by
      unfold mallocOk
      simp only [decide_eq_true_eq]
      omega
    rw [hm]
    simp only [Bool.true_eq_false, if_false]
    have hcopy := copy_loop_spec src oldStr newStr hold
      ((scan_replace oldStr newStr 0 src).length + 1) fuel 0 [] (by omega) (by omega)
      (by rw [List.drop_zero, List.length_nil]; omega)
    rw [List.drop_zero, List.nil_append] at hcopy
    exact hcopy

/-- Witness of C19 (amended): two occurrences of `iTime` become `time`. -/
theorem replace_all_replaces_occurrences_witness :
    replace_all 12 "iTime+iTime".toList "iTime".toList "time".toList =
        some (Outcome.ok "time+time".toList) ∧
      (("time+time".toList.length : Nat) : Int) = 11 + 2 * (4 - 5) :=
  have h := replace_all_replaces_occurrences "iTime+iTime".toList "iTime".toList "time".toList
    12 (by decide) (by decide) (by decide) (by decide) (by decide) (by decide)
  ⟨h.1.trans (by decide), by decide⟩

theorem scan_count_replicate (c : Char) (n : Nat) :
    scan_count [c] 0 (List.replicate n c) = n := by
  induction n with
  | zero => rfl
  | succ n ih =>
    show (if [c].isPrefixOf (c :: List.replicate n c) = true then
      scan_count [c] ([c].length - 1) (List.replicate n c) + 1
      else scan_count [c] 0 (List.replicate n c)) = n + 1
    rw [if_pos (by simp [List.isPrefixOf])]
    show scan_count [c] 0 (List.replicate n c) + 1 = n + 1
    rw [ih]

theorem replace_all_malloc_fails (fuel : Nat) (src oldStr newStr : List Char) (count : Int)
    (hcount : count_loop src oldStr (wrapInt (oldStr.length : Int)) fuel 0 0 =
      some (Outcome.ok count))
    (hne : count ≠ 0)
    (hm : mallocOk ((src.length + toSize (wrapInt (count *
      wrapInt (wrapInt (newStr.length : Int) - wrapInt (oldStr.length : Int)))) + 1) %
      18446744073709551616) = false) :
    replace_all fuel src oldStr newStr = some (Outcome.ok src) := by
  rw [replace_all_unfold, hcount]
  simp only []
  rw [if_neg hne, hm]
  rfl

theorem replace_all_on_repeated (n m fuel : Nat) (c d : Char) (hn : n ≤ 2147483647)
    (hfuel : n < fuel) (hn0 : n ≠ 0)
    (hm : mallocOk ((n + toSize (wrapInt ((n : Int) *
      wrapInt (wrapInt (m : Int) - wrapInt ((1 : Nat) : Int)))) + 1) %
      18446744073709551616) = false) :
    replace_all fuel (List.replicate n c) [c] (List.replicate m d) =
        some (Outcome.ok (List.replicate n c)) ∧
      scan_count [c] 0 (List.replicate n c) = n ∧
      (scan_replace [c] (List.replicate m d) 0 (List.replicate n c)).length = n * m := by
  have hc := scan_count_replicate c n
  have hold : [c] ≠ [] := by simp
  have hcount := count_loop_spec (List.replicate n c) [c] hold fuel 0 0
    (by simp) (by simpa using hfuel) (by omega) (by rw [List.drop_zero, hc]; omega)
  rw [List.drop_zero, Int.zero_add, hc] at hcount
  have hw1 : wrapInt (([c].length : Nat) : Int) = (([c].length : Nat) : Int) :=
    wrapInt_natCast _ (by simp)
  refine ⟨?_, hc, ?_⟩
  · apply replace_all_malloc_fails fuel _ _ _ (n : Int)
    · rw [hw1]
      exact hcount
    · omega
    · rw [List.length_replicate, List.length_replicate]
      exact hm
  · have hlen := (scan_replace_length [c] (List.replicate m d) hold (List.replicate n c).length
      (List.replicate n c) (le_refl _)).1
    rw [hc, List.length_replicate, List.length_replicate] at hlen
    simp only [List.length_singleton, Nat.mul_one] at hlen
    omega

/-- C19 as stated fails. The source is 46341 times `a`, `oldStr` is `a` and
`newStr` is 46342 times `b`: `count * (len_new - len_old)` is 46341 * 46341,
beyond `int`; the wrapped product is negative, the size handed to `malloc` is
beyond any object, `tmp` is `NULL` and `replace_all` returns with the source
unchanged, although each of its characters is an occurrence and the string
with the replacements has 46341 * 46342 characters. -/
theorem replace_all_overflow_counterexample :
    replace_all 46342 (List.replicate 46341 'a') ['a'] (List.replicate 46342 'b') =
        some (Outcome.ok (List.replicate 46341 'a')) ∧
      scan_count ['a'] 0 (List.replicate 46341 'a') = 46341 ∧
      (scan_replace ['a'] (List.replicate 46342 'b') 0 (List.replicate 46341 'a')).length =
        46341 * 46342 :=
  replace_all_on_repeated 46341 46342 46342 'a' 'b' (by decide) (by decide) (by decide)
    (by decide)

end Vecpaper
